import Mathlib

/-!
PACPUS component manager.

A shallow embedding of `ComponentManager.cpp` (PacpusLib): the factory and
component registries, the plugin / create / configure / retry protocol of
`loadComponents`, and the start / stop controller.

Conventions of the embedding

* `QString` is `String`; a pointer is an address (`Addr`), an index into the
  heap of component objects carried by the manager state.
* `QMap<QString, T*>` is an association list kept in ascending key order by
  `QMap.insert`.  The functions accept any list; `QMap.WF` states the invariant
  a real `QMap` has (keys pairwise distinct).
* Virtual methods of components and the plugin loader of Qt are behaviour the
  manager does not define: they are the fields of `Env`.
* Logging is a passive collaborator and is not modelled.  The manager state
  carries a ghost `trace` of the calls the manager issues, so that statements
  about "how many times" and "in which order" can be made.
-/

namespace pacpus

abbrev QString := String

/-- An address: the value of a `ComponentBase*`, `ComponentFactoryBase*` or `QObject*`. -/
abbrev Addr := Nat

/-! ## QMap -/

/-- Entries of a `QMap<QString, V>`, in iteration order. -/
abbrev QMap (V : Type) := List (QString × V)

namespace QMap

variable {V : Type}

/-- Lookup `QMap::find(key)`: the value under `key`, `none` standing for `end()`. -/
def find : QMap V → QString → Option V
  | [], _ => none
  | (k, v) :: rest, key => if k = key then some v else find rest key

/-- Membership `QMap::contains(key)`. -/
def contains (m : QMap V) (key : QString) : Bool :=
  (m.find key).isSome

/-- Assignment `map[key] = value`: overwrites the entry under `key`, or inserts one at
its place in ascending key order (`QString::operator<`, lexicographic on the characters). -/
def insert : QMap V → QString → V → QMap V
  | [], key, value => [(key, value)]
  | (k, v) :: rest, key, value =>
    if key.toList < k.toList then (key, value) :: (k, v) :: rest
    else if key = k then (key, value) :: rest
    else (k, v) :: insert rest key value

/-- Removal `QMap::remove(key)`: drops every entry under `key`. -/
def remove (m : QMap V) (key : QString) : QMap V :=
  m.filter (fun e => !(e.1 == key))

/-- Size `QMap::count()`. -/
def count (m : QMap V) : Nat := m.length

/-- Keys in iteration order. -/
def keys (m : QMap V) : List QString := m.map Prod.fst

/-- Invariant of a real `QMap`: one entry per key. -/
def WF (m : QMap V) : Prop := (keys m).Nodup

instance (m : QMap V) : Decidable (WF m) := by
  unfold WF; infer_instance

end QMap

/-! ## Configuration tree -/

/-- A component node of the configuration (`XmlComponentConfig`): the `name` and `type`
attributes and the remaining attributes as key/value pairs, in document order. -/
structure XmlComponentConfig where
  name : QString
  type : QString
  params : List (QString × QString)
  deriving DecidableEq, Repr

namespace XmlComponentConfig

/-- A default-constructed `XmlComponentConfig` (no attribute). -/
def null : XmlComponentConfig := ⟨"", "", []⟩

def getComponentName (cfg : XmlComponentConfig) : QString := cfg.name

def getComponentType (cfg : XmlComponentConfig) : QString := cfg.type

end XmlComponentConfig

/-- Modelled from the spec: the parsed configuration document behind `XmlConfigFile`
(only `XmlConfigFile.h` is under src/): "an XML document exposing a component list, a
plugin list, and per-component key/value parameters", the component list in declaration
order. -/
structure XmlConfigFile where
  plugins : List QString
  components : List XmlComponentConfig
  deriving DecidableEq, Repr

namespace XmlConfigFile

/-- Modelled from the spec: `XmlConfigFile::getAllPlugins`, the plugin list of the document. -/
def getAllPlugins (x : XmlConfigFile) : List QString := x.plugins

/-- Modelled from the spec: `XmlConfigFile::getAllComponents`, "a list of all names of
components declared in the XML tree", in declaration order. -/
def getAllComponents (x : XmlConfigFile) : List QString :=
  x.components.map XmlComponentConfig.name

/-- Modelled from the spec: `XmlConfigFile::getComponent(name)`, the first declared node
whose name is `name`, a null element when there is none. -/
def getComponent (x : XmlConfigFile) (name : QString) : XmlComponentConfig :=
  (x.components.find? (fun c => c.name == name)).getD XmlComponentConfig.null

end XmlConfigFile

/-! ## Component objects -/

/-- Modelled from the spec: the enum `ComponentBase::COMPONENT_CONFIGURATION`
(`ComponentBase.h` is not under src/).  `NOT_CONFIGURED` is the state the spec calls
`Created`; the other three are the values `loadComponents` names. -/
inductive COMPONENT_CONFIGURATION
  | NOT_CONFIGURED
  | CONFIGURED_OK
  | CONFIGURATION_DELAYED
  | CONFIGURED_FAILED
  deriving DecidableEq, Repr

/-- Modelled from the spec: the part of a `ComponentBase` object the manager touches: its
name, its configuration state `configuration_`, its local copy `param` of its
configuration node, and its started/stopped flag. -/
structure ComponentBase where
  componentName : QString
  configuration_ : COMPONENT_CONFIGURATION
  param : XmlComponentConfig
  active : Bool
  deriving DecidableEq, Repr

namespace ComponentBase

/-- Modelled from the spec: the object a factory produces for `name` (`new T(name)`): in
the initial state `Created`, not started, no parameters copied yet. -/
def create (name : QString) : ComponentBase :=
  ⟨name, .NOT_CONFIGURED, XmlComponentConfig.null, false⟩

/-- Modelled from the spec: `ComponentBase::startComponent`, which guards against re-entry:
on a started component it reports failure and leaves it started, otherwise it marks the
component started and reports success. -/
def startComponent (c : ComponentBase) : Bool × ComponentBase :=
  if c.active then (false, c) else (true, { c with active := true })

/-- Modelled from the spec: `ComponentBase::stopComponent`, symmetric to `startComponent`. -/
def stopComponent (c : ComponentBase) : Bool × ComponentBase :=
  if c.active then (true, { c with active := false }) else (false, c)

end ComponentBase

/-! ## Manager state -/

/-- Calls issued by the manager, recorded in order in the ghost `trace`. -/
inductive Event
  /-- Entry of `loadPlugin(filename)`. -/
  | loadPlugin (filename : QString)
  /-- Call `component->param.localCopy(...)` made for the listed name `name`. -/
  | paramLocalCopy (name : QString) (component : Addr)
  /-- Call `component->configureComponent(cfg)` made for the listed name `name`, and what
  it returned. -/
  | configureComponent (name : QString) (component : Addr) (result : COMPONENT_CONFIGURATION)
  /-- Entry of `start(componentName)`. -/
  | start (componentName : QString)
  /-- Entry of `stop(componentName)`. -/
  | stop (componentName : QString)
  /-- Call `component->startComponent()` and what it returned. -/
  | startComponent (component : Addr) (result : Bool)
  /-- Call `component->stopComponent()` and what it returned. -/
  | stopComponent (component : Addr) (result : Bool)
  /-- Return of `start(componentName)` with its result. -/
  | startReturn (componentName : QString) (result : Bool)
  /-- Return of `stop(componentName)` with its result. -/
  | stopReturn (componentName : QString) (result : Bool)
  deriving DecidableEq, Repr

/-- The events recorded after the trace was `before`, given the later trace `after`. -/
def eventsSince (before after : List Event) : List Event := after.drop before.length

/-- Results of the `configureComponent` calls made on the object at `component`, in call
order. -/
def configureResults (component : Addr) (es : List Event) : List COMPONENT_CONFIGURATION :=
  es.filterMap (fun e => match e with
    | .configureComponent _ a r => if a = component then some r else none
    | _ => none)

/-- Names on which `start(componentName)` was entered, in call order. -/
def startCalls (es : List Event) : List QString :=
  es.filterMap (fun e => match e with
    | .start n => some n
    | _ => none)

/-- Names and results of the returns of `start(componentName)`, in order. -/
def startReturns (es : List Event) : List (QString × Bool) :=
  es.filterMap (fun e => match e with
    | .startReturn n r => some (n, r)
    | _ => none)

/-- State of the `ComponentManager` singleton together with the heap of component objects
its `ComponentBase*` values point into. -/
structure ComponentManager where
  factoryMap_ : QMap Addr
  componentMap_ : QMap Addr
  pluginList_ : List Addr
  xmlTree_ : XmlConfigFile
  heap : List ComponentBase
  trace : List Event
  deriving DecidableEq, Repr

/-- What `QPluginLoader` finds behind a file name. -/
structure PluginFile where
  /-- Result of `QPluginLoader::load()`. -/
  load : Bool
  /-- Modelled from the spec: the factories a successful load inserts into the registry
  ("successful loads mutate the shared Component Registry by inserting factories"), as
  (type, factory) pairs in registration order. -/
  factories : List (QString × Addr)
  /-- Result of `QPluginLoader::instance()`, `none` for `NULL`. -/
  root : Option Addr
  /-- Whether `qobject_cast<PacpusPluginInterface*>` of the root object succeeds. -/
  hasInterface : Bool

/-- Behaviour the manager calls but does not define. -/
structure Env where
  /-- The tree `xmlTree_->loadFile(fileName)` leaves in memory. -/
  loadFile : QString → XmlConfigFile
  /-- The plugin loader of Qt. -/
  pluginLoader : QString → PluginFile
  /-- The virtual `configureComponent(cfg)` of the object at an address: it may read the
  whole manager state (other components included) and returns a configuration state. -/
  configureComponent : Addr → XmlComponentConfig → ComponentManager → COMPONENT_CONFIGURATION

namespace ComponentManager

/-- Apply `f` to the object `component` points to; nothing happens for a dangling pointer. -/
def updateObject (m : ComponentManager) (component : Addr) (f : ComponentBase → ComponentBase) :
    ComponentManager :=
  match m.heap[component]? with
  | none => m
  | some c => { m with heap := m.heap.set component (f c) }

/-- Read `component->configuration_`. -/
def configurationOf (m : ComponentManager) (component : Addr) : Option COMPONENT_CONFIGURATION :=
  (m.heap[component]?).map ComponentBase.configuration_

def log (m : ComponentManager) (e : Event) : ComponentManager :=
  { m with trace := m.trace ++ [e] }

/-- Every registered `ComponentBase*` points to a live object. -/
def pointersLive (m : ComponentManager) : Prop :=
  ∀ e ∈ m.componentMap_, e.2 < m.heap.length

instance (m : ComponentManager) : Decidable m.pointersLive := by
  unfold pointersLive; infer_instance

/-- No instance is registered under two names. -/
def noAlias (m : ComponentManager) : Prop :=
  (m.componentMap_.map Prod.snd).Nodup

instance (m : ComponentManager) : Decidable m.noAlias := by
  unfold noAlias; infer_instance

/-! ### Registry -/

def registerComponentFactory (m : ComponentManager) (addr : Addr) (type : QString) :
    Bool × ComponentManager :=
  if m.factoryMap_.contains type then
    (false, m)
  else
    (true, { m with factoryMap_ := m.factoryMap_.insert type addr })

def unRegisterComponentFactory (m : ComponentManager) (type : QString) :
    Bool × ComponentManager :=
  if !m.factoryMap_.contains type then
    (false, m)
  else
    (true, { m with factoryMap_ := m.factoryMap_.remove type })

def registerComponent (m : ComponentManager) (addr : Addr) (name : QString) :
    Bool × ComponentManager :=
  if m.componentMap_.contains name then
    (false, m)
  else
    (true, { m with componentMap_ := m.componentMap_.insert name addr })

def unRegisterComponent (m : ComponentManager) (name : QString) : Bool × ComponentManager :=
  if !m.componentMap_.contains name then
    (false, m)
  else
    (true, { m with componentMap_ := m.componentMap_.remove name })

/-- Lookup `getComponent(name)`: `none` stands for `NULL`. -/
def getComponent (m : ComponentManager) (name : QString) : Option Addr :=
  m.componentMap_.find name

/-- Modelled from the spec: `ComponentFactoryBase::addComponent(name)` (not under src/):
"the produced instance is inserted under `name` (duplicate `name` is rejected by the
insertion step, mirroring factory-registration semantics)".  The instance is produced at a
fresh address and handed to `registerComponent`, whose outcome is not reported. -/
def addComponent (m : ComponentManager) (_factory : Addr) (name : QString) : ComponentManager :=
  let addr := m.heap.length
  let m1 := { m with heap := m.heap ++ [ComponentBase.create name] }
  (m1.registerComponent addr name).2

def createComponent (m : ComponentManager) (type name : QString) : Bool × ComponentManager :=
  match m.factoryMap_.find type with
  | some factory => (true, m.addComponent factory name)
  | none => (false, m)

/-! ### Plugins -/

/-- Registrations performed by the factories of a library while it loads. -/
def registerFactories (m : ComponentManager) (factories : List (QString × Addr)) :
    ComponentManager :=
  factories.foldl (fun acc tf => (acc.registerComponentFactory tf.2 tf.1).2) m

def loadPlugin (env : Env) (m : ComponentManager) (filename : QString) :
    Bool × ComponentManager :=
  let m0 := m.log (.loadPlugin filename)
  let lib := env.pluginLoader filename
  if !lib.load then
    (false, m0)
  else
    let m1 := m0.registerFactories lib.factories
    match lib.root with
    | none => (false, m1)
    | some plugin => (true, { m1 with pluginList_ := m1.pluginList_ ++ [plugin] })

/-- The plugin loop of `loadComponents`: a failed `loadPlugin` is only logged. -/
def loadPlugins (env : Env) (m : ComponentManager) (plugins : List QString) : ComponentManager :=
  plugins.foldl (fun acc plugin => (acc.loadPlugin env plugin).2) m

/-! ### loadComponents -/

/-- One iteration of the first loop (create). -/
def createStep (m : ComponentManager) (it : QString) : ComponentManager :=
  let cfg := m.xmlTree_.getComponent it
  let componentType := cfg.getComponentType
  let componentName := cfg.getComponentName
  (m.createComponent componentType componentName).2

/-- The statement pair `component->param.localCopy(cfg.qDomElement());
component->configuration_ = component->configureComponent(cfg);` executed for the listed
name `name`. -/
def configure (env : Env) (m : ComponentManager) (name : QString) (component : Addr)
    (cfg : XmlComponentConfig) : ComponentManager :=
  let m1 := (m.updateObject component (fun c => { c with param := cfg })).log
    (.paramLocalCopy name component)
  let result := env.configureComponent component cfg m1
  (m1.updateObject component (fun c => { c with configuration_ := result })).log
    (.configureComponent name component result)

/-- One iteration of the second loop (configure without regarding the dependencies). -/
def configureStep (env : Env) (m : ComponentManager) (it : QString) : ComponentManager :=
  let cfg := m.xmlTree_.getComponent it
  let componentName := cfg.getComponentName
  match m.getComponent componentName with
  | none => m
  | some component => m.configure env componentName component cfg

/-- One iteration of the third loop (retry of the delayed components), threading
`componentsToConfigureCount`. -/
def retryStep (env : Env) (st : ComponentManager × Int) (it : QString) : ComponentManager × Int :=
  let m := st.1
  let cfg := m.xmlTree_.getComponent it
  let componentName := cfg.getComponentName
  match m.getComponent componentName with
  | none => st
  | some component =>
    let m1 :=
      if m.configurationOf component = some .CONFIGURATION_DELAYED then
        m.configure env componentName component cfg
      else m
    if m1.configurationOf component = some .CONFIGURED_OK then
      (m1, st.2 - 1)
    else
      (m1.updateObject component (fun c => { c with configuration_ := .CONFIGURED_FAILED }), st.2)

def createPhase (m : ComponentManager) (componentsNameList : List QString) : ComponentManager :=
  componentsNameList.foldl createStep m

def configurePhase (env : Env) (m : ComponentManager) (componentsNameList : List QString) :
    ComponentManager :=
  componentsNameList.foldl (configureStep env) m

def retryPhase (env : Env) (st : ComponentManager × Int) (componentsNameList : List QString) :
    ComponentManager × Int :=
  componentsNameList.foldl (retryStep env) st

/-- Outcome of `loadComponents`: the returned count, the value of
`componentsToConfigureCount` at the final report, and the manager state. -/
structure LoadResult where
  count : Nat
  componentsToConfigureCount : Int
  mgr : ComponentManager
  deriving DecidableEq, Repr

/-- State of the manager when the plugin loop of `loadComponents` ends. -/
def afterPlugins (env : Env) (m : ComponentManager) (configFilename : QString) :
    ComponentManager :=
  let m0 := { m with xmlTree_ := env.loadFile configFilename }
  m0.loadPlugins env m0.xmlTree_.getAllPlugins

/-- State of the manager when the first loop of `loadComponents` ends. -/
def afterCreate (env : Env) (m : ComponentManager) (configFilename : QString) : ComponentManager :=
  let m1 := m.afterPlugins env configFilename
  m1.createPhase m1.xmlTree_.getAllComponents

/-- State of the manager when the second loop of `loadComponents` ends. -/
def afterConfigure (env : Env) (m : ComponentManager) (configFilename : QString) :
    ComponentManager :=
  let m2 := m.afterCreate env configFilename
  m2.configurePhase env m2.xmlTree_.getAllComponents

def loadComponents (env : Env) (m : ComponentManager) (configFilename : QString) : LoadResult :=
  let m2 := m.afterCreate env configFilename
  let componentsNameList := m2.xmlTree_.getAllComponents
  let componentsToConfigureCount : Int := m2.componentMap_.count
  let m3 := m2.configurePhase env componentsNameList
  let st := retryPhase env (m3, componentsToConfigureCount) componentsNameList
  ⟨st.1.componentMap_.count, st.2, st.1⟩

/-! ### Start and stop -/

/-- The overload `start(const QString& componentName)`. -/
def startNamed (m : ComponentManager) (componentName : QString) : Bool × ComponentManager :=
  let m0 := m.log (.start componentName)
  match m0.getComponent componentName with
  | none => (false, m0.log (.startReturn componentName false))
  | some component =>
    let m1 :=
      match m0.heap[component]? with
      | none => m0
      | some c =>
        let r := c.startComponent
        (m0.updateObject component (fun _ => r.2)).log (.startComponent component r.1)
    (true, m1.log (.startReturn componentName true))

/-- Body of the loop of `start()`: `result &= start(it.key())`. -/
def startStep (acc : Bool × ComponentManager) (key : QString) : Bool × ComponentManager :=
  let r := acc.2.startNamed key
  (acc.1 && r.1, r.2)

/-- The overload `start()`, a loop over the component map in key order. -/
def start (m : ComponentManager) : Bool × ComponentManager :=
  (QMap.keys m.componentMap_).foldl startStep (true, m)

/-- The overload `stop(const QString& componentName)`. -/
def stopNamed (m : ComponentManager) (componentName : QString) : Bool × ComponentManager :=
  let m0 := m.log (.stop componentName)
  match m0.getComponent componentName with
  | none => (false, m0.log (.stopReturn componentName false))
  | some component =>
    let m1 :=
      match m0.heap[component]? with
      | none => m0
      | some c =>
        let r := c.stopComponent
        (m0.updateObject component (fun _ => r.2)).log (.stopComponent component r.1)
    (true, m1.log (.stopReturn componentName true))

/-- Body of the loop of `stop()`: `result &= stop(it.key())`. -/
def stopStep (acc : Bool × ComponentManager) (key : QString) : Bool × ComponentManager :=
  let r := acc.2.stopNamed key
  (acc.1 && r.1, r.2)

/-- The overload `stop()`, a loop over the component map in key order. -/
def stop (m : ComponentManager) : Bool × ComponentManager :=
  (QMap.keys m.componentMap_).foldl stopStep (true, m)

end ComponentManager


/-! ## Auxiliary notions for the statements -/

/-- What the plugin loop leaves alone: instances, heap and configuration tree. -/
def SameInstances (m r : ComponentManager) : Prop :=
  r.componentMap_ = m.componentMap_ ∧ r.heap = m.heap ∧ r.xmlTree_ = m.xmlTree_

/-- What the configure and retry loops leave alone: both maps, the configuration tree and
the set of live objects. -/
def SameRegistry (m r : ComponentManager) : Prop :=
  r.componentMap_ = m.componentMap_ ∧ r.factoryMap_ = m.factoryMap_ ∧
  r.xmlTree_ = m.xmlTree_ ∧ r.heap.length = m.heap.length

/-- The state the retry loop leaves in a component it found in state `c` (after the
possible reconfiguration): `CONFIGURED_OK` stays, anything else becomes
`CONFIGURED_FAILED`. -/
def settle (c : COMPONENT_CONFIGURATION) : COMPONENT_CONFIGURATION :=
  if c = .CONFIGURED_OK then .CONFIGURED_OK else .CONFIGURED_FAILED

/-- Between the states `m` and `r`, with `new` the events recorded in between: the object
at `a` is `CONFIGURED_OK` in `r` only if the last configure call made on it in between
returned `CONFIGURED_OK`, or no such call was made and it was `CONFIGURED_OK` in `m`. -/
def OkOnlyByConfigure (a : Addr) (m r : ComponentManager) (new : List Event) : Prop :=
  r.configurationOf a = some .CONFIGURED_OK →
    (configureResults a new).getLast? = some .CONFIGURED_OK ∨
    (configureResults a new = [] ∧ m.configurationOf a = some .CONFIGURED_OK)

/-- File names on which `loadPlugin` was entered, in call order. -/
def loadPluginCalls (es : List Event) : List QString :=
  es.filterMap (fun e => match e with
    | .loadPlugin f => some f
    | _ => none)

/-- The parameter copies and configure calls made for the listed name `name`. -/
def onBehalfOf (name : QString) (es : List Event) : List Event :=
  es.filter (fun e => match e with
    | .paramLocalCopy n _ => n == name
    | .configureComponent n _ _ => n == name
    | _ => false)

/-- Whether an event is a parameter copy or a configure call. -/
def Event.isConfigureEvent : Event → Bool
  | .paramLocalCopy _ _ => true
  | .configureComponent _ _ _ => true
  | _ => false

/-- The root objects the plugin loop appends to `pluginList_` for a plugin list: the root of
every file that loads and yields an instance, in list order. -/
def loadedRoots (env : Env) (plugins : List QString) : List Addr :=
  plugins.filterMap (fun p =>
    if (env.pluginLoader p).load then (env.pluginLoader p).root else none)

/-- Configuration state of the component registered under `name`, if there is one. -/
def ComponentManager.stateOfNamed (m : ComponentManager) (name : QString) :
    Option COMPONENT_CONFIGURATION :=
  (m.getComponent name).bind m.configurationOf

/-- The state in which `configureComponent` runs inside `configure`: the parameters of the
object at `a` have just been copied. -/
def ComponentManager.withParam (m : ComponentManager) (name : QString) (a : Addr)
    (cfg : XmlComponentConfig) : ComponentManager :=
  (m.updateObject a (fun c => { c with param := cfg })).log (.paramLocalCopy name a)

/-! ## Shared-memory channel -/

/-- A byte of a shared segment or of a caller's buffer. -/
abbrev Byte := Fin 256

/-- Modelled from the spec: the named OS-level memory regions ("SharedSegment: a named
OS-level memory region of fixed size"), as the bytes held under each segment name.  Handles
opened on the same name see the same bytes. -/
abbrev SharedSegments := QMap (List Byte)

/-- Modelled from the spec: a `Win32ShMem` object (only `Win32ShMem.h` is under src/): a
handle on the segment called `name`, opened with the size `size`. -/
structure Win32ShMem where
  name : QString
  size : Nat
  deriving DecidableEq, Repr

namespace Win32ShMem

/-- Modelled from the spec: the constructor `Win32ShMem(name, size)`, "create/open(name,
size) attaches to or creates a fixed-size named segment": an existing segment of that name
is attached to as it is, otherwise a zero-filled segment of `size` bytes is created. -/
def create (os : SharedSegments) (name : QString) (size : Nat) : Win32ShMem × SharedSegments :=
  match os.find name with
  | some _ => (⟨name, size⟩, os)
  | none => (⟨name, size⟩, os.insert name (List.replicate size 0))

/-- Modelled from the spec: `write(data, size, offset)` "copies into the segment at the
given byte offset": `size` bytes of `data` replace the bytes of the segment from `offset`
on; the segment keeps its size. -/
def write (h : Win32ShMem) (os : SharedSegments) (data : List Byte) (size : Nat)
    (offset : Nat) : SharedSegments :=
  match os.find h.name with
  | none => os
  | some bytes =>
    os.insert h.name
      ((bytes.take offset ++ data.take size ++ bytes.drop (offset + size)).take bytes.length)

/-- Modelled from the spec: `read(mem, size)` "copies out": the content `mem` receives, the
first `size` bytes of the segment. -/
def read (h : Win32ShMem) (os : SharedSegments) (size : Nat) : List Byte :=
  match os.find h.name with
  | none => []
  | some bytes => bytes.take size

/-- The handle is attached to a segment that has the size the handle was opened with. -/
def attached (h : Win32ShMem) (os : SharedSegments) : Prop :=
  ∃ bytes, os.find h.name = some bytes ∧ bytes.length = h.size

end Win32ShMem

/-! ## ComputeIURAWeights (GPSTk) -/

namespace gpstk

/-- Entries of a `std::map<K, V>`, one entry per key. -/
abbrev StdMap (K V : Type) := List (K × V)

namespace StdMap

variable {K V : Type} [DecidableEq K]

/-- Lookup `map.find(key)`, `none` standing for `end()`. -/
def find : StdMap K V → K → Option V
  | [], _ => none
  | (k, v) :: rest, key => if k = key then some v else find rest key

/-- Assignment `map[key] = value`: overwrites the entry under `key` or adds one (where the
new entry goes does not matter here; it is put last). -/
def set : StdMap K V → K → V → StdMap K V
  | [], key, value => [(key, value)]
  | (k, v) :: rest, key, value =>
    if k = key then (key, value) :: rest else (k, v) :: set rest key value

end StdMap

/-- A satellite identifier. -/
abbrev SatID := Nat

/-- An epoch. -/
abbrev DayTime := Nat

/-- Identifiers of the data types held for a satellite; `weight` is `TypeID::weight`. -/
inductive TypeID
  | weight
  | other (code : Nat)
  deriving DecidableEq, Repr

/-- A `std::set<SatID>`, as the list of its members. -/
abbrev SatIDSet := List SatID

/-- Insertion `set.insert(sat)`. -/
def SatIDSet.insert (s : SatIDSet) (sat : SatID) : SatIDSet :=
  if sat ∈ s then s else sat :: s

/-- The `double` values and operations `ComputeIURAWeights` uses, over a carrier `R` that
stands for `double`. -/
structure Doubles (R : Type) where
  /-- The literal `0.000001`. -/
  tiny : R
  /-- The literal `100.0`. -/
  hundred : R
  /-- The expression `1.0 / (sigma*sigma)`. -/
  invSquare : R → R
  /-- The library function `gpstk::ura2nominalAccuracy`. -/
  ura2nominalAccuracy : Int → R

/-- A `typeValueMap`: the values held for one satellite, by type. -/
abbrev typeValueMap (R : Type) := StdMap TypeID R

/-- A `satTypeValueMap`: the data of an epoch, by satellite. -/
abbrev satTypeValueMap (R : Type) := StdMap SatID (typeValueMap R)

/-- The library method `satTypeValueMap::removeSatID(SatIDSet)`: drops the satellites of the
set. -/
def satTypeValueMap.removeSatID {R : Type} (gData : satTypeValueMap R) (satSet : SatIDSet) :
    satTypeValueMap R :=
  gData.filter (fun e => decide (e.1 ∉ satSet))

/-- What a `GPSEphemerisStore` answers: the accuracy flag `findEphemeris(sat,
time).getAccFlag()`, `none` when one of the two calls throws. -/
structure GPSEphemerisStore where
  accFlag : SatID → DayTime → Option Int

/-- What a `TabularEphemerisStore` answers: whether `getXvt(sat, time)` returns (it throws
otherwise). -/
structure TabularEphemerisStore where
  hasXvt : SatID → DayTime → Bool

/-- The object: its two ephemeris pointers, `none` for `NULL`. -/
structure ComputeIURAWeights where
  pBCEphemeris : Option GPSEphemerisStore
  pTabEphemeris : Option TabularEphemerisStore

namespace ComputeIURAWeights

variable {R : Type}

/-- The default constructor `ComputeIURAWeights()`. -/
def default : ComputeIURAWeights := ⟨none, none⟩

/-- The overload `getWeight(sat, time, const TabularEphemerisStore*)`; `none` stands for the
`InvalidWeights` exception. -/
def getWeightPrecise (d : Doubles R) (sat : SatID) (time : DayTime)
    (preciseEph : TabularEphemerisStore) : Option R :=
  if preciseEph.hasXvt sat time then some d.hundred else none

/-- The overload `getWeight(sat, time, const GPSEphemerisStore*)`; `none` stands for the
`InvalidWeights` exception. -/
def getWeightBroadcast (d : Doubles R) (sat : SatID) (time : DayTime)
    (bcEph : GPSEphemerisStore) : Option R :=
  match bcEph.accFlag sat time with
  | none => none
  | some iura => some (d.invSquare (d.ura2nominalAccuracy iura))

/-- The `try` block of the loop of `Process`: the value of `weight` after it, `none` when
an exception was caught. -/
def tryWeight (self : ComputeIURAWeights) (d : Doubles R) (sat : SatID) (time : DayTime)
    (weight : R) : Option R :=
  match self.pBCEphemeris with
  | some bc => getWeightBroadcast d sat time bc
  | none =>
    match self.pTabEphemeris with
    | some tab => getWeightPrecise d sat time tab
    | none => some weight

/-- The loop of `Process` over the satellites from the iterator position on, threading the
local `weight` and `satRejectedSet`; it returns the entries as the loop leaves them and the
rejected set. -/
def processLoop (self : ComputeIURAWeights) (d : Doubles R) (time : DayTime) :
    satTypeValueMap R → R → SatIDSet → satTypeValueMap R × SatIDSet
  | [], _, satRejectedSet => ([], satRejectedSet)
  | (sat, tv) :: rest, weight, satRejectedSet =>
    match self.tryWeight d sat time weight with
    | none =>
      let r := processLoop self d time rest weight (satRejectedSet.insert sat)
      ((sat, tv) :: r.1, r.2)
    | some w =>
      let r := processLoop self d time rest w satRejectedSet
      ((sat, StdMap.set tv TypeID.weight w) :: r.1, r.2)

/-- The method `Process(const DayTime& time, satTypeValueMap& gData)`. -/
def Process (self : ComputeIURAWeights) (d : Doubles R) (time : DayTime)
    (gData : satTypeValueMap R) : satTypeValueMap R :=
  let r := self.processLoop d time gData d.tiny []
  satTypeValueMap.removeSatID r.1 r.2

/-- The weight `getWeight` computes for a satellite with the store that is set, `none` when
it throws. -/
def weightOf (self : ComputeIURAWeights) (d : Doubles R) (sat : SatID) (time : DayTime) :
    Option R :=
  self.tryWeight d sat time d.tiny

end ComputeIURAWeights

end gpstk

/-- The `startComponent` calls recorded, as (component, returned value), in call order. -/
def startComponentCalls (es : List Event) : List (Addr × Bool) :=
  es.filterMap (fun e => match e with
    | .startComponent a r => some (a, r)
    | _ => none)

/-- The `stopComponent` calls recorded, as (component, returned value), in call order. -/
def stopComponentCalls (es : List Event) : List (Addr × Bool) :=
  es.filterMap (fun e => match e with
    | .stopComponent a r => some (a, r)
    | _ => none)

/-- The number of registered components whose configuration state is not `CONFIGURED_OK`. -/
def ComponentManager.unconfiguredCount (m : ComponentManager) : Nat :=
  ((QMap.keys m.componentMap_).filter
    (fun k => decide (m.stateOfNamed k ≠ some .CONFIGURED_OK))).length

/-! ## Sample states -/

namespace Sample

/-- A registry with one factory (type `Gps` at address 100) and one started component
(`gps0`, the object at address 0). -/
def running : ComponentManager where
  factoryMap_ := [("Gps", 100)]
  componentMap_ := [("gps0", 0)]
  pluginList_ := []
  xmlTree_ := ⟨[], []⟩
  heap := [⟨"gps0", .CONFIGURED_OK, ⟨"gps0", "Gps", []⟩, true⟩]
  trace := []

/-- A fresh manager: nothing registered, nothing loaded. -/
def fresh : ComponentManager where
  factoryMap_ := []
  componentMap_ := []
  pluginList_ := []
  xmlTree_ := ⟨[], []⟩
  heap := []
  trace := []

/-- A configuration with one plugin and two components of distinct names. -/
def twoComponents : XmlConfigFile where
  plugins := ["libsensors.so"]
  components := [⟨"gps0", "Gps", [("port", "COM1")]⟩, ⟨"cam0", "Camera", []⟩]

/-- A configuration that lists the name `gps0` twice. -/
def listedTwice : XmlConfigFile where
  plugins := ["libsensors.so"]
  components := [⟨"gps0", "Gps", []⟩, ⟨"gps0", "Gps", []⟩]

/-- The library `libsensors.so` loads and registers factories for `Gps` and `Camera`; no
other file loads. -/
def sensorsLoader (filename : QString) : PluginFile :=
  if filename = "libsensors.so" then ⟨true, [("Gps", 100), ("Camera", 101)], some 7, true⟩
  else ⟨false, [], none, false⟩

/-- Every file holds `twoComponents`; every configure routine returns `CONFIGURED_OK`. -/
def envOk : Env where
  loadFile := fun _ => twoComponents
  pluginLoader := sensorsLoader
  configureComponent := fun _ _ _ => .CONFIGURED_OK

/-- Every file holds `listedTwice`; every configure routine asks for a delayed
configuration. -/
def envDelayed : Env where
  loadFile := fun _ => listedTwice
  pluginLoader := sensorsLoader
  configureComponent := fun _ _ _ => .CONFIGURATION_DELAYED

/-- Three registered components, in key order `cam0`, `gps0`, `lidar0`; `gps0` is already
started, `lidar0` has been stopped again. -/
def three : ComponentManager where
  factoryMap_ := [("Camera", 101), ("Gps", 100), ("Lidar", 102)]
  componentMap_ := [("cam0", 1), ("gps0", 0), ("lidar0", 2)]
  pluginList_ := [7]
  xmlTree_ := ⟨[], []⟩
  heap := [⟨"gps0", .CONFIGURED_OK, ⟨"gps0", "Gps", []⟩, true⟩,
    ⟨"cam0", .CONFIGURED_OK, ⟨"cam0", "Camera", []⟩, false⟩,
    ⟨"lidar0", .CONFIGURED_FAILED, ⟨"lidar0", "Lidar", []⟩, false⟩]
  trace := []

/-- A configuration whose first plugin file does not exist. -/
def missingPlugin : XmlConfigFile where
  plugins := ["missing.so", "libsensors.so"]
  components := [⟨"gps0", "Gps", []⟩]

/-- Every file holds `missingPlugin`; every configure routine returns `CONFIGURED_OK`. -/
def envMissingPlugin : Env where
  loadFile := fun _ => missingPlugin
  pluginLoader := sensorsLoader
  configureComponent := fun _ _ _ => .CONFIGURED_OK

/-- The library `libother.so` loads and yields a root object (at address 9) that is not a
`PacpusPluginInterface`; no other file loads. -/
def foreignLoader (filename : QString) : PluginFile :=
  if filename = "libother.so" then ⟨true, [], some 9, false⟩ else ⟨false, [], none, false⟩

/-- An environment whose plugin loader is `foreignLoader`. -/
def envForeign : Env where
  loadFile := fun _ => ⟨["libother.so"], []⟩
  pluginLoader := foreignLoader
  configureComponent := fun _ _ _ => .CONFIGURED_OK

/-- A configuration whose only component, `gps0`, has a type no plugin provides. -/
def unknownType : XmlConfigFile where
  plugins := ["libsensors.so"]
  components := [⟨"gps0", "Sonar", [("range", "40")]⟩]

/-- Every file holds `unknownType`; every configure routine returns `CONFIGURED_OK`. -/
def envUnknownType : Env where
  loadFile := fun _ => unknownType
  pluginLoader := sensorsLoader
  configureComponent := fun _ _ _ => .CONFIGURED_OK

/-- Node `map0` of type `Map`, whose configure routine always succeeds. -/
def nodeA : XmlComponentConfig := ⟨"map0", "Map", []⟩

/-- Node `nav0` of type `Nav`, whose configure routine needs `map0` to be configured. -/
def nodeB : XmlComponentConfig := ⟨"nav0", "Nav", [("source", "map0")]⟩

/-- The library `libnav.so` loads and registers factories for `Map`, `Nav` and `Ctl`. -/
def navLoader (filename : QString) : PluginFile :=
  if filename = "libnav.so" then ⟨true, [("Map", 200), ("Nav", 201), ("Ctl", 202)], some 8, true⟩
  else ⟨false, [], none, false⟩

/-- Configure routines of the nodes `map0`, `nav0` and `ctl0`: `map0` always succeeds,
`nav0` succeeds once `map0` is `CONFIGURED_OK`, `ctl0` succeeds once `nav0` is
`CONFIGURED_OK`; the latter two ask for a delayed configuration otherwise. -/
def navConfigure (_self : Addr) (cfg : XmlComponentConfig) (s : ComponentManager) :
    COMPONENT_CONFIGURATION :=
  if cfg.name = "map0" then .CONFIGURED_OK
  else if cfg.name = "nav0" then
    (if s.stateOfNamed "map0" = some .CONFIGURED_OK then .CONFIGURED_OK
      else .CONFIGURATION_DELAYED)
  else
    (if s.stateOfNamed "nav0" = some .CONFIGURED_OK then .CONFIGURED_OK
      else .CONFIGURATION_DELAYED)

/-- The configuration declares `nav0` before `map0`, the component it depends on. -/
def envNavBeforeMap : Env where
  loadFile := fun _ => ⟨["libnav.so"], [nodeB, nodeA]⟩
  pluginLoader := navLoader
  configureComponent := navConfigure

/-- Node `ctl0` of type `Ctl`, whose configure routine needs `nav0` to be configured. -/
def nodeC : XmlComponentConfig := ⟨"ctl0", "Ctl", [("source", "nav0")]⟩

/-- The configuration declares the chain in the order `ctl0`, `nav0`, `map0`: each
component before the one it depends on. -/
def envChain : Env where
  loadFile := fun _ => ⟨["libnav.so"], [nodeC, nodeB, nodeA]⟩
  pluginLoader := navLoader
  configureComponent := navConfigure

/-- A broadcast store that knows satellites 1 (accuracy flag 2) and 3 (accuracy flag 4). -/
def bcStore : gpstk.GPSEphemerisStore where
  accFlag := fun sat _ => if sat = 1 then some 2 else if sat = 3 then some 4 else none

/-- Symbolic `double` values: the expressions `ComputeIURAWeights` can form, and measured
values. -/
inductive DoubleExpr
  | tiny
  | hundred
  | accuracy (iura : Int)
  | invSquare (sigma : DoubleExpr)
  | measured (n : Nat)
  deriving DecidableEq, Repr

/-- The `double` operations read symbolically. -/
def symbolic : gpstk.Doubles DoubleExpr where
  tiny := .tiny
  hundred := .hundred
  invSquare := .invSquare
  ura2nominalAccuracy := .accuracy

/-- Data of an epoch for the satellites 1, 2 and 3. -/
def epochData : gpstk.satTypeValueMap DoubleExpr :=
  [(1, [(gpstk.TypeID.other 5, .measured 20)]), (2, [(gpstk.TypeID.other 5, .measured 21)]),
    (3, [(gpstk.TypeID.weight, .measured 0), (gpstk.TypeID.other 5, .measured 22)])]

/-- Every file holds `listedTwice`; every configure routine returns `CONFIGURED_OK`. -/
def envListedTwiceOk : Env where
  loadFile := fun _ => listedTwice
  pluginLoader := sensorsLoader
  configureComponent := fun _ _ _ => .CONFIGURED_OK

end Sample

/-! ## Registry: rejected operations -/

section Basic

open ComponentManager

@[simp] theorem log_trace (m : ComponentManager) (e : Event) :
    (m.log e).trace = m.trace ++ [e] := rfl

@[simp] theorem log_heap (m : ComponentManager) (e : Event) : (m.log e).heap = m.heap := rfl

@[simp] theorem log_componentMap_ (m : ComponentManager) (e : Event) :
    (m.log e).componentMap_ = m.componentMap_ := rfl

@[simp] theorem log_factoryMap_ (m : ComponentManager) (e : Event) :
    (m.log e).factoryMap_ = m.factoryMap_ := rfl

@[simp] theorem log_xmlTree_ (m : ComponentManager) (e : Event) :
    (m.log e).xmlTree_ = m.xmlTree_ := rfl

@[simp] theorem log_pluginList_ (m : ComponentManager) (e : Event) :
    (m.log e).pluginList_ = m.pluginList_ := rfl

@[simp] theorem log_getComponent (m : ComponentManager) (e : Event) (name : QString) :
    (m.log e).getComponent name = m.getComponent name := rfl

@[simp] theorem log_configurationOf (m : ComponentManager) (e : Event) (a : Addr) :
    (m.log e).configurationOf a = m.configurationOf a := rfl

@[simp] theorem updateObject_trace (m : ComponentManager) (a : Addr)
    (f : ComponentBase → ComponentBase) : (m.updateObject a f).trace = m.trace := by
  unfold updateObject; split <;> rfl

@[simp] theorem updateObject_componentMap_ (m : ComponentManager) (a : Addr)
    (f : ComponentBase → ComponentBase) :
    (m.updateObject a f).componentMap_ = m.componentMap_ := by
  unfold updateObject; split <;> rfl

@[simp] theorem updateObject_factoryMap_ (m : ComponentManager) (a : Addr)
    (f : ComponentBase → ComponentBase) : (m.updateObject a f).factoryMap_ = m.factoryMap_ := by
  unfold updateObject; split <;> rfl

@[simp] theorem updateObject_xmlTree_ (m : ComponentManager) (a : Addr)
    (f : ComponentBase → ComponentBase) : (m.updateObject a f).xmlTree_ = m.xmlTree_ := by
  unfold updateObject; split <;> rfl

@[simp] theorem updateObject_pluginList_ (m : ComponentManager) (a : Addr)
    (f : ComponentBase → ComponentBase) : (m.updateObject a f).pluginList_ = m.pluginList_ := by
  unfold updateObject; split <;> rfl

@[simp] theorem updateObject_getComponent (m : ComponentManager) (a : Addr)
    (f : ComponentBase → ComponentBase) (name : QString) :
    (m.updateObject a f).getComponent name = m.getComponent name := by
  unfold getComponent; rw [updateObject_componentMap_]

@[simp] theorem updateObject_heap_length (m : ComponentManager) (a : Addr)
    (f : ComponentBase → ComponentBase) : (m.updateObject a f).heap.length = m.heap.length := by
  unfold updateObject; split <;> simp

theorem updateObject_heap_get (m : ComponentManager) (a b : Addr)
    (f : ComponentBase → ComponentBase) :
    (m.updateObject a f).heap[b]? = if a = b then (m.heap[b]?).map f else m.heap[b]? := by
  unfold updateObject
  by_cases hab : a = b
  · subst hab
    cases h : m.heap[a]? with
    | none => simp [h]
    | some c =>
      have hlt : a < m.heap.length := (List.getElem?_eq_some.1 h).1
      simp [hlt]
  · cases h : m.heap[a]? with
    | none => simp [hab]
    | some c => simp [hab, List.getElem?_set_ne hab]

end Basic

section Registry

open ComponentManager

theorem QMap.contains_eq_true_iff {V : Type} (m : QMap V) (key : QString) :
    m.contains key = true ↔ ∃ v, m.find key = some v := by
  unfold QMap.contains
  cases m.find key <;> simp

/-- C1: if a factory is already registered under `type`, `registerComponentFactory(other,
type)` returns false and changes nothing: the factory map (indeed the whole state) is the
one before the call and the original factory is still the one found under `type`. -/
theorem registerComponentFactory_registered (m : ComponentManager) (type : QString)
    (original other : Addr) (h : m.factoryMap_.find type = some original) :
    (m.registerComponentFactory other type).1 = false ∧
    (m.registerComponentFactory other type).2.factoryMap_ = m.factoryMap_ ∧
    (m.registerComponentFactory other type).2.factoryMap_.find type = some original ∧
    (m.registerComponentFactory other type).2 = m := by
  have hc : m.factoryMap_.contains type = true :=
    (QMap.contains_eq_true_iff _ _).2 ⟨original, h⟩
  simp [registerComponentFactory, hc, h]

theorem registerComponentFactory_registered_witness :
    Sample.running.factoryMap_.find "Gps" = some 100 ∧
    (Sample.running.registerComponentFactory 200 "Gps").1 = false ∧
    (Sample.running.registerComponentFactory 200 "Gps").2.factoryMap_
      = Sample.running.factoryMap_ ∧
    (Sample.running.registerComponentFactory 200 "Gps").2.factoryMap_.find "Gps" = some 100 ∧
    (Sample.running.registerComponentFactory 200 "Gps").2 = Sample.running :=
  ⟨by decide, registerComponentFactory_registered Sample.running "Gps" 100 200 (by decide)⟩

/-- C2: if a component is already registered under `name`, `registerComponent(other, name)`
returns false and changes nothing: the component map is the one before the call and
`getComponent(name)` still returns the first instance. -/
theorem registerComponent_registered (m : ComponentManager) (name : QString)
    (first other : Addr) (h : m.getComponent name = some first) :
    (m.registerComponent other name).1 = false ∧
    (m.registerComponent other name).2.componentMap_ = m.componentMap_ ∧
    (m.registerComponent other name).2.getComponent name = some first ∧
    (m.registerComponent other name).2 = m := by
  have hc : m.componentMap_.contains name = true :=
    (QMap.contains_eq_true_iff _ _).2 ⟨first, h⟩
  simp [registerComponent, hc, h]

theorem registerComponent_registered_witness :
    Sample.running.getComponent "gps0" = some 0 ∧
    (Sample.running.registerComponent 5 "gps0").1 = false ∧
    (Sample.running.registerComponent 5 "gps0").2.componentMap_
      = Sample.running.componentMap_ ∧
    (Sample.running.registerComponent 5 "gps0").2.getComponent "gps0" = some 0 ∧
    (Sample.running.registerComponent 5 "gps0").2 = Sample.running :=
  ⟨by decide, registerComponent_registered Sample.running "gps0" 0 5 (by decide)⟩

/-- C3: if no component is registered under `name`, `unRegisterComponent(name)` returns
false and leaves the component map and the factory map (indeed the whole state)
unchanged. -/
theorem unRegisterComponent_unknown (m : ComponentManager) (name : QString)
    (h : m.componentMap_.contains name = false) :
    (m.unRegisterComponent name).1 = false ∧
    (m.unRegisterComponent name).2.componentMap_ = m.componentMap_ ∧
    (m.unRegisterComponent name).2.factoryMap_ = m.factoryMap_ ∧
    (m.unRegisterComponent name).2 = m := by
  simp [unRegisterComponent, h]

theorem unRegisterComponent_unknown_witness :
    Sample.running.componentMap_.contains "lidar" = false ∧
    (Sample.running.unRegisterComponent "lidar").1 = false ∧
    (Sample.running.unRegisterComponent "lidar").2.componentMap_
      = Sample.running.componentMap_ ∧
    (Sample.running.unRegisterComponent "lidar").2.factoryMap_ = Sample.running.factoryMap_ ∧
    (Sample.running.unRegisterComponent "lidar").2 = Sample.running :=
  ⟨by decide, unRegisterComponent_unknown Sample.running "lidar" (by decide)⟩

/-- C4: if no factory is registered under `type`, `createComponent(type, name)` returns
false, creates no instance (the heap of component objects is unchanged) and leaves the
component map and the factory map (indeed the whole state) unchanged. -/
theorem createComponent_no_factory (m : ComponentManager) (type name : QString)
    (h : m.factoryMap_.contains type = false) :
    (m.createComponent type name).1 = false ∧
    (m.createComponent type name).2.heap = m.heap ∧
    (m.createComponent type name).2.componentMap_ = m.componentMap_ ∧
    (m.createComponent type name).2.factoryMap_ = m.factoryMap_ ∧
    (m.createComponent type name).2 = m := by
  have hn : m.factoryMap_.find type = none := by
    unfold QMap.contains at h
    cases hf : m.factoryMap_.find type with
    | none => rfl
    | some v => simp [hf] at h
  simp [createComponent, hn]

theorem createComponent_no_factory_witness :
    Sample.running.factoryMap_.contains "Lidar" = false ∧
    (Sample.running.createComponent "Lidar" "lidar0").1 = false ∧
    (Sample.running.createComponent "Lidar" "lidar0").2.heap = Sample.running.heap ∧
    (Sample.running.createComponent "Lidar" "lidar0").2.componentMap_
      = Sample.running.componentMap_ ∧
    (Sample.running.createComponent "Lidar" "lidar0").2.factoryMap_
      = Sample.running.factoryMap_ ∧
    (Sample.running.createComponent "Lidar" "lidar0").2 = Sample.running :=
  ⟨by decide, createComponent_no_factory Sample.running "Lidar" "lidar0" (by decide)⟩

/-- Counterexample to C5 as stated: with a factory under `Gps` and an instance already
registered under `gps0`, `createComponent("Gps", "gps0")` returns true, so it is not the
case that every such call reports failure. -/
theorem createComponent_registered_name_not_false :
    ¬ (∀ (m : ComponentManager) (type name : QString) (factory addr : Addr),
        m.factoryMap_.find type = some factory → m.getComponent name = some addr →
        (m.createComponent type name).1 = false ∧
        (m.createComponent type name).2.getComponent name = some addr) := by
  intro h
  have h1 := (h Sample.running "Gps" "gps0" 100 0 (by decide) (by decide)).1
  exact absurd h1 (by decide)

/-- C5 (amended): if `type` has a registered factory and `name` is already the name of a
registered instance, `createComponent(type, name)` returns true (the outcome of the
insertion is not reported), and the instance previously registered under `name` is still
the one registered: the component map and the factory map are unchanged. -/
theorem createComponent_registered_name (m : ComponentManager) (type name : QString)
    (factory addr : Addr) (hf : m.factoryMap_.find type = some factory)
    (hn : m.getComponent name = some addr) :
    (m.createComponent type name).1 = true ∧
    (m.createComponent type name).2.getComponent name = some addr ∧
    (m.createComponent type name).2.componentMap_ = m.componentMap_ ∧
    (m.createComponent type name).2.factoryMap_ = m.factoryMap_ := by
  have hc : m.componentMap_.contains name = true :=
    (QMap.contains_eq_true_iff _ _).2 ⟨addr, hn⟩
  unfold getComponent at hn
  simp [createComponent, hf, addComponent, registerComponent, hc, getComponent, hn]

theorem createComponent_registered_name_witness :
    Sample.running.factoryMap_.find "Gps" = some 100 ∧
    Sample.running.getComponent "gps0" = some 0 ∧
    (Sample.running.createComponent "Gps" "gps0").1 = true ∧
    (Sample.running.createComponent "Gps" "gps0").2.getComponent "gps0" = some 0 ∧
    (Sample.running.createComponent "Gps" "gps0").2.componentMap_
      = Sample.running.componentMap_ ∧
    (Sample.running.createComponent "Gps" "gps0").2.factoryMap_
      = Sample.running.factoryMap_ :=
  ⟨by decide, by decide,
    createComponent_registered_name Sample.running "Gps" "gps0" 100 0 (by decide) (by decide)⟩

end Registry

/-! ## Start and stop -/

section Lifecycle

open ComponentManager

/-- Counterexample to C6 as stated: `gps0` is registered and started, its
`startComponent` reports failure, and `start("gps0")` returns true. -/
theorem startNamed_started_not_false :
    ¬ (∀ (m : ComponentManager) (name : QString) (addr : Addr) (c : ComponentBase),
        m.getComponent name = some addr → m.heap[addr]? = some c → c.active = true →
        c.startComponent.1 = false →
        (m.startNamed name).1 = false ∧
        ((m.startNamed name).2.heap[addr]?).map ComponentBase.active = some true) := by
  intro h
  have h1 := (h Sample.running "gps0" 0 ⟨"gps0", .CONFIGURED_OK, ⟨"gps0", "Gps", []⟩, true⟩
    (by decide) (by decide) (by decide) (by decide)).1
  exact absurd h1 (by decide)

/-- C6 (amended): for a registered component that is already started, its `startComponent`
reports failure, `start(name)` nevertheless returns true, and the component is still in the
started state afterwards (the object is unchanged). -/
theorem startNamed_started (m : ComponentManager) (name : QString) (addr : Addr)
    (c : ComponentBase) (hn : m.getComponent name = some addr) (hc : m.heap[addr]? = some c)
    (ha : c.active = true) :
    c.startComponent.1 = false ∧
    (m.startNamed name).1 = true ∧
    ((m.startNamed name).2.heap[addr]?).map ComponentBase.active = some true ∧
    (m.startNamed name).2.heap[addr]? = some c := by
  have hlt : addr < m.heap.length := by
    rcases List.getElem?_eq_some.1 hc with ⟨hlt, _⟩
    exact hlt
  simp [startNamed, log, getComponent, updateObject, ComponentBase.startComponent, ha, hc, hlt,
    show m.componentMap_.find name = some addr from hn]

theorem startNamed_started_witness :
    Sample.running.getComponent "gps0" = some 0 ∧
    (⟨"gps0", .CONFIGURED_OK, ⟨"gps0", "Gps", []⟩, true⟩ : ComponentBase).startComponent.1
      = false ∧
    (Sample.running.startNamed "gps0").1 = true ∧
    ((Sample.running.startNamed "gps0").2.heap[0]?).map ComponentBase.active = some true ∧
    (Sample.running.startNamed "gps0").2.heap[0]?
      = some ⟨"gps0", .CONFIGURED_OK, ⟨"gps0", "Gps", []⟩, true⟩ :=
  ⟨by decide,
    startNamed_started Sample.running "gps0" 0 ⟨"gps0", .CONFIGURED_OK, ⟨"gps0", "Gps", []⟩, true⟩
      (by decide) (by decide) (by decide)⟩

theorem eventsSince_append (before new : List Event) :
    eventsSince before (before ++ new) = new := by
  simp [eventsSince]

theorem QMap.mem_keys_iff {V : Type} (m : QMap V) (key : QString) :
    key ∈ QMap.keys m ↔ m.contains key = true := by
  induction m with
  | nil => simp [QMap.keys, QMap.contains, QMap.find]
  | cons e rest ih =>
    obtain ⟨k, v⟩ := e
    by_cases hk : k = key
    · simp [QMap.keys, QMap.contains, QMap.find, hk]
    · have hk2 : ¬ key = k := fun h => hk h.symm
      simp only [QMap.keys, QMap.contains, QMap.find, hk, if_false, List.map_cons,
        List.mem_cons, hk2, false_or] at ih ⊢
      exact ih

theorem startNamed_trace (m : ComponentManager) (key : QString) :
    ∃ new, (m.startNamed key).2.trace = m.trace ++ new ∧ startCalls new = [key] ∧
      startReturns new = [(key, (m.startNamed key).1)] := by
  simp only [startNamed, log_getComponent, log_heap]
  cases m.getComponent key with
  | none =>
    exact ⟨[.start key, .startReturn key false], by simp, by simp [startCalls],
      by simp [startReturns]⟩
  | some component =>
    cases h : m.heap[component]? with
    | none =>
      exact ⟨[.start key, .startReturn key true], by simp [h], by simp [startCalls],
        by simp [startReturns]⟩
    | some c =>
      exact ⟨[.start key, .startComponent component c.startComponent.1,
        .startReturn key true], by simp [h], by simp [startCalls], by simp [startReturns]⟩

theorem start_fold_trace (keys : List QString) (b : Bool) (m : ComponentManager) :
    ∃ new, (keys.foldl startStep (b, m)).2.trace = m.trace ++ new ∧ startCalls new = keys ∧
      (startReturns new).map Prod.fst = keys ∧
      (keys.foldl startStep (b, m)).1 = (b && (startReturns new).all Prod.snd) := by
  induction keys generalizing b m with
  | nil => exact ⟨[], by simp, by simp [startCalls], by simp [startReturns], by simp [startReturns]⟩
  | cons key rest ih =>
    obtain ⟨new1, h1, hc1, hr1⟩ := startNamed_trace m key
    obtain ⟨new2, h2, hc2, hr2, hb2⟩ := ih (b && (m.startNamed key).1) (m.startNamed key).2
    refine ⟨new1 ++ new2, ?_, ?_, ?_, ?_⟩
    · simp only [List.foldl_cons, startStep]
      rw [h2, h1, List.append_assoc]
    · simp only [startCalls, List.filterMap_append] at hc1 hc2 ⊢
      rw [hc1, hc2]; rfl
    · simp only [startReturns, List.filterMap_append, List.map_append] at hr1 hr2 ⊢
      rw [hr1, hr2]; rfl
    · simp only [List.foldl_cons, startStep]
      rw [hb2]
      simp only [startReturns, List.filterMap_append, List.all_append] at hr1 ⊢
      rw [hr1]
      simp [Bool.and_assoc]

/-- C7: `start()` enters `start(name)` on the keys of the component map, one call per entry
in map order, whatever the earlier calls returned; so each registered name is started
exactly once and no other name is.  It returns the conjunction of the results those calls
returned, which is true for an empty registry. -/
theorem start_calls_every_component_once (m : ComponentManager) (hwf : m.componentMap_.WF) :
    startCalls (eventsSince m.trace m.start.2.trace) = QMap.keys m.componentMap_ ∧
    (∀ name, m.componentMap_.contains name = true →
      (startCalls (eventsSince m.trace m.start.2.trace)).count name = 1) ∧
    (∀ name, m.componentMap_.contains name = false →
      (startCalls (eventsSince m.trace m.start.2.trace)).count name = 0) ∧
    (startReturns (eventsSince m.trace m.start.2.trace)).map Prod.fst
      = QMap.keys m.componentMap_ ∧
    m.start.1 = (startReturns (eventsSince m.trace m.start.2.trace)).all Prod.snd ∧
    (m.componentMap_ = [] → m.start.1 = true) := by
  obtain ⟨new, h, hc, hr, hb⟩ := start_fold_trace (QMap.keys m.componentMap_) true m
  have he : eventsSince m.trace m.start.2.trace = new := by
    unfold start; rw [h]; exact eventsSince_append _ _
  rw [he, hc]
  refine ⟨rfl, ?_, ?_, hr, ?_, ?_⟩
  · intro name hn
    exact List.count_eq_one_of_mem hwf ((QMap.mem_keys_iff _ _).2 hn)
  · intro name hn
    apply List.count_eq_zero_of_not_mem
    intro hmem
    rw [(QMap.mem_keys_iff _ _).1 hmem] at hn
    exact Bool.noConfusion hn
  · unfold start; rw [hb]; simp
  · intro hempty
    simp [start, hempty, QMap.keys]

theorem start_calls_every_component_once_witness :
    Sample.three.componentMap_.WF ∧
    startCalls (eventsSince Sample.three.trace Sample.three.start.2.trace)
      = ["cam0", "gps0", "lidar0"] ∧
    Sample.three.start.1
      = (startReturns (eventsSince Sample.three.trace Sample.three.start.2.trace)).all
          Prod.snd :=
  ⟨by decide,
    (start_calls_every_component_once Sample.three (by decide)).1,
    (start_calls_every_component_once Sample.three (by decide)).2.2.2.2.1⟩

end Lifecycle

/-! ## loadComponents -/

section QMapFacts

variable {V : Type}

theorem QMap.find_insert_self (m : QMap V) (key : QString) (value : V) :
    (m.insert key value).find key = some value := by
  induction m with
  | nil => simp [QMap.insert, QMap.find]
  | cons e rest ih =>
    obtain ⟨k, v⟩ := e
    unfold QMap.insert
    split
    · simp [QMap.find]
    · split
      · simp [QMap.find]
      · rename_i hne
        have hk : ¬ k = key := fun h => hne h.symm
        simp [QMap.find, hk, ih]

theorem QMap.find_insert_ne (m : QMap V) (key other : QString) (value : V)
    (h : other ≠ key) : (m.insert key value).find other = m.find other := by
  induction m with
  | nil =>
    have hk : ¬ key = other := fun e => h e.symm
    simp [QMap.insert, QMap.find, hk]
  | cons e rest ih =>
    obtain ⟨k, v⟩ := e
    have hk : ¬ key = other := fun e => h e.symm
    unfold QMap.insert
    split
    · simp [QMap.find, hk]
    · split
      · rename_i heq
        subst heq
        simp [QMap.find, hk]
      · by_cases hko : k = other
        · simp [QMap.find, hko]
        · simp [QMap.find, hko, ih]

theorem QMap.find_eq_none_iff (m : QMap V) (key : QString) :
    m.find key = none ↔ m.contains key = false := by
  unfold QMap.contains
  cases m.find key <;> simp

theorem QMap.find_some_mem (m : QMap V) (key : QString) (value : V)
    (h : m.find key = some value) : (key, value) ∈ m := by
  induction m with
  | nil => simp [QMap.find] at h
  | cons e rest ih =>
    obtain ⟨k, v⟩ := e
    by_cases hk : k = key
    · simp [QMap.find, hk] at h
      simp [hk, h]
    · simp [QMap.find, hk] at h
      exact List.mem_cons_of_mem _ (ih h)

theorem QMap.insert_perm (m : QMap V) (key : QString) (value : V)
    (h : m.contains key = false) : List.Perm (m.insert key value) ((key, value) :: m) := by
  induction m with
  | nil => simp [QMap.insert]
  | cons e rest ih =>
    obtain ⟨k, v⟩ := e
    have hk : ¬ k = key := by
      intro hk
      simp [QMap.contains, QMap.find, hk] at h
    have hrest : QMap.contains rest key = false := by
      simpa [QMap.contains, QMap.find, hk] using h
    unfold QMap.insert
    split
    · exact List.Perm.refl _
    · split
      · rename_i heq
        exact absurd heq.symm hk
      · exact ((ih hrest).cons (k, v)).trans (List.Perm.swap _ _ _)

theorem QMap.count_insert (m : QMap V) (key : QString) (value : V)
    (h : m.contains key = false) : (m.insert key value).count = m.count + 1 := by
  have hp := (QMap.insert_perm m key value h).length_eq
  simpa [QMap.count] using hp

theorem QMap.contains_insert (m : QMap V) (key other : QString) (value : V) :
    (m.insert key value).contains other = true ↔ other = key ∨ m.contains other = true := by
  by_cases h : other = key
  · subst h
    simp [QMap.contains, QMap.find_insert_self]
  · simp [QMap.contains, QMap.find_insert_ne m key other value h, h]

end QMapFacts

section PluginPhase

open ComponentManager

theorem registerFactories_same (factories : List (QString × Addr)) (m : ComponentManager) :
    SameInstances m (m.registerFactories factories) ∧
    (m.registerFactories factories).trace = m.trace ∧
    (m.registerFactories factories).pluginList_ = m.pluginList_ := by
  unfold registerFactories
  induction factories generalizing m with
  | nil => exact ⟨⟨rfl, rfl, rfl⟩, rfl, rfl⟩
  | cons tf rest ih =>
    have hstep : SameInstances m (m.registerComponentFactory tf.2 tf.1).2 ∧
        (m.registerComponentFactory tf.2 tf.1).2.trace = m.trace ∧
        (m.registerComponentFactory tf.2 tf.1).2.pluginList_ = m.pluginList_ := by
      unfold registerComponentFactory SameInstances
      split <;> simp
    obtain ⟨⟨h1, h2, h3⟩, h4, h5⟩ := hstep
    obtain ⟨⟨i1, i2, i3⟩, i4, i5⟩ := ih (m.registerComponentFactory tf.2 tf.1).2
    simp only [List.foldl_cons]
    exact ⟨⟨i1.trans h1, i2.trans h2, i3.trans h3⟩, i4.trans h4, i5.trans h5⟩

theorem loadPlugin_same (env : Env) (m : ComponentManager) (filename : QString) :
    SameInstances m (m.loadPlugin env filename).2 ∧
    (m.loadPlugin env filename).2.trace = m.trace ++ [.loadPlugin filename] := by
  obtain ⟨⟨h1, h2, h3⟩, h4, _⟩ :=
    registerFactories_same (env.pluginLoader filename).factories (m.log (.loadPlugin filename))
  simp only [loadPlugin, SameInstances]
  cases (env.pluginLoader filename).load with
  | false => simp
  | true =>
    cases (env.pluginLoader filename).root with
    | none => exact ⟨⟨h1, h2, h3⟩, h4⟩
    | some plugin => exact ⟨⟨h1, h2, h3⟩, h4⟩

theorem loadPlugins_same (env : Env) (plugins : List QString) (m : ComponentManager) :
    SameInstances m (m.loadPlugins env plugins) ∧
    (m.loadPlugins env plugins).trace = m.trace ++ plugins.map Event.loadPlugin := by
  unfold loadPlugins
  induction plugins generalizing m with
  | nil => exact ⟨⟨rfl, rfl, rfl⟩, by simp⟩
  | cons plugin rest ih =>
    obtain ⟨⟨h1, h2, h3⟩, h4⟩ := loadPlugin_same env m plugin
    obtain ⟨⟨i1, i2, i3⟩, i4⟩ := ih (m.loadPlugin env plugin).2
    simp only [List.foldl_cons]
    refine ⟨⟨i1.trans h1, i2.trans h2, i3.trans h3⟩, ?_⟩
    rw [i4, h4]
    simp

theorem afterPlugins_spec (env : Env) (m : ComponentManager) (configFilename : QString) :
    (m.afterPlugins env configFilename).componentMap_ = m.componentMap_ ∧
    (m.afterPlugins env configFilename).heap = m.heap ∧
    (m.afterPlugins env configFilename).xmlTree_ = env.loadFile configFilename ∧
    (m.afterPlugins env configFilename).trace
      = m.trace ++ (env.loadFile configFilename).getAllPlugins.map Event.loadPlugin := by
  obtain ⟨⟨h1, h2, h3⟩, h4⟩ := loadPlugins_same env (env.loadFile configFilename).getAllPlugins
    { m with xmlTree_ := env.loadFile configFilename }
  exact ⟨h1, h2, h3, h4⟩

end PluginPhase

section CreatePhase

open ComponentManager

theorem XmlConfigFile.getComponent_name (x : XmlConfigFile) (name : QString)
    (h : name ∈ x.getAllComponents) :
    (x.getComponent name).getComponentName = name ∧ x.getComponent name ∈ x.components := by
  unfold XmlConfigFile.getAllComponents at h
  obtain ⟨c, hc, hname⟩ := List.mem_map.1 h
  unfold XmlConfigFile.getComponent
  cases hf : x.components.find? (fun c => c.name == name) with
  | none =>
    have := List.find?_eq_none.1 hf c hc
    simp [hname] at this
  | some d =>
    have h1 := List.find?_some hf
    have h2 := List.mem_of_find?_eq_some hf
    simp only [beq_iff_eq] at h1
    exact ⟨h1, h2⟩

/-- Effect of one iteration of the create loop. -/
theorem createStep_spec (m : ComponentManager) (it : QString) :
    (m.createStep it).xmlTree_ = m.xmlTree_ ∧ (m.createStep it).factoryMap_ = m.factoryMap_ ∧
    (m.createStep it).trace = m.trace ∧
    ((m.createStep it) = m ∨
     ((m.createStep it).heap = m.heap ++ [ComponentBase.create (m.xmlTree_.getComponent it).name] ∧
      ((m.createStep it).componentMap_ = m.componentMap_ ∨
       (m.componentMap_.contains (m.xmlTree_.getComponent it).name = false ∧
        (m.createStep it).componentMap_
          = m.componentMap_.insert (m.xmlTree_.getComponent it).name m.heap.length)))) := by
  unfold createStep createComponent
  simp only [XmlComponentConfig.getComponentName, XmlComponentConfig.getComponentType]
  cases hf : m.factoryMap_.find (m.xmlTree_.getComponent it).type with
  | none => simp
  | some factory =>
    simp only [addComponent, registerComponent]
    cases hc : m.componentMap_.contains (m.xmlTree_.getComponent it).name with
    | true => simp
    | false => simp

theorem createStep_pointersLive (m : ComponentManager) (it : QString) (h : m.pointersLive) :
    (m.createStep it).pointersLive := by
  obtain ⟨_, _, _, hcase⟩ := createStep_spec m it
  rcases hcase with hsame | ⟨hheap, hmap | ⟨hnot, hmap⟩⟩
  · rw [hsame]; exact h
  · intro e he
    rw [hmap] at he
    have := h e he
    rw [hheap, List.length_append]
    exact Nat.lt_succ_of_lt this
  · intro e he
    rw [hmap] at he
    have hmem := (QMap.insert_perm _ _ _ hnot).mem_iff.1 he
    rw [hheap, List.length_append]
    rcases List.mem_cons.1 hmem with heq | hold
    · subst heq; exact Nat.lt_succ_self _
    · exact Nat.lt_succ_of_lt (h e hold)

theorem createStep_noAlias (m : ComponentManager) (it : QString) (hl : m.pointersLive)
    (h : m.noAlias) : (m.createStep it).noAlias := by
  obtain ⟨_, _, _, hcase⟩ := createStep_spec m it
  rcases hcase with hsame | ⟨_, hmap | ⟨hnot, hmap⟩⟩
  · rw [hsame]; exact h
  · unfold noAlias; rw [hmap]; exact h
  · unfold noAlias
    rw [hmap]
    have hp := (QMap.insert_perm m.componentMap_ _ m.heap.length hnot).map Prod.snd
    refine (hp.nodup_iff).2 ?_
    simp only [List.map_cons, List.nodup_cons]
    refine ⟨?_, h⟩
    intro hmem
    obtain ⟨e, he, heq⟩ := List.mem_map.1 hmem
    have := hl e he
    rw [heq] at this
    exact Nat.lt_irrefl _ this

theorem createPhase_spec (names : List QString) (m : ComponentManager) :
    (m.createPhase names).xmlTree_ = m.xmlTree_ ∧
    (m.createPhase names).factoryMap_ = m.factoryMap_ ∧
    (m.createPhase names).trace = m.trace ∧
    (m.pointersLive → (m.createPhase names).pointersLive) ∧
    (m.pointersLive → m.noAlias → (m.createPhase names).noAlias) := by
  unfold createPhase
  induction names generalizing m with
  | nil => exact ⟨rfl, rfl, rfl, id, fun _ h => h⟩
  | cons it rest ih =>
    obtain ⟨h1, h2, h3, _⟩ := createStep_spec m it
    obtain ⟨i1, i2, i3, i4, i5⟩ := ih (m.createStep it)
    simp only [List.foldl_cons]
    exact ⟨i1.trans h1, i2.trans h2, i3.trans h3,
      fun hl => i4 (createStep_pointersLive m it hl),
      fun hl ha => i5 (createStep_pointersLive m it hl) (createStep_noAlias m it hl ha)⟩

/-- The create loop on pairwise distinct listed names, none of them registered yet and each of
a type that has a factory: every name gets registered. -/
theorem createPhase_all (names : List QString) (m : ComponentManager) (hnodup : names.Nodup)
    (hlisted : ∀ it ∈ names, it ∈ m.xmlTree_.getAllComponents)
    (hfactory : ∀ c ∈ m.xmlTree_.components, m.factoryMap_.contains c.type = true)
    (hnew : ∀ it ∈ names, m.componentMap_.contains it = false) :
    (m.createPhase names).componentMap_.count = m.componentMap_.count + names.length ∧
    (∀ it ∈ names, (m.createPhase names).componentMap_.contains it = true) ∧
    (∀ k, m.componentMap_.contains k = true →
      (m.createPhase names).componentMap_.contains k = true) := by
  unfold createPhase
  induction names generalizing m with
  | nil => simp
  | cons it rest ih =>
    obtain ⟨hname, hmem⟩ := XmlConfigFile.getComponent_name m.xmlTree_ it
      (hlisted it (List.mem_cons_self _ _))
    simp only [XmlComponentConfig.getComponentName] at hname
    have hnot : m.componentMap_.contains it = false := hnew it (List.mem_cons_self _ _)
    obtain ⟨factory, hfac⟩ := (QMap.contains_eq_true_iff _ _).1 (hfactory _ hmem)
    have hstep : (m.createStep it).componentMap_ = m.componentMap_.insert it m.heap.length := by
      simp [createStep, createComponent, XmlComponentConfig.getComponentType,
        XmlComponentConfig.getComponentName, hfac, hname, addComponent, registerComponent, hnot]
    obtain ⟨hx, hf, _, _⟩ := createStep_spec m it
    have hnd := List.nodup_cons.1 hnodup
    obtain ⟨i1, i2, i3⟩ := ih (m.createStep it) hnd.2
      (fun k hk => by rw [hx]; exact hlisted k (List.mem_cons_of_mem _ hk))
      (fun c hc => by rw [hx] at hc; rw [hf]; exact hfactory c hc)
      (fun k hk => by
        rw [hstep]
        have hne : k ≠ it := fun e => hnd.1 (e ▸ hk)
        have hk2 := hnew k (List.mem_cons_of_mem _ hk)
        cases hc : (m.componentMap_.insert it m.heap.length).contains k with
        | false => rfl
        | true =>
          rcases (QMap.contains_insert _ _ _ _).1 hc with h | h
          · exact absurd h hne
          · rw [hk2] at h; exact Bool.noConfusion h)
    simp only [List.foldl_cons]
    have hself : (m.createStep it).componentMap_.contains it = true := by
      rw [hstep]; exact (QMap.contains_insert _ _ _ _).2 (Or.inl rfl)
    refine ⟨?_, ?_, ?_⟩
    · rw [i1, hstep, QMap.count_insert _ _ _ hnot]
      simp only [List.length_cons]; omega
    · intro k hk
      rcases List.mem_cons.1 hk with heq | hk
      · subst heq; exact i3 _ hself
      · exact i2 k hk
    · intro k hk
      apply i3
      rw [hstep]
      exact (QMap.contains_insert _ _ _ _).2 (Or.inr hk)

end CreatePhase

section ConfigurePhase

open ComponentManager

theorem sameRegistry_refl (m : ComponentManager) : SameRegistry m m := ⟨rfl, rfl, rfl, rfl⟩

theorem sameRegistry_trans {m r t : ComponentManager} (h1 : SameRegistry m r)
    (h2 : SameRegistry r t) : SameRegistry m t :=
  ⟨h2.1.trans h1.1, h2.2.1.trans h1.2.1, h2.2.2.1.trans h1.2.2.1, h2.2.2.2.trans h1.2.2.2⟩

theorem updateObject_same (m : ComponentManager) (a : Addr) (f : ComponentBase → ComponentBase) :
    SameRegistry m (m.updateObject a f) :=
  ⟨by simp, by simp, by simp, by simp⟩

theorem updateObject_configurationOf (m : ComponentManager) (a b : Addr)
    (f : ComponentBase → ComponentBase) :
    (m.updateObject a f).configurationOf b
      = if a = b then (m.heap[b]?).map (fun c => (f c).configuration_)
        else m.configurationOf b := by
  unfold configurationOf
  rw [updateObject_heap_get]
  split
  · simp [Option.map_map, Function.comp_def]
  · rfl

/-- Effect of the parameter copy followed by the configure call on the object at `a`. -/
theorem configure_spec (env : Env) (m : ComponentManager) (name : QString) (a : Addr)
    (cfg : XmlComponentConfig) :
    ∃ s, SameRegistry m (m.configure env name a cfg) ∧
      (m.configure env name a cfg).trace = m.trace ++
        [.paramLocalCopy name a, .configureComponent name a (env.configureComponent a cfg s)] ∧
      ∀ b, (m.configure env name a cfg).configurationOf b
        = if a = b then (m.configurationOf b).map (fun _ => env.configureComponent a cfg s)
          else m.configurationOf b := by
  refine ⟨(m.updateObject a (fun c => { c with param := cfg })).log (.paramLocalCopy name a),
    ?_, ?_, ?_⟩
  · unfold configure
    exact ⟨by simp, by simp, by simp, by simp⟩
  · unfold configure
    simp
  · intro b
    unfold configure
    simp only [log_configurationOf, updateObject_configurationOf, log_heap]
    by_cases hab : a = b
    · subst hab
      simp only [if_true, updateObject_heap_get, Option.map_map, configurationOf]
      cases m.heap[a]? <;> simp
    · simp [hab]

theorem configureResults_pair (name : QString) (a b : Addr) (res : COMPONENT_CONFIGURATION) :
    configureResults b [.paramLocalCopy name a, .configureComponent name a res]
      = if a = b then [res] else [] := by
  by_cases hab : a = b <;> simp [configureResults, hab]

/-- Effect of one iteration of the configure loop, seen from the object at `b`. -/
theorem configureStep_spec (env : Env) (m : ComponentManager) (it : QString) :
    ∃ new, (m.configureStep env it).trace = m.trace ++ new ∧
      SameRegistry m (m.configureStep env it) ∧
      (∀ b, m.getComponent (m.xmlTree_.getComponent it).name ≠ some b →
        configureResults b new = [] ∧
        (m.configureStep env it).configurationOf b = m.configurationOf b) ∧
      (∀ b, m.getComponent (m.xmlTree_.getComponent it).name = some b →
        ∃ s, new = [.paramLocalCopy (m.xmlTree_.getComponent it).name b,
            .configureComponent (m.xmlTree_.getComponent it).name b
              (env.configureComponent b (m.xmlTree_.getComponent it) s)] ∧
          (m.configureStep env it).configurationOf b = (m.configurationOf b).map
            (fun _ => env.configureComponent b (m.xmlTree_.getComponent it) s)) := by
  unfold configureStep
  simp only [XmlComponentConfig.getComponentName]
  cases hg : m.getComponent (m.xmlTree_.getComponent it).name with
  | none =>
    exact ⟨[], by simp, sameRegistry_refl m, fun b _ => ⟨rfl, rfl⟩, fun b hb => by simp at hb⟩
  | some a =>
    obtain ⟨s, hsame, htrace, hconf⟩ :=
      configure_spec env m (m.xmlTree_.getComponent it).name a (m.xmlTree_.getComponent it)
    refine ⟨_, htrace, hsame, ?_, ?_⟩
    · intro b hb
      have hab : ¬ a = b := fun e => hb (by rw [e])
      rw [configureResults_pair, hconf b]
      simp [hab]
    · intro b hb
      have hab : a = b := Option.some.inj hb
      subst hab
      exact ⟨s, rfl, by rw [hconf a]; simp⟩

/-- Effect of one iteration of the retry loop, seen from the object at `b`. -/
theorem retryStep_spec (env : Env) (m : ComponentManager) (n : Int) (it : QString) :
    ∃ new, (retryStep env (m, n) it).1.trace = m.trace ++ new ∧
      SameRegistry m (retryStep env (m, n) it).1 ∧
      (∀ b, m.getComponent (m.xmlTree_.getComponent it).name ≠ some b →
        configureResults b new = [] ∧
        (retryStep env (m, n) it).1.configurationOf b = m.configurationOf b) ∧
      (m.getComponent (m.xmlTree_.getComponent it).name = none →
        retryStep env (m, n) it = (m, n)) ∧
      (∀ b, m.getComponent (m.xmlTree_.getComponent it).name = some b →
        (m.configurationOf b ≠ some .CONFIGURATION_DELAYED →
          new = [] ∧
          (retryStep env (m, n) it).1.configurationOf b = (m.configurationOf b).map settle ∧
          (retryStep env (m, n) it).2
            = if m.configurationOf b = some .CONFIGURED_OK then n - 1 else n) ∧
        (m.configurationOf b = some .CONFIGURATION_DELAYED →
          ∃ s, new = [.paramLocalCopy (m.xmlTree_.getComponent it).name b,
              .configureComponent (m.xmlTree_.getComponent it).name b
                (env.configureComponent b (m.xmlTree_.getComponent it) s)] ∧
            (retryStep env (m, n) it).1.configurationOf b
              = some (settle (env.configureComponent b (m.xmlTree_.getComponent it) s)) ∧
            (retryStep env (m, n) it).2
              = if env.configureComponent b (m.xmlTree_.getComponent it) s = .CONFIGURED_OK
                then n - 1 else n)) := by
  unfold retryStep
  simp only [XmlComponentConfig.getComponentName]
  cases hg : m.getComponent (m.xmlTree_.getComponent it).name with
  | none =>
    exact ⟨[], by simp, sameRegistry_refl m, fun b _ => ⟨rfl, rfl⟩, fun _ => rfl,
      fun b hb => by simp at hb⟩
  | some a =>
    obtain ⟨s, hsame, htrace, hconf⟩ :=
      configure_spec env m (m.xmlTree_.getComponent it).name a (m.xmlTree_.getComponent it)
    by_cases hd : m.configurationOf a = some .CONFIGURATION_DELAYED
    · simp only [hd, if_true]
      by_cases hok : env.configureComponent a (m.xmlTree_.getComponent it) s = .CONFIGURED_OK
      · have h1 : (m.configure env (m.xmlTree_.getComponent it).name a
            (m.xmlTree_.getComponent it)).configurationOf a = some .CONFIGURED_OK := by
          rw [hconf a]; simp [hd, hok]
        simp only [h1, if_true]
        refine ⟨_, htrace, hsame, ?_, fun h => by simp at h, ?_⟩
        · intro b hb
          have hab : ¬ a = b := fun e => hb (by rw [e])
          rw [configureResults_pair, hconf b]
          simp [hab]
        · intro b hb
          have hab : a = b := Option.some.inj hb
          subst hab
          exact ⟨fun h => absurd hd h, fun _ => ⟨s, rfl, by simp [h1, hok, settle], by simp [hok]⟩⟩
      · have h1 : (m.configure env (m.xmlTree_.getComponent it).name a
            (m.xmlTree_.getComponent it)).configurationOf a
            = some (env.configureComponent a (m.xmlTree_.getComponent it) s) := by
          rw [hconf a]; simp [hd]
        have h2 : ¬ (some (env.configureComponent a (m.xmlTree_.getComponent it) s)
            = some COMPONENT_CONFIGURATION.CONFIGURED_OK) := fun e => hok (Option.some.inj e)
        simp only [h1, h2, if_false]
        refine ⟨_, by rw [updateObject_trace]; exact htrace,
          sameRegistry_trans hsame (updateObject_same _ _ _), ?_, fun h => by simp at h, ?_⟩
        · intro b hb
          have hab : ¬ a = b := fun e => hb (by rw [e])
          rw [configureResults_pair, updateObject_configurationOf, hconf b]
          simp [hab]
        · intro b hb
          have hab : a = b := Option.some.inj hb
          subst hab
          refine ⟨fun h => absurd hd h, fun _ => ⟨s, rfl, ?_, by simp [hok]⟩⟩
          rw [updateObject_configurationOf]
          have h3 : (m.configure env (m.xmlTree_.getComponent it).name a
              (m.xmlTree_.getComponent it)).heap[a]? ≠ none := by
            intro hnone
            simp [configurationOf, hnone] at h1
          cases hh : (m.configure env (m.xmlTree_.getComponent it).name a
              (m.xmlTree_.getComponent it)).heap[a]? with
          | none => exact absurd hh h3
          | some c => simp [settle, hok]
    · simp only [hd, if_false]
      by_cases hok : m.configurationOf a = some .CONFIGURED_OK
      · simp only [hok, if_true]
        refine ⟨[], by simp, sameRegistry_refl m, fun b _ => by simp [configureResults],
          fun h => by simp at h, ?_⟩
        intro b hb
        have hab : a = b := Option.some.inj hb
        subst hab
        exact ⟨fun _ => ⟨rfl, by simp [hok, settle], by simp [hok]⟩, fun h => absurd h hd⟩
      · simp only [hok, if_false]
        refine ⟨[], by simp, updateObject_same _ _ _, ?_, fun h => by simp at h, ?_⟩
        · intro b hb
          have hab : ¬ a = b := fun e => hb (by rw [e])
          rw [updateObject_configurationOf]
          simp [hab, configureResults]
        · intro b hb
          have hab : a = b := Option.some.inj hb
          subst hab
          refine ⟨fun _ => ⟨rfl, ?_, by simp [hok]⟩, fun h => absurd h hd⟩
          rw [updateObject_configurationOf]
          simp only [if_true, configurationOf] at hok ⊢
          cases hh : m.heap[a]? with
          | none => simp
          | some c =>
            have hc : ¬ c.configuration_ = .CONFIGURED_OK := by
              intro e; apply hok; simp [hh, e]
            simp [settle, hc]

theorem configurationOf_isSome_iff (m : ComponentManager) (b : Addr) :
    (∃ c, m.configurationOf b = some c) ↔ b < m.heap.length := by
  unfold configurationOf
  constructor
  · rintro ⟨c, hc⟩
    cases hh : m.heap[b]? with
    | none => simp [hh] at hc
    | some o => exact (List.getElem?_eq_some.1 hh).1
  · intro hlt
    exact ⟨(m.heap[b]).configuration_, by simp [hlt]⟩

theorem configurePhase_same (env : Env) (names : List QString) (m : ComponentManager) :
    ∃ new, (m.configurePhase env names).trace = m.trace ++ new ∧
      SameRegistry m (m.configurePhase env names) := by
  unfold configurePhase
  induction names generalizing m with
  | nil => exact ⟨[], by simp, sameRegistry_refl m⟩
  | cons it rest ih =>
    obtain ⟨new1, h1, s1, _⟩ := configureStep_spec env m it
    obtain ⟨new2, h2, s2⟩ := ih (m.configureStep env it)
    exact ⟨new1 ++ new2, by simp only [List.foldl_cons]; rw [h2, h1, List.append_assoc],
      sameRegistry_trans s1 s2⟩

theorem retryPhase_same (env : Env) (names : List QString) (m : ComponentManager) (n : Int) :
    ∃ new, (retryPhase env (m, n) names).1.trace = m.trace ++ new ∧
      SameRegistry m (retryPhase env (m, n) names).1 := by
  unfold retryPhase
  induction names generalizing m n with
  | nil => exact ⟨[], by simp, sameRegistry_refl m⟩
  | cons it rest ih =>
    obtain ⟨new1, h1, s1, _⟩ := retryStep_spec env m n it
    obtain ⟨new2, h2, s2⟩ := ih (retryStep env (m, n) it).1 (retryStep env (m, n) it).2
    exact ⟨new1 ++ new2, by simp only [List.foldl_cons]; rw [h2, h1, List.append_assoc],
      sameRegistry_trans s1 s2⟩

/-- The configure loop when every configure call made for a listed node returns
`CONFIGURED_OK`: components found `CONFIGURED_OK` stay so, and every live component
registered under a listed name ends `CONFIGURED_OK`. -/
theorem configurePhase_allOk (env : Env) (names : List QString) (m : ComponentManager)
    (hok : ∀ it ∈ names, ∀ a s,
      env.configureComponent a (m.xmlTree_.getComponent it) s = .CONFIGURED_OK) :
    (∀ b, m.configurationOf b = some .CONFIGURED_OK →
      (m.configurePhase env names).configurationOf b = some .CONFIGURED_OK) ∧
    (∀ it ∈ names, ∀ b, m.getComponent (m.xmlTree_.getComponent it).name = some b →
      b < m.heap.length → (m.configurePhase env names).configurationOf b = some .CONFIGURED_OK) := by
  unfold configurePhase
  induction names generalizing m with
  | nil => exact ⟨fun b h => h, fun it hit => by simp at hit⟩
  | cons it rest ih =>
    obtain ⟨new1, _, s1, hother, hself⟩ := configureStep_spec env m it
    have hkeep : ∀ b, m.configurationOf b = some .CONFIGURED_OK →
        (m.configureStep env it).configurationOf b = some .CONFIGURED_OK := by
      intro b hb
      by_cases hg : m.getComponent (m.xmlTree_.getComponent it).name = some b
      · obtain ⟨s, _, hc⟩ := hself b hg
        rw [hc, hb, hok it (List.mem_cons_self _ _)]; rfl
      · rw [(hother b hg).2]; exact hb
    obtain ⟨i1, i2⟩ := ih (m.configureStep env it) (fun k hk a s => by
      rw [s1.2.2.1]; exact hok k (List.mem_cons_of_mem _ hk) a s)
    simp only [List.foldl_cons]
    refine ⟨fun b hb => i1 b (hkeep b hb), ?_⟩
    intro k hk b hb hlt
    rcases List.mem_cons.1 hk with heq | hk
    · subst heq
      obtain ⟨s, _, hc⟩ := hself b hb
      obtain ⟨c, hcb⟩ := (configurationOf_isSome_iff m b).2 hlt
      apply i1
      rw [hc, hcb, hok k (List.mem_cons_self _ _)]; rfl
    · apply i2 k hk b
      · rw [s1.2.2.1]
        unfold getComponent at hb ⊢
        rw [s1.1]; exact hb
      · rw [s1.2.2.2]; exact hlt

theorem retryStep_ok (env : Env) (m : ComponentManager) (n : Int) (it : QString) (b : Addr)
    (hg : m.getComponent (m.xmlTree_.getComponent it).name = some b)
    (hb : m.configurationOf b = some .CONFIGURED_OK) :
    retryStep env (m, n) it = (m, n - 1) := by
  simp [retryStep, XmlComponentConfig.getComponentName, hg, hb]

/-- The retry loop when every listed name is registered to a component that is already
`CONFIGURED_OK`: the state is untouched and the counter goes down once per listed name. -/
theorem retryPhase_allOk (env : Env) (names : List QString) (m : ComponentManager) (n : Int)
    (h : ∀ it ∈ names, ∃ b, m.getComponent (m.xmlTree_.getComponent it).name = some b ∧
      m.configurationOf b = some .CONFIGURED_OK) :
    retryPhase env (m, n) names = (m, n - names.length) := by
  unfold retryPhase
  induction names generalizing n with
  | nil => simp
  | cons it rest ih =>
    obtain ⟨b, hg, hb⟩ := h it (List.mem_cons_self _ _)
    simp only [List.foldl_cons]
    rw [retryStep_ok env m n it b hg hb, ih (n - 1) (fun k hk => h k (List.mem_cons_of_mem _ hk))]
    simp only [List.length_cons, Nat.cast_add, Nat.cast_one]
    congr 1
    omega

theorem configureResults_append (a : Addr) (xs ys : List Event) :
    configureResults a (xs ++ ys) = configureResults a xs ++ configureResults a ys := by
  simp [configureResults, List.filterMap_append]

theorem settle_ne_delayed (c : COMPONENT_CONFIGURATION) :
    settle c ≠ .CONFIGURATION_DELAYED := by
  unfold settle; split <;> simp

theorem settle_cases (c : COMPONENT_CONFIGURATION) :
    settle c = .CONFIGURED_OK ∨ settle c = .CONFIGURED_FAILED := by
  unfold settle; split <;> simp

theorem noAlias_inj (m : ComponentManager) (h : m.noAlias) (k1 k2 : QString) (a : Addr)
    (h1 : m.getComponent k1 = some a) (h2 : m.getComponent k2 = some a) : k1 = k2 := by
  have e1 := QMap.find_some_mem _ _ _ h1
  have e2 := QMap.find_some_mem _ _ _ h2
  have := List.inj_on_of_nodup_map h e1 e2 rfl
  exact (Prod.mk.inj this).1

/-- The configure loop makes no configure call on an object none of the listed names
resolves to, and leaves its state alone. -/
theorem configurePhase_untouched (env : Env) (names : List QString) (m : ComponentManager)
    (a : Addr) (h : ∀ it ∈ names, m.getComponent (m.xmlTree_.getComponent it).name ≠ some a) :
    ∃ new, (m.configurePhase env names).trace = m.trace ++ new ∧ configureResults a new = [] ∧
      (m.configurePhase env names).configurationOf a = m.configurationOf a := by
  unfold configurePhase
  induction names generalizing m with
  | nil => exact ⟨[], by simp, rfl, rfl⟩
  | cons it rest ih =>
    obtain ⟨new1, h1, s1, hother, _⟩ := configureStep_spec env m it
    obtain ⟨hr1, hc1⟩ := hother a (h it (List.mem_cons_self _ _))
    obtain ⟨new2, h2, hr2, hc2⟩ := ih (m.configureStep env it) (fun k hk => by
      have := h k (List.mem_cons_of_mem _ hk)
      rw [s1.2.2.1]
      unfold getComponent at this ⊢
      rw [s1.1]; exact this)
    refine ⟨new1 ++ new2, by simp only [List.foldl_cons]; rw [h2, h1, List.append_assoc], ?_, ?_⟩
    · rw [configureResults_append, hr1, hr2]; rfl
    · simp only [List.foldl_cons]; rw [hc2, hc1]

/-- The configure loop over pairwise distinct names that resolve to themselves, in a
registry without aliases, configures each object at most once. -/
theorem configurePhase_at_most_once (env : Env) (names : List QString) (m : ComponentManager)
    (a : Addr) (hnodup : names.Nodup) (halias : m.noAlias)
    (hname : ∀ it ∈ names, (m.xmlTree_.getComponent it).name = it) :
    ∃ new, (m.configurePhase env names).trace = m.trace ++ new ∧
      (configureResults a new).length ≤ 1 := by
  induction names generalizing m with
  | nil => exact ⟨[], by simp [configurePhase], by simp [configureResults]⟩
  | cons it rest ih =>
    obtain ⟨new1, h1, s1, hother, hself⟩ := configureStep_spec env m it
    have hnd := List.nodup_cons.1 hnodup
    have halias2 : (m.configureStep env it).noAlias := by
      unfold noAlias; rw [s1.1]; exact halias
    have hname2 : ∀ k ∈ rest, ((m.configureStep env it).xmlTree_.getComponent k).name = k :=
      fun k hk => by rw [s1.2.2.1]; exact hname k (List.mem_cons_of_mem _ hk)
    have hfold : m.configurePhase env (it :: rest)
        = (m.configureStep env it).configurePhase env rest := rfl
    by_cases hg : m.getComponent (m.xmlTree_.getComponent it).name = some a
    · obtain ⟨s, hnew, _⟩ := hself a hg
      obtain ⟨new2, h2, hr2, _⟩ := configurePhase_untouched env rest (m.configureStep env it) a
        (fun k hk hk2 => by
          rw [hname2 k hk] at hk2
          rw [hname it (List.mem_cons_self _ _)] at hg
          have hk3 : m.getComponent k = some a := by
            unfold getComponent at hk2 ⊢
            rw [← s1.1]; exact hk2
          have := noAlias_inj m halias k it a hk3 hg
          exact hnd.1 (this ▸ hk))
      refine ⟨new1 ++ new2, by rw [hfold, h2, h1, List.append_assoc], ?_⟩
      rw [configureResults_append, hr2, hnew, configureResults_pair]
      simp
    · obtain ⟨new2, h2, hr2⟩ := ih (m.configureStep env it) hnd.2 halias2 hname2
      refine ⟨new1 ++ new2, by rw [hfold, h2, h1, List.append_assoc], ?_⟩
      rw [configureResults_append, (hother a hg).1]
      simpa using hr2

/-- Once an object is not in state `CONFIGURATION_DELAYED`, the retry loop never configures
it and never puts it back into that state. -/
theorem retryPhase_not_delayed (env : Env) (names : List QString) (m : ComponentManager)
    (n : Int) (a : Addr) (h : m.configurationOf a ≠ some .CONFIGURATION_DELAYED) :
    ∃ new, (retryPhase env (m, n) names).1.trace = m.trace ++ new ∧
      configureResults a new = [] ∧
      (retryPhase env (m, n) names).1.configurationOf a ≠ some .CONFIGURATION_DELAYED := by
  induction names generalizing m n with
  | nil => exact ⟨[], by simp [retryPhase], rfl, h⟩
  | cons it rest ih =>
    obtain ⟨new1, h1, _, hother, _, hself⟩ := retryStep_spec env m n it
    have hfold : retryPhase env (m, n) (it :: rest)
        = retryPhase env ((retryStep env (m, n) it).1, (retryStep env (m, n) it).2) rest := rfl
    have hstep : configureResults a new1 = [] ∧
        (retryStep env (m, n) it).1.configurationOf a ≠ some .CONFIGURATION_DELAYED := by
      by_cases hg : m.getComponent (m.xmlTree_.getComponent it).name = some a
      · obtain ⟨hnew, hc, _⟩ := (hself a hg).1 h
        refine ⟨by rw [hnew]; rfl, ?_⟩
        rw [hc]
        cases m.configurationOf a with
        | none => simp
        | some c => simpa using settle_ne_delayed c
      · obtain ⟨hr, hc⟩ := hother a hg
        exact ⟨hr, by rw [hc]; exact h⟩
    obtain ⟨new2, h2, hr2, hc2⟩ := ih (retryStep env (m, n) it).1 (retryStep env (m, n) it).2
      hstep.2
    refine ⟨new1 ++ new2, by rw [hfold, h2, h1, List.append_assoc], ?_, by rw [hfold]; exact hc2⟩
    rw [configureResults_append, hstep.1, hr2]; rfl

/-- The retry loop configures each object at most once, whatever the list and the
registry. -/
theorem retryPhase_at_most_once (env : Env) (names : List QString) (m : ComponentManager)
    (n : Int) (a : Addr) :
    ∃ new, (retryPhase env (m, n) names).1.trace = m.trace ++ new ∧
      (configureResults a new).length ≤ 1 := by
  induction names generalizing m n with
  | nil => exact ⟨[], by simp [retryPhase], by simp [configureResults]⟩
  | cons it rest ih =>
    obtain ⟨new1, h1, _, hother, _, hself⟩ := retryStep_spec env m n it
    have hfold : retryPhase env (m, n) (it :: rest)
        = retryPhase env ((retryStep env (m, n) it).1, (retryStep env (m, n) it).2) rest := rfl
    by_cases hg : m.getComponent (m.xmlTree_.getComponent it).name = some a
    · by_cases hd : m.configurationOf a = some .CONFIGURATION_DELAYED
      · obtain ⟨s, hnew, hc, _⟩ := (hself a hg).2 hd
        obtain ⟨new2, h2, hr2, _⟩ := retryPhase_not_delayed env rest (retryStep env (m, n) it).1
          (retryStep env (m, n) it).2 a (by
            rw [hc]
            intro e
            exact settle_ne_delayed _ (Option.some.inj e))
        refine ⟨new1 ++ new2, by rw [hfold, h2, h1, List.append_assoc], ?_⟩
        rw [configureResults_append, hr2, hnew, configureResults_pair]
        simp
      · obtain ⟨hnew, _, _⟩ := (hself a hg).1 hd
        obtain ⟨new2, h2, hr2⟩ := ih (retryStep env (m, n) it).1 (retryStep env (m, n) it).2
        refine ⟨new1 ++ new2, by rw [hfold, h2, h1, List.append_assoc], ?_⟩
        rw [configureResults_append, hnew]
        simpa [configureResults] using hr2
    · obtain ⟨new2, h2, hr2⟩ := ih (retryStep env (m, n) it).1 (retryStep env (m, n) it).2
      refine ⟨new1 ++ new2, by rw [hfold, h2, h1, List.append_assoc], ?_⟩
      rw [configureResults_append, (hother a hg).1]
      simpa using hr2

theorem okOnlyByConfigure_refl (a : Addr) (m : ComponentManager) :
    OkOnlyByConfigure a m m [] :=
  fun h => Or.inr ⟨rfl, h⟩

theorem okOnlyByConfigure_trans {a : Addr} {m r t : ComponentManager} {new1 new2 : List Event}
    (h1 : OkOnlyByConfigure a m r new1) (h2 : OkOnlyByConfigure a r t new2) :
    OkOnlyByConfigure a m t (new1 ++ new2) := by
  intro ht
  rw [configureResults_append]
  rcases h2 ht with hlast | ⟨hnil, hr⟩
  · left
    rw [List.getLast?_append, hlast]; rfl
  · rw [hnil, List.append_nil]
    exact h1 hr

theorem settle_eq_ok (c : COMPONENT_CONFIGURATION) (h : settle c = .CONFIGURED_OK) :
    c = .CONFIGURED_OK := by
  unfold settle at h
  split at h
  · assumption
  · cases h

theorem configureStep_okOnly (env : Env) (m : ComponentManager) (it : QString) (a : Addr) :
    ∃ new, (m.configureStep env it).trace = m.trace ++ new ∧
      OkOnlyByConfigure a m (m.configureStep env it) new := by
  obtain ⟨new, h, _, hother, hself⟩ := configureStep_spec env m it
  refine ⟨new, h, ?_⟩
  intro hok
  by_cases hg : m.getComponent (m.xmlTree_.getComponent it).name = some a
  · obtain ⟨s, hnew, hc⟩ := hself a hg
    left
    rw [hc] at hok
    rw [hnew, configureResults_pair]
    cases hm : m.configurationOf a with
    | none => simp [hm] at hok
    | some c =>
      simp only [hm, Option.map_some', Option.some.injEq] at hok
      simp [hok]
  · obtain ⟨hr, hc⟩ := hother a hg
    right
    exact ⟨hr, by rw [← hc]; exact hok⟩

theorem retryStep_okOnly (env : Env) (m : ComponentManager) (n : Int) (it : QString)
    (a : Addr) :
    ∃ new, (retryStep env (m, n) it).1.trace = m.trace ++ new ∧
      OkOnlyByConfigure a m (retryStep env (m, n) it).1 new := by
  obtain ⟨new, h, _, hother, _, hself⟩ := retryStep_spec env m n it
  refine ⟨new, h, ?_⟩
  intro hok
  by_cases hg : m.getComponent (m.xmlTree_.getComponent it).name = some a
  · by_cases hd : m.configurationOf a = some .CONFIGURATION_DELAYED
    · obtain ⟨s, hnew, hc, _⟩ := (hself a hg).2 hd
      left
      rw [hc] at hok
      have := settle_eq_ok _ (Option.some.inj hok)
      rw [hnew, configureResults_pair]
      simp [this]
    · obtain ⟨hnew, hc, _⟩ := (hself a hg).1 hd
      right
      rw [hc] at hok
      refine ⟨by rw [hnew]; rfl, ?_⟩
      cases hm : m.configurationOf a with
      | none => simp [hm] at hok
      | some c =>
        simp only [hm, Option.map_some', Option.some.injEq] at hok
        rw [settle_eq_ok c hok]
  · obtain ⟨hr, hc⟩ := hother a hg
    right
    exact ⟨hr, by rw [← hc]; exact hok⟩

theorem configurePhase_okOnly (env : Env) (names : List QString) (m : ComponentManager)
    (a : Addr) :
    ∃ new, (m.configurePhase env names).trace = m.trace ++ new ∧
      OkOnlyByConfigure a m (m.configurePhase env names) new := by
  induction names generalizing m with
  | nil => exact ⟨[], by simp [configurePhase], okOnlyByConfigure_refl a m⟩
  | cons it rest ih =>
    obtain ⟨new1, h1, k1⟩ := configureStep_okOnly env m it a
    obtain ⟨new2, h2, k2⟩ := ih (m.configureStep env it)
    have hfold : m.configurePhase env (it :: rest)
        = (m.configureStep env it).configurePhase env rest := rfl
    exact ⟨new1 ++ new2, by rw [hfold, h2, h1, List.append_assoc], by
      rw [hfold]; exact okOnlyByConfigure_trans k1 k2⟩

theorem retryPhase_okOnly (env : Env) (names : List QString) (m : ComponentManager) (n : Int)
    (a : Addr) :
    ∃ new, (retryPhase env (m, n) names).1.trace = m.trace ++ new ∧
      OkOnlyByConfigure a m (retryPhase env (m, n) names).1 new := by
  induction names generalizing m n with
  | nil => exact ⟨[], by simp [retryPhase], okOnlyByConfigure_refl a m⟩
  | cons it rest ih =>
    obtain ⟨new1, h1, k1⟩ := retryStep_okOnly env m n it a
    obtain ⟨new2, h2, k2⟩ := ih (retryStep env (m, n) it).1 (retryStep env (m, n) it).2
    have hfold : retryPhase env (m, n) (it :: rest)
        = retryPhase env ((retryStep env (m, n) it).1, (retryStep env (m, n) it).2) rest := rfl
    exact ⟨new1 ++ new2, by rw [hfold, h2, h1, List.append_assoc], by
      rw [hfold]; exact okOnlyByConfigure_trans k1 k2⟩

/-- The configure loop configures every object a listed name resolves to. -/
theorem configurePhase_configures (env : Env) (names : List QString) (m : ComponentManager)
    (a : Addr) (it : QString) (hit : it ∈ names)
    (hg : m.getComponent (m.xmlTree_.getComponent it).name = some a) :
    ∃ new, (m.configurePhase env names).trace = m.trace ++ new ∧ configureResults a new ≠ [] := by
  induction names generalizing m with
  | nil => simp at hit
  | cons k rest ih =>
    obtain ⟨new1, h1, s1, _, hself⟩ := configureStep_spec env m k
    have hfold : m.configurePhase env (k :: rest)
        = (m.configureStep env k).configurePhase env rest := rfl
    rcases List.mem_cons.1 hit with heq | hrest
    · subst heq
      obtain ⟨s, hnew, _⟩ := hself a hg
      obtain ⟨new2, h2, _⟩ := configurePhase_same env rest (m.configureStep env it)
      refine ⟨new1 ++ new2, by rw [hfold]; unfold configurePhase at h2 ⊢; rw [h2, h1, List.append_assoc], ?_⟩
      rw [configureResults_append, hnew, configureResults_pair]
      simp
    · obtain ⟨new2, h2, hne⟩ := ih (m.configureStep env k) hrest (by
        rw [s1.2.2.1]
        unfold getComponent at hg ⊢
        rw [s1.1]; exact hg)
      refine ⟨new1 ++ new2, by rw [hfold, h2, h1, List.append_assoc], ?_⟩
      rw [configureResults_append]
      simp [hne]

/-- The retry loop keeps a settled object settled. -/
theorem retryPhase_settled (env : Env) (names : List QString) (m : ComponentManager) (n : Int)
    (a : Addr)
    (h : m.configurationOf a = some .CONFIGURED_OK ∨ m.configurationOf a = some .CONFIGURED_FAILED) :
    (retryPhase env (m, n) names).1.configurationOf a = some .CONFIGURED_OK ∨
    (retryPhase env (m, n) names).1.configurationOf a = some .CONFIGURED_FAILED := by
  induction names generalizing m n with
  | nil => exact h
  | cons it rest ih =>
    obtain ⟨_, _, _, hother, _, hself⟩ := retryStep_spec env m n it
    have hfold : retryPhase env (m, n) (it :: rest)
        = retryPhase env ((retryStep env (m, n) it).1, (retryStep env (m, n) it).2) rest := rfl
    rw [hfold]
    apply ih
    by_cases hg : m.getComponent (m.xmlTree_.getComponent it).name = some a
    · have hd : m.configurationOf a ≠ some .CONFIGURATION_DELAYED := by
        rcases h with h | h <;> rw [h] <;> simp
      obtain ⟨_, hc, _⟩ := (hself a hg).1 hd
      rw [hc]
      rcases h with h | h <;> rw [h] <;> simp [settle]
    · rw [(hother a hg).2]; exact h

/-- The retry loop settles every live object a listed name resolves to. -/
theorem retryPhase_settles (env : Env) (names : List QString) (m : ComponentManager) (n : Int)
    (a : Addr) (it : QString) (hit : it ∈ names)
    (hg : m.getComponent (m.xmlTree_.getComponent it).name = some a)
    (hlive : a < m.heap.length) :
    (retryPhase env (m, n) names).1.configurationOf a = some .CONFIGURED_OK ∨
    (retryPhase env (m, n) names).1.configurationOf a = some .CONFIGURED_FAILED := by
  induction names generalizing m n with
  | nil => simp at hit
  | cons k rest ih =>
    obtain ⟨_, _, s1, _, _, hself⟩ := retryStep_spec env m n k
    have hfold : retryPhase env (m, n) (k :: rest)
        = retryPhase env ((retryStep env (m, n) k).1, (retryStep env (m, n) k).2) rest := rfl
    rw [hfold]
    rcases List.mem_cons.1 hit with heq | hrest
    · subst heq
      apply retryPhase_settled
      obtain ⟨c, hc⟩ := (configurationOf_isSome_iff m a).2 hlive
      by_cases hd : m.configurationOf a = some .CONFIGURATION_DELAYED
      · obtain ⟨s, _, hc2, _⟩ := (hself a hg).2 hd
        rw [hc2]
        rcases settle_cases (env.configureComponent a (m.xmlTree_.getComponent it) s) with e | e
          <;> simp [e]
      · obtain ⟨_, hc2, _⟩ := (hself a hg).1 hd
        rw [hc2, hc]
        rcases settle_cases c with e | e <;> simp [e]
    · apply ih _ _ hrest
      · rw [s1.2.2.1]
        unfold getComponent at hg ⊢
        rw [s1.1]; exact hg
      · rw [s1.2.2.2]; exact hlive

end ConfigurePhase

section LoadComponents

open ComponentManager

theorem afterCreate_eq (env : Env) (m : ComponentManager) (configFilename : QString) :
    m.afterCreate env configFilename
      = (m.afterPlugins env configFilename).createPhase
          (env.loadFile configFilename).getAllComponents := by
  show (m.afterPlugins env configFilename).createPhase
    (m.afterPlugins env configFilename).xmlTree_.getAllComponents = _
  rw [(afterPlugins_spec env m configFilename).2.2.1]

theorem afterCreate_xmlTree_ (env : Env) (m : ComponentManager) (configFilename : QString) :
    (m.afterCreate env configFilename).xmlTree_ = env.loadFile configFilename := by
  rw [afterCreate_eq, (createPhase_spec _ _).1]
  exact (afterPlugins_spec env m configFilename).2.2.1

/-- C8: for a configuration that lists N components with pairwise distinct names, each of a
type that has a factory once the plugins are loaded and each with a configure routine that
returns `CONFIGURED_OK`, `loadComponents` run on a registry with no instances returns N and
leaves the count of unconfigured components at 0. -/
theorem loadComponents_independent (env : Env) (m : ComponentManager)
    (configFilename : QString) (N : Nat)
    (hN : (env.loadFile configFilename).components.length = N)
    (hdistinct : (env.loadFile configFilename).getAllComponents.Nodup)
    (hfactory : ∀ c ∈ (env.loadFile configFilename).components,
      (m.afterPlugins env configFilename).factoryMap_.contains c.type = true)
    (hok : ∀ c ∈ (env.loadFile configFilename).components, ∀ a s,
      env.configureComponent a c s = .CONFIGURED_OK)
    (hempty : m.componentMap_ = []) :
    (m.loadComponents env configFilename).count = N ∧
    (m.loadComponents env configFilename).componentsToConfigureCount = 0 := by
  obtain ⟨p1, _, p3, _⟩ := afterPlugins_spec env m configFilename
  have hx2 := afterCreate_xmlTree_ env m configFilename
  have hlive1 : (m.afterPlugins env configFilename).pointersLive := by
    intro e he
    rw [p1, hempty] at he
    simp at he
  obtain ⟨c1, c2, _⟩ := createPhase_all (env.loadFile configFilename).getAllComponents
    (m.afterPlugins env configFilename) hdistinct
    (fun it hit => by rw [p3]; exact hit)
    (fun c hc => by rw [p3] at hc; exact hfactory c hc)
    (fun it _ => by rw [p1, hempty]; rfl)
  have hlive2 : (m.afterCreate env configFilename).pointersLive := by
    rw [afterCreate_eq]
    exact (createPhase_spec _ _).2.2.2.1 hlive1
  have hcount : (m.afterCreate env configFilename).componentMap_.count = N := by
    rw [afterCreate_eq, c1, p1, hempty, ← hN]
    simp [QMap.count, XmlConfigFile.getAllComponents]
  have hlen : (env.loadFile configFilename).getAllComponents.length = N := by
    rw [← hN]; simp [XmlConfigFile.getAllComponents]
  obtain ⟨_, _, hsame⟩ := configurePhase_same env (env.loadFile configFilename).getAllComponents
    (m.afterCreate env configFilename)
  obtain ⟨_, k2⟩ := configurePhase_allOk env (env.loadFile configFilename).getAllComponents
    (m.afterCreate env configFilename) (fun it hit a s => by
      rw [hx2]
      exact hok _ (XmlConfigFile.getComponent_name _ it hit).2 a s)
  have hretry := retryPhase_allOk env (env.loadFile configFilename).getAllComponents
    ((m.afterCreate env configFilename).configurePhase env
      (env.loadFile configFilename).getAllComponents) N (fun it hit => by
      have hname := (XmlConfigFile.getComponent_name (env.loadFile configFilename) it hit).1
      simp only [XmlComponentConfig.getComponentName] at hname
      have hc : (m.afterCreate env configFilename).componentMap_.contains it = true := by
        rw [afterCreate_eq]; exact c2 it hit
      obtain ⟨b, hb⟩ := (QMap.contains_eq_true_iff _ _).1 hc
      refine ⟨b, ?_, ?_⟩
      · rw [hsame.2.2.1, hx2, hname]
        unfold getComponent
        rw [hsame.1]; exact hb
      · apply k2 it hit b
        · rw [hx2, hname]; exact hb
        · exact hlive2 _ (QMap.find_some_mem _ _ _ hb))
  simp only [loadComponents, hx2, hcount, hretry, hlen]
  exact ⟨by rw [hsame.1]; exact hcount, by simp⟩

theorem loadComponents_independent_witness :
    (Sample.envOk.loadFile "app.xml").components.length = 2 ∧
    (Sample.envOk.loadFile "app.xml").getAllComponents.Nodup ∧
    Sample.fresh.componentMap_ = [] ∧
    (Sample.fresh.loadComponents Sample.envOk "app.xml").count = 2 ∧
    (Sample.fresh.loadComponents Sample.envOk "app.xml").componentsToConfigureCount = 0 :=
  ⟨by decide, by decide, by decide,
    loadComponents_independent Sample.envOk Sample.fresh "app.xml" 2 (by decide) (by decide)
      (by decide) (fun _ _ _ _ => rfl) (by decide)⟩

theorem afterConfigure_eq (env : Env) (m : ComponentManager) (configFilename : QString) :
    m.afterConfigure env configFilename
      = (m.afterCreate env configFilename).configurePhase env
          (env.loadFile configFilename).getAllComponents := by
  show (m.afterCreate env configFilename).configurePhase env
    (m.afterCreate env configFilename).xmlTree_.getAllComponents = _
  rw [afterCreate_xmlTree_]

theorem loadComponents_mgr_eq (env : Env) (m : ComponentManager) (configFilename : QString) :
    (m.loadComponents env configFilename).mgr
      = (retryPhase env (m.afterConfigure env configFilename,
          ((m.afterCreate env configFilename).componentMap_.count : Int))
          (env.loadFile configFilename).getAllComponents).1 := by
  show (retryPhase env ((m.afterCreate env configFilename).configurePhase env
      (m.afterCreate env configFilename).xmlTree_.getAllComponents,
      ((m.afterCreate env configFilename).componentMap_.count : Int))
      (m.afterCreate env configFilename).xmlTree_.getAllComponents).1 = _
  rw [afterCreate_xmlTree_, ← afterConfigure_eq]

theorem afterCreate_trace (env : Env) (m : ComponentManager) (configFilename : QString) :
    (m.afterCreate env configFilename).trace
      = m.trace ++ (env.loadFile configFilename).getAllPlugins.map Event.loadPlugin := by
  rw [afterCreate_eq, (createPhase_spec _ _).2.2.1]
  exact (afterPlugins_spec env m configFilename).2.2.2

theorem configureResults_loadPlugin (a : Addr) (plugins : List QString) :
    configureResults a (plugins.map Event.loadPlugin) = [] := by
  induction plugins with
  | nil => rfl
  | cons p rest ih =>
    rw [List.map_cons, ← List.singleton_append, configureResults_append, ih]
    rfl

theorem afterCreate_sound (env : Env) (m : ComponentManager) (configFilename : QString)
    (hlive : m.pointersLive) :
    (m.afterCreate env configFilename).pointersLive ∧
    (m.noAlias → (m.afterCreate env configFilename).noAlias) := by
  obtain ⟨p1, p2, _, _⟩ := afterPlugins_spec env m configFilename
  have hl1 : (m.afterPlugins env configFilename).pointersLive := by
    intro e he
    rw [p1] at he
    rw [p2]; exact hlive e he
  rw [afterCreate_eq]
  refine ⟨(createPhase_spec _ _).2.2.2.1 hl1, fun ha => ?_⟩
  apply (createPhase_spec _ _).2.2.2.2 hl1
  unfold noAlias
  rw [p1]; exact ha

/-- Counterexample to C9 as stated: the configuration lists the name `gps0` twice and the
configure routine asks for a delayed configuration; one run of `loadComponents` from a
fresh manager configures the object at address 0 three times (twice in the initial pass,
once in the retry pass). -/
theorem loadComponents_configures_thrice :
    ¬ (∀ (env : Env) (m : ComponentManager) (configFilename : QString) (a : Addr),
        (configureResults a (eventsSince (m.afterCreate env configFilename).trace
          (m.afterConfigure env configFilename).trace)).length ≤ 1 ∧
        (configureResults a (eventsSince (m.afterConfigure env configFilename).trace
          (m.loadComponents env configFilename).mgr.trace)).length ≤ 1 ∧
        (configureResults a (eventsSince m.trace
          (m.loadComponents env configFilename).mgr.trace)).length ≤ 2) := by
  intro h
  have h1 := (h Sample.envDelayed Sample.fresh "app.xml" 0).2.2
  exact absurd h1 (by decide)

/-- C9 (amended): for a configuration whose listed component names are pairwise distinct, run
from a registry whose pointers are live and in which no instance is registered under two
names, one run of `loadComponents` invokes the configure routine of each component at most
once in the initial configure pass, at most once in the retry pass, hence at most twice. -/
theorem loadComponents_configure_at_most_twice (env : Env) (m : ComponentManager)
    (configFilename : QString) (a : Addr)
    (hdistinct : (env.loadFile configFilename).getAllComponents.Nodup)
    (hlive : m.pointersLive) (halias : m.noAlias) :
    (configureResults a (eventsSince (m.afterCreate env configFilename).trace
      (m.afterConfigure env configFilename).trace)).length ≤ 1 ∧
    (configureResults a (eventsSince (m.afterConfigure env configFilename).trace
      (m.loadComponents env configFilename).mgr.trace)).length ≤ 1 ∧
    (configureResults a (eventsSince m.trace
      (m.loadComponents env configFilename).mgr.trace)).length ≤ 2 := by
  obtain ⟨_, ha2⟩ := afterCreate_sound env m configFilename hlive
  obtain ⟨newc, hc, hcl⟩ := configurePhase_at_most_once env
    (env.loadFile configFilename).getAllComponents (m.afterCreate env configFilename) a
    hdistinct (ha2 halias) (fun it hit => by
      rw [afterCreate_xmlTree_]
      exact (XmlConfigFile.getComponent_name _ it hit).1)
  rw [← afterConfigure_eq] at hc
  obtain ⟨newr, hr, hrl⟩ := retryPhase_at_most_once env
    (env.loadFile configFilename).getAllComponents (m.afterConfigure env configFilename)
    ((m.afterCreate env configFilename).componentMap_.count : Int) a
  rw [← loadComponents_mgr_eq] at hr
  have ht := afterCreate_trace env m configFilename
  refine ⟨?_, ?_, ?_⟩
  · rw [hc, eventsSince_append]; exact hcl
  · rw [hr, eventsSince_append]; exact hrl
  · rw [hr, hc, ht, List.append_assoc, List.append_assoc, eventsSince_append,
      configureResults_append, configureResults_append, configureResults_loadPlugin]
    simp only [List.nil_append, List.length_append]
    omega

theorem loadComponents_at_most_twice_witness :
    (Sample.envOk.loadFile "app.xml").getAllComponents.Nodup ∧
    Sample.running.pointersLive ∧ Sample.running.noAlias ∧
    (configureResults 0 (eventsSince (Sample.running.afterCreate Sample.envOk "app.xml").trace
      (Sample.running.afterConfigure Sample.envOk "app.xml").trace)).length ≤ 1 ∧
    (configureResults 0 (eventsSince (Sample.running.afterConfigure Sample.envOk "app.xml").trace
      (Sample.running.loadComponents Sample.envOk "app.xml").mgr.trace)).length ≤ 1 ∧
    (configureResults 0 (eventsSince Sample.running.trace
      (Sample.running.loadComponents Sample.envOk "app.xml").mgr.trace)).length ≤ 2 :=
  ⟨by decide, by decide, by decide,
    loadComponents_configure_at_most_twice Sample.envOk Sample.running "app.xml" 0
      (by decide) (by decide) (by decide)⟩

/-- C10: after `loadComponents` returns, every registered component named in the component
list of the configuration (its pointer being live) is `CONFIGURED_OK` or
`CONFIGURED_FAILED`, never `CONFIGURATION_DELAYED`; and it is `CONFIGURED_OK` only if the
last configure call made on it during the run returned `CONFIGURED_OK`. -/
theorem loadComponents_settles (env : Env) (m : ComponentManager) (configFilename : QString)
    (name : QString) (a : Addr) (hlive : m.pointersLive)
    (hlisted : name ∈ (env.loadFile configFilename).getAllComponents)
    (hreg : (m.loadComponents env configFilename).mgr.getComponent name = some a) :
    ((m.loadComponents env configFilename).mgr.configurationOf a = some .CONFIGURED_OK ∨
      (m.loadComponents env configFilename).mgr.configurationOf a = some .CONFIGURED_FAILED) ∧
    (m.loadComponents env configFilename).mgr.configurationOf a
      ≠ some .CONFIGURATION_DELAYED ∧
    ((m.loadComponents env configFilename).mgr.configurationOf a = some .CONFIGURED_OK →
      (configureResults a (eventsSince m.trace
        (m.loadComponents env configFilename).mgr.trace)).getLast? = some .CONFIGURED_OK) := by
  have hx2 := afterCreate_xmlTree_ env m configFilename
  obtain ⟨hl2, _⟩ := afterCreate_sound env m configFilename hlive
  obtain ⟨_, _, sc⟩ := configurePhase_same env (env.loadFile configFilename).getAllComponents
    (m.afterCreate env configFilename)
  rw [← afterConfigure_eq] at sc
  obtain ⟨_, _, sr⟩ := retryPhase_same env (env.loadFile configFilename).getAllComponents
    (m.afterConfigure env configFilename)
    ((m.afterCreate env configFilename).componentMap_.count : Int)
  rw [← loadComponents_mgr_eq] at sr
  have hname := (XmlConfigFile.getComponent_name (env.loadFile configFilename) name hlisted).1
  simp only [XmlComponentConfig.getComponentName] at hname
  have hreg3 : (m.afterConfigure env configFilename).getComponent name = some a := by
    unfold getComponent at hreg ⊢
    rw [← sr.1]; exact hreg
  have hreg2 : (m.afterCreate env configFilename).getComponent name = some a := by
    unfold getComponent at hreg3 ⊢
    rw [← sc.1]; exact hreg3
  have hlt2 : a < (m.afterCreate env configFilename).heap.length :=
    hl2 _ (QMap.find_some_mem _ _ _ hreg2)
  have hx3 : (m.afterConfigure env configFilename).xmlTree_ = env.loadFile configFilename := by
    rw [sc.2.2.1, hx2]
  have hsettled := retryPhase_settles env (env.loadFile configFilename).getAllComponents
    (m.afterConfigure env configFilename)
    ((m.afterCreate env configFilename).componentMap_.count : Int) a name hlisted
    (by rw [hx3, hname]; exact hreg3) (by rw [sc.2.2.2]; exact hlt2)
  rw [← loadComponents_mgr_eq] at hsettled
  refine ⟨hsettled, ?_, ?_⟩
  · rcases hsettled with h | h <;> rw [h] <;> simp
  · intro hok
    obtain ⟨newc, hc, kc⟩ := configurePhase_okOnly env
      (env.loadFile configFilename).getAllComponents (m.afterCreate env configFilename) a
    obtain ⟨newc2, hc2, hne⟩ := configurePhase_configures env
      (env.loadFile configFilename).getAllComponents (m.afterCreate env configFilename) a name
      hlisted (by rw [hx2, hname]; exact hreg2)
    have hsame : newc2 = newc := List.append_cancel_left (hc2.symm.trans hc)
    rw [hsame] at hne
    rw [← afterConfigure_eq] at hc kc
    obtain ⟨newr, hr, kr⟩ := retryPhase_okOnly env
      (env.loadFile configFilename).getAllComponents (m.afterConfigure env configFilename)
      ((m.afterCreate env configFilename).componentMap_.count : Int) a
    rw [← loadComponents_mgr_eq] at hr kr
    have ht := afterCreate_trace env m configFilename
    rw [hr, hc, ht, List.append_assoc, List.append_assoc, eventsSince_append,
      configureResults_append, configureResults_loadPlugin, List.nil_append]
    rcases okOnlyByConfigure_trans kc kr hok with hlast | ⟨hnil, _⟩
    · exact hlast
    · rw [configureResults_append] at hnil
      exact absurd (List.append_eq_nil.1 hnil).1 hne

theorem loadComponents_settles_witness :
    Sample.running.pointersLive ∧
    "gps0" ∈ (Sample.envDelayed.loadFile "app.xml").getAllComponents ∧
    (Sample.running.loadComponents Sample.envDelayed "app.xml").mgr.getComponent "gps0"
      = some 0 ∧
    (Sample.running.loadComponents Sample.envDelayed "app.xml").mgr.configurationOf 0
      = some .CONFIGURED_FAILED ∧
    ((Sample.running.loadComponents Sample.envDelayed "app.xml").mgr.configurationOf 0
        = some .CONFIGURED_OK ∨
      (Sample.running.loadComponents Sample.envDelayed "app.xml").mgr.configurationOf 0
        = some .CONFIGURED_FAILED) :=
  ⟨by decide, by decide, by decide, by decide,
    (loadComponents_settles Sample.envDelayed Sample.running "app.xml" "gps0" 0 (by decide)
      (by decide) (by decide)).1⟩

end LoadComponents

/-! ## Exact step equations -/

section StepEquations

open ComponentManager

theorem configure_eq (env : Env) (m : ComponentManager) (name : QString) (a : Addr)
    (cfg : XmlComponentConfig) :
    m.configure env name a cfg
      = ((m.withParam name a cfg).updateObject a (fun c =>
          { c with configuration_ := env.configureComponent a cfg (m.withParam name a cfg) })).log
          (.configureComponent name a (env.configureComponent a cfg (m.withParam name a cfg))) :=
  rfl

theorem withParam_getComponent (m : ComponentManager) (name : QString) (a : Addr)
    (cfg : XmlComponentConfig) (k : QString) :
    (m.withParam name a cfg).getComponent k = m.getComponent k := by
  simp [withParam]

theorem withParam_configurationOf (m : ComponentManager) (name : QString) (a : Addr)
    (cfg : XmlComponentConfig) (b : Addr) :
    (m.withParam name a cfg).configurationOf b = m.configurationOf b := by
  unfold withParam
  rw [log_configurationOf, updateObject_configurationOf]
  split
  · unfold configurationOf
    cases m.heap[b]? <;> rfl
  · rfl

theorem withParam_stateOfNamed (m : ComponentManager) (name : QString) (a : Addr)
    (cfg : XmlComponentConfig) (k : QString) :
    (m.withParam name a cfg).stateOfNamed k = m.stateOfNamed k := by
  unfold stateOfNamed
  rw [withParam_getComponent]
  cases m.getComponent k with
  | none => rfl
  | some b => exact withParam_configurationOf m name a cfg b

theorem configure_trace (env : Env) (m : ComponentManager) (name : QString) (a : Addr)
    (cfg : XmlComponentConfig) :
    (m.configure env name a cfg).trace = m.trace ++ [.paramLocalCopy name a,
      .configureComponent name a (env.configureComponent a cfg (m.withParam name a cfg))] := by
  simp [configure_eq, withParam]

theorem configure_pluginList_ (env : Env) (m : ComponentManager) (name : QString) (a : Addr)
    (cfg : XmlComponentConfig) : (m.configure env name a cfg).pluginList_ = m.pluginList_ := by
  simp [configure_eq, withParam]

theorem configure_same (env : Env) (m : ComponentManager) (name : QString) (a : Addr)
    (cfg : XmlComponentConfig) : SameRegistry m (m.configure env name a cfg) := by
  rw [configure_eq]
  exact ⟨by simp [withParam], by simp [withParam], by simp [withParam], by simp [withParam]⟩

theorem configure_configurationOf (env : Env) (m : ComponentManager) (name : QString)
    (a b : Addr) (cfg : XmlComponentConfig) :
    (m.configure env name a cfg).configurationOf b
      = if a = b then (m.configurationOf b).map
          (fun _ => env.configureComponent a cfg (m.withParam name a cfg))
        else m.configurationOf b := by
  rw [configure_eq, log_configurationOf, updateObject_configurationOf]
  by_cases hab : a = b
  · subst hab
    simp only [if_true]
    rw [← withParam_configurationOf m name a cfg a]
    unfold configurationOf
    cases (m.withParam name a cfg).heap[a]? <;> rfl
  · simp only [hab, if_false]
    exact withParam_configurationOf m name a cfg b

theorem configureStep_none (env : Env) (m : ComponentManager) (it : QString)
    (h : m.getComponent (m.xmlTree_.getComponent it).name = none) :
    m.configureStep env it = m := by
  simp [configureStep, XmlComponentConfig.getComponentName, h]

theorem configureStep_some (env : Env) (m : ComponentManager) (it : QString) (a : Addr)
    (h : m.getComponent (m.xmlTree_.getComponent it).name = some a) :
    m.configureStep env it
      = m.configure env (m.xmlTree_.getComponent it).name a (m.xmlTree_.getComponent it) := by
  simp [configureStep, XmlComponentConfig.getComponentName, h]

theorem retryStep_none (env : Env) (m : ComponentManager) (n : Int) (it : QString)
    (h : m.getComponent (m.xmlTree_.getComponent it).name = none) :
    retryStep env (m, n) it = (m, n) := by
  simp [retryStep, XmlComponentConfig.getComponentName, h]

/-- Retry iteration on a component found `CONFIGURATION_DELAYED` whose new configure call
returns `CONFIGURED_OK`. -/
theorem retryStep_delayed_ok (env : Env) (m : ComponentManager) (n : Int) (it : QString)
    (a : Addr) (h : m.getComponent (m.xmlTree_.getComponent it).name = some a)
    (hd : m.configurationOf a = some .CONFIGURATION_DELAYED)
    (hr : env.configureComponent a (m.xmlTree_.getComponent it)
      (m.withParam (m.xmlTree_.getComponent it).name a (m.xmlTree_.getComponent it))
        = .CONFIGURED_OK) :
    retryStep env (m, n) it
      = (m.configure env (m.xmlTree_.getComponent it).name a (m.xmlTree_.getComponent it),
          n - 1) := by
  have hc := configure_configurationOf env m (m.xmlTree_.getComponent it).name a a
    (m.xmlTree_.getComponent it)
  rw [if_pos rfl, hd, hr] at hc
  simp [retryStep, XmlComponentConfig.getComponentName, h, hd, hc]

/-- Retry iteration on a component found `CONFIGURATION_DELAYED` whose new configure call
does not return `CONFIGURED_OK`. -/
theorem retryStep_delayed_failed (env : Env) (m : ComponentManager) (n : Int) (it : QString)
    (a : Addr) (h : m.getComponent (m.xmlTree_.getComponent it).name = some a)
    (hd : m.configurationOf a = some .CONFIGURATION_DELAYED)
    (hr : env.configureComponent a (m.xmlTree_.getComponent it)
      (m.withParam (m.xmlTree_.getComponent it).name a (m.xmlTree_.getComponent it))
        ≠ .CONFIGURED_OK) :
    retryStep env (m, n) it
      = ((m.configure env (m.xmlTree_.getComponent it).name a
          (m.xmlTree_.getComponent it)).updateObject a
            (fun c => { c with configuration_ := .CONFIGURED_FAILED }), n) := by
  have hc := configure_configurationOf env m (m.xmlTree_.getComponent it).name a a
    (m.xmlTree_.getComponent it)
  rw [if_pos rfl, hd] at hc
  simp only [Option.map_some'] at hc
  simp [retryStep, XmlComponentConfig.getComponentName, h, hd, hc, hr]

/-- Retry iteration on a component found `CONFIGURED_OK`. -/
theorem retryStep_found_ok (env : Env) (m : ComponentManager) (n : Int) (it : QString)
    (a : Addr) (h : m.getComponent (m.xmlTree_.getComponent it).name = some a)
    (hok : m.configurationOf a = some .CONFIGURED_OK) :
    retryStep env (m, n) it = (m, n - 1) := by
  simp [retryStep, XmlComponentConfig.getComponentName, h, hok]

/-- Retry iteration on a component found neither delayed nor `CONFIGURED_OK`. -/
theorem retryStep_found_other (env : Env) (m : ComponentManager) (n : Int) (it : QString)
    (a : Addr) (h : m.getComponent (m.xmlTree_.getComponent it).name = some a)
    (hd : m.configurationOf a ≠ some .CONFIGURATION_DELAYED)
    (hok : m.configurationOf a ≠ some .CONFIGURED_OK) :
    retryStep env (m, n) it
      = (m.updateObject a (fun c => { c with configuration_ := .CONFIGURED_FAILED }), n) := by
  simp [retryStep, XmlComponentConfig.getComponentName, h, hd, hok]

end StepEquations

/-! ## Plugin loop and returned count -/

section PluginsAndCount

open ComponentManager

theorem loadPlugin_pluginList_ (env : Env) (m : ComponentManager) (filename : QString) :
    (m.loadPlugin env filename).2.pluginList_ = m.pluginList_ ++ loadedRoots env [filename] := by
  obtain ⟨_, _, h5⟩ :=
    registerFactories_same (env.pluginLoader filename).factories (m.log (.loadPlugin filename))
  simp only [loadPlugin, loadedRoots, List.filterMap_cons, List.filterMap_nil]
  cases hl : (env.pluginLoader filename).load with
  | false => simp
  | true =>
    cases hr : (env.pluginLoader filename).root with
    | none => simpa using h5
    | some plugin => simpa using h5

theorem loadPlugins_pluginList_ (env : Env) (plugins : List QString) (m : ComponentManager) :
    (m.loadPlugins env plugins).pluginList_ = m.pluginList_ ++ loadedRoots env plugins := by
  induction plugins generalizing m with
  | nil => simp [loadPlugins, loadedRoots]
  | cons p rest ih =>
    have hfold : m.loadPlugins env (p :: rest) = (m.loadPlugin env p).2.loadPlugins env rest := rfl
    rw [hfold, ih, loadPlugin_pluginList_, List.append_assoc]
    congr 1
    simp [loadedRoots, List.filterMap_cons]
    cases (env.pluginLoader p).load <;> simp
    cases (env.pluginLoader p).root <;> simp

theorem createStep_pluginList_ (m : ComponentManager) (it : QString) :
    (m.createStep it).pluginList_ = m.pluginList_ := by
  unfold createStep createComponent
  simp only [XmlComponentConfig.getComponentName, XmlComponentConfig.getComponentType]
  cases m.factoryMap_.find (m.xmlTree_.getComponent it).type with
  | none => rfl
  | some factory =>
    simp only [addComponent, registerComponent]
    cases m.componentMap_.contains (m.xmlTree_.getComponent it).name <;> rfl

theorem createPhase_pluginList_ (names : List QString) (m : ComponentManager) :
    (m.createPhase names).pluginList_ = m.pluginList_ := by
  induction names generalizing m with
  | nil => rfl
  | cons it rest ih =>
    have hfold : m.createPhase (it :: rest) = (m.createStep it).createPhase rest := rfl
    rw [hfold, ih, createStep_pluginList_]

/-- One iteration of the configure loop records only parameter copies and configure calls
and leaves the plugin list alone. -/
theorem configureStep_events (env : Env) (m : ComponentManager) (it : QString) :
    ∃ new, (m.configureStep env it).trace = m.trace ++ new ∧
      (∀ e ∈ new, e.isConfigureEvent = true) ∧
      (m.configureStep env it).pluginList_ = m.pluginList_ := by
  cases h : m.getComponent (m.xmlTree_.getComponent it).name with
  | none =>
    rw [configureStep_none env m it h]
    exact ⟨[], by simp, by simp, rfl⟩
  | some a =>
    rw [configureStep_some env m it a h]
    refine ⟨_, configure_trace _ _ _ _ _, ?_, configure_pluginList_ _ _ _ _ _⟩
    intro e he
    simp only [List.mem_cons, List.mem_singleton, List.not_mem_nil, or_false] at he
    rcases he with he | he <;> rw [he] <;> rfl

/-- One iteration of the retry loop records only parameter copies and configure calls and
leaves the plugin list alone. -/
theorem retryStep_events (env : Env) (m : ComponentManager) (n : Int) (it : QString) :
    ∃ new, (retryStep env (m, n) it).1.trace = m.trace ++ new ∧
      (∀ e ∈ new, e.isConfigureEvent = true) ∧
      (retryStep env (m, n) it).1.pluginList_ = m.pluginList_ := by
  cases h : m.getComponent (m.xmlTree_.getComponent it).name with
  | none =>
    rw [retryStep_none env m n it h]
    exact ⟨[], by simp, by simp, rfl⟩
  | some a =>
    have hev : ∀ r, ∀ e ∈ [Event.paramLocalCopy (m.xmlTree_.getComponent it).name a,
        Event.configureComponent (m.xmlTree_.getComponent it).name a r],
        e.isConfigureEvent = true := by
      intro r e he
      simp only [List.mem_cons, List.mem_singleton, List.not_mem_nil, or_false] at he
      rcases he with he | he <;> rw [he] <;> rfl
    by_cases hd : m.configurationOf a = some .CONFIGURATION_DELAYED
    · by_cases hr : env.configureComponent a (m.xmlTree_.getComponent it)
          (m.withParam (m.xmlTree_.getComponent it).name a (m.xmlTree_.getComponent it))
            = .CONFIGURED_OK
      · rw [retryStep_delayed_ok env m n it a h hd hr]
        exact ⟨_, configure_trace _ _ _ _ _, hev _, configure_pluginList_ _ _ _ _ _⟩
      · rw [retryStep_delayed_failed env m n it a h hd hr]
        refine ⟨[Event.paramLocalCopy (m.xmlTree_.getComponent it).name a,
          Event.configureComponent (m.xmlTree_.getComponent it).name a
            (env.configureComponent a (m.xmlTree_.getComponent it)
              (m.withParam (m.xmlTree_.getComponent it).name a (m.xmlTree_.getComponent it)))],
          ?_, hev _, ?_⟩
        · rw [updateObject_trace]; exact configure_trace _ _ _ _ _
        · rw [updateObject_pluginList_]; exact configure_pluginList_ _ _ _ _ _
    · by_cases hok : m.configurationOf a = some .CONFIGURED_OK
      · rw [retryStep_found_ok env m n it a h hok]
        exact ⟨[], by simp, by simp, rfl⟩
      · rw [retryStep_found_other env m n it a h hd hok]
        exact ⟨[], by simp, by simp, by simp⟩

theorem configurePhase_events (env : Env) (names : List QString) (m : ComponentManager) :
    ∃ new, (m.configurePhase env names).trace = m.trace ++ new ∧
      (∀ e ∈ new, e.isConfigureEvent = true) ∧
      (m.configurePhase env names).pluginList_ = m.pluginList_ := by
  induction names generalizing m with
  | nil => exact ⟨[], by simp [configurePhase], by simp, rfl⟩
  | cons it rest ih =>
    obtain ⟨new1, h1, e1, p1⟩ := configureStep_events env m it
    obtain ⟨new2, h2, e2, p2⟩ := ih (m.configureStep env it)
    have hfold : m.configurePhase env (it :: rest)
        = (m.configureStep env it).configurePhase env rest := rfl
    refine ⟨new1 ++ new2, by rw [hfold, h2, h1, List.append_assoc], ?_, by rw [hfold, p2, p1]⟩
    intro e he
    rcases List.mem_append.1 he with he | he
    · exact e1 e he
    · exact e2 e he

theorem retryPhase_events (env : Env) (names : List QString) (m : ComponentManager) (n : Int) :
    ∃ new, (retryPhase env (m, n) names).1.trace = m.trace ++ new ∧
      (∀ e ∈ new, e.isConfigureEvent = true) ∧
      (retryPhase env (m, n) names).1.pluginList_ = m.pluginList_ := by
  induction names generalizing m n with
  | nil => exact ⟨[], by simp [retryPhase], by simp, rfl⟩
  | cons it rest ih =>
    obtain ⟨new1, h1, e1, p1⟩ := retryStep_events env m n it
    obtain ⟨new2, h2, e2, p2⟩ := ih (retryStep env (m, n) it).1 (retryStep env (m, n) it).2
    have hfold : retryPhase env (m, n) (it :: rest)
        = retryPhase env ((retryStep env (m, n) it).1, (retryStep env (m, n) it).2) rest := rfl
    refine ⟨new1 ++ new2, by rw [hfold, h2, h1, List.append_assoc], ?_, by rw [hfold, p2, p1]⟩
    intro e he
    rcases List.mem_append.1 he with he | he
    · exact e1 e he
    · exact e2 e he

/-- Shape of the trace of one run of `loadComponents`: the plugin loop, then the configure
loop, then the retry loop. -/
theorem loadComponents_trace (env : Env) (m : ComponentManager) (configFilename : QString) :
    ∃ newc newr,
      (m.afterConfigure env configFilename).trace
        = (m.afterCreate env configFilename).trace ++ newc ∧
      (m.loadComponents env configFilename).mgr.trace
        = (m.afterConfigure env configFilename).trace ++ newr ∧
      (m.loadComponents env configFilename).mgr.trace
        = m.trace ++ ((env.loadFile configFilename).getAllPlugins.map Event.loadPlugin
            ++ (newc ++ newr)) ∧
      (∀ e ∈ newc, e.isConfigureEvent = true) ∧ (∀ e ∈ newr, e.isConfigureEvent = true) ∧
      (m.loadComponents env configFilename).mgr.pluginList_
        = (m.afterPlugins env configFilename).pluginList_ := by
  obtain ⟨newc, hc, ec, pc⟩ := configurePhase_events env
    (env.loadFile configFilename).getAllComponents (m.afterCreate env configFilename)
  rw [← afterConfigure_eq] at hc pc
  obtain ⟨newr, hr, er, pr⟩ := retryPhase_events env
    (env.loadFile configFilename).getAllComponents (m.afterConfigure env configFilename)
    ((m.afterCreate env configFilename).componentMap_.count : Int)
  rw [← loadComponents_mgr_eq] at hr pr
  refine ⟨newc, newr, hc, hr, ?_, ec, er, ?_⟩
  · rw [hr, hc, afterCreate_trace]
    simp only [List.append_assoc]
  · rw [pr, pc, afterCreate_eq, createPhase_pluginList_]

theorem loadPluginCalls_append (xs ys : List Event) :
    loadPluginCalls (xs ++ ys) = loadPluginCalls xs ++ loadPluginCalls ys := by
  simp [loadPluginCalls, List.filterMap_append]

theorem loadPluginCalls_map (plugins : List QString) :
    loadPluginCalls (plugins.map Event.loadPlugin) = plugins := by
  induction plugins with
  | nil => rfl
  | cons p rest ih =>
    rw [List.map_cons, ← List.singleton_append, loadPluginCalls_append, ih]
    rfl

theorem loadPluginCalls_configureEvents (es : List Event)
    (h : ∀ e ∈ es, e.isConfigureEvent = true) : loadPluginCalls es = [] := by
  induction es with
  | nil => rfl
  | cons e rest ih =>
    have he := h e (List.mem_cons_self _ _)
    have hrest := ih (fun x hx => h x (List.mem_cons_of_mem _ hx))
    rw [← List.singleton_append, loadPluginCalls_append, hrest]
    cases e <;> first | rfl | (simp [Event.isConfigureEvent] at he)

theorem createStep_grows (m : ComponentManager) (it : QString) :
    (∀ k, m.componentMap_.contains k = true → (m.createStep it).componentMap_.contains k = true) ∧
    m.componentMap_.count ≤ (m.createStep it).componentMap_.count := by
  obtain ⟨_, _, _, hcase⟩ := createStep_spec m it
  rcases hcase with hsame | ⟨_, hmap | ⟨hnot, hmap⟩⟩
  · rw [hsame]; exact ⟨fun _ h => h, Nat.le_refl _⟩
  · rw [hmap]; exact ⟨fun _ h => h, Nat.le_refl _⟩
  · rw [hmap]
    exact ⟨fun k h => (QMap.contains_insert _ _ _ _).2 (Or.inr h),
      by rw [QMap.count_insert _ _ _ hnot]; exact Nat.le_succ _⟩

theorem createStep_creates (m : ComponentManager) (it : QString)
    (h : m.factoryMap_.contains (m.xmlTree_.getComponent it).type = true) :
    (m.createStep it).componentMap_.contains (m.xmlTree_.getComponent it).name = true := by
  obtain ⟨factory, hf⟩ := (QMap.contains_eq_true_iff _ _).1 h
  unfold createStep createComponent
  simp only [XmlComponentConfig.getComponentName, XmlComponentConfig.getComponentType, hf,
    addComponent, registerComponent]
  cases hc : m.componentMap_.contains (m.xmlTree_.getComponent it).name with
  | true => simpa using hc
  | false =>
    simp only [Bool.false_eq_true, if_false]
    exact (QMap.contains_insert _ _ _ _).2 (Or.inl rfl)

theorem createPhase_grows (names : List QString) (m : ComponentManager) :
    (∀ k, m.componentMap_.contains k = true →
      (m.createPhase names).componentMap_.contains k = true) ∧
    m.componentMap_.count ≤ (m.createPhase names).componentMap_.count := by
  induction names generalizing m with
  | nil => exact ⟨fun _ h => h, Nat.le_refl _⟩
  | cons it rest ih =>
    have hfold : m.createPhase (it :: rest) = (m.createStep it).createPhase rest := rfl
    obtain ⟨s1, s2⟩ := createStep_grows m it
    obtain ⟨i1, i2⟩ := ih (m.createStep it)
    rw [hfold]
    exact ⟨fun k h => i1 k (s1 k h), Nat.le_trans s2 i2⟩

/-- The create loop registers an instance under every listed name whose node has a type with
a factory. -/
theorem createPhase_creates (names : List QString) (m : ComponentManager) (it : QString)
    (hit : it ∈ names)
    (h : m.factoryMap_.contains (m.xmlTree_.getComponent it).type = true) :
    (m.createPhase names).componentMap_.contains (m.xmlTree_.getComponent it).name = true := by
  induction names generalizing m with
  | nil => simp at hit
  | cons k rest ih =>
    have hfold : m.createPhase (k :: rest) = (m.createStep k).createPhase rest := rfl
    obtain ⟨hx, hf, _, _⟩ := createStep_spec m k
    rw [hfold]
    rcases List.mem_cons.1 hit with heq | hrest
    · subst heq
      exact (createPhase_grows rest _).1 _ (createStep_creates m it h)
    · have := ih (m.createStep k) hrest (by rw [hx, hf]; exact h)
      rw [hx] at this
      exact this

theorem loadComponents_componentMap_ (env : Env) (m : ComponentManager)
    (configFilename : QString) :
    (m.loadComponents env configFilename).mgr.componentMap_
      = (m.afterCreate env configFilename).componentMap_ := by
  obtain ⟨_, _, sc⟩ := configurePhase_same env (env.loadFile configFilename).getAllComponents
    (m.afterCreate env configFilename)
  rw [← afterConfigure_eq] at sc
  obtain ⟨_, _, sr⟩ := retryPhase_same env (env.loadFile configFilename).getAllComponents
    (m.afterConfigure env configFilename)
    ((m.afterCreate env configFilename).componentMap_.count : Int)
  rw [← loadComponents_mgr_eq] at sr
  rw [sr.1, sc.1]

/-- C15: `loadComponents` enters `loadPlugin` once per entry of the plugin list of the
configuration, in list order, whatever the earlier calls returned; every listed file that
loads and yields an instance ends in the plugin list, also after a file that failed; and the
create loop runs on the state the plugin loop leaves, so that every listed component whose
type has a factory by then is registered when `loadComponents` returns. -/
theorem loadComponents_loads_every_plugin (env : Env) (m : ComponentManager)
    (configFilename : QString) :
    loadPluginCalls (eventsSince m.trace (m.loadComponents env configFilename).mgr.trace)
      = (env.loadFile configFilename).getAllPlugins ∧
    (m.loadComponents env configFilename).mgr.pluginList_
      = m.pluginList_ ++ loadedRoots env (env.loadFile configFilename).getAllPlugins ∧
    m.afterCreate env configFilename
      = (m.afterPlugins env configFilename).createPhase
          (env.loadFile configFilename).getAllComponents ∧
    (∀ it ∈ (env.loadFile configFilename).getAllComponents,
      (m.afterPlugins env configFilename).factoryMap_.contains
        ((env.loadFile configFilename).getComponent it).type = true →
      (m.loadComponents env configFilename).mgr.componentMap_.contains it = true) := by
  obtain ⟨newc, newr, _, _, ht, ec, er, hp⟩ := loadComponents_trace env m configFilename
  refine ⟨?_, ?_, afterCreate_eq env m configFilename, ?_⟩
  · rw [ht, eventsSince_append, loadPluginCalls_append, loadPluginCalls_map,
      loadPluginCalls_configureEvents (newc ++ newr) (fun e he => by
        rcases List.mem_append.1 he with he | he
        · exact ec e he
        · exact er e he)]
    simp
  · rw [hp]
    exact loadPlugins_pluginList_ env _ _
  · intro it hit hf
    have hx := (afterPlugins_spec env m configFilename).2.2.1
    have hname := (XmlConfigFile.getComponent_name (env.loadFile configFilename) it hit).1
    simp only [XmlComponentConfig.getComponentName] at hname
    have := createPhase_creates (env.loadFile configFilename).getAllComponents
      (m.afterPlugins env configFilename) it hit (by rw [hx]; exact hf)
    rw [hx, hname, ← afterCreate_eq] at this
    rw [loadComponents_componentMap_]
    exact this

theorem loadComponents_loads_every_plugin_witness :
    (Sample.envMissingPlugin.pluginLoader "missing.so").load = false ∧
    loadPluginCalls (eventsSince Sample.fresh.trace
      (Sample.fresh.loadComponents Sample.envMissingPlugin "app.xml").mgr.trace)
      = ["missing.so", "libsensors.so"] ∧
    (Sample.fresh.loadComponents Sample.envMissingPlugin "app.xml").mgr.pluginList_ = [7] ∧
    (Sample.fresh.loadComponents Sample.envMissingPlugin "app.xml").mgr.componentMap_.contains
      "gps0" = true :=
  ⟨by decide,
    (loadComponents_loads_every_plugin Sample.envMissingPlugin Sample.fresh "app.xml").1,
    by decide, by decide⟩

/-- C16: the value `loadComponents` returns is the number of instances in the component map
when it returns, whatever their configuration state; the configure and retry loops do not
change the map, and instances registered before the call are counted too. -/
theorem loadComponents_returns_registered_count (env : Env) (m : ComponentManager)
    (configFilename : QString) :
    (m.loadComponents env configFilename).count
      = (m.loadComponents env configFilename).mgr.componentMap_.count ∧
    (m.loadComponents env configFilename).mgr.componentMap_
      = (m.afterCreate env configFilename).componentMap_ ∧
    m.componentMap_.count ≤ (m.loadComponents env configFilename).count := by
  refine ⟨rfl, loadComponents_componentMap_ env m configFilename, ?_⟩
  show m.componentMap_.count ≤ (m.loadComponents env configFilename).mgr.componentMap_.count
  rw [loadComponents_componentMap_, afterCreate_eq]
  have := (createPhase_grows (env.loadFile configFilename).getAllComponents
    (m.afterPlugins env configFilename)).2
  rw [(afterPlugins_spec env m configFilename).1] at this
  exact this

end PluginsAndCount

/-! ## Lookup -/

section Lookup

open ComponentManager

theorem QMap.find_remove_self {V : Type} (m : QMap V) (key : QString) :
    (m.remove key).find key = none := by
  induction m with
  | nil => rfl
  | cons e rest ih =>
    obtain ⟨k, v⟩ := e
    by_cases hk : k = key
    · simpa [QMap.remove, List.filter_cons, hk] using ih
    · simpa [QMap.remove, List.filter_cons, hk, QMap.find] using ih

theorem QMap.find_remove_ne {V : Type} (m : QMap V) (key other : QString)
    (h : other ≠ key) : (m.remove key).find other = m.find other := by
  induction m with
  | nil => rfl
  | cons e rest ih =>
    obtain ⟨k, v⟩ := e
    by_cases hk : k = key
    · have hko : ¬ k = other := fun e => h (e.symm.trans hk)
      have hf : QMap.remove ((k, v) :: rest) key = QMap.remove rest key := by
        simp [QMap.remove, List.filter_cons, hk]
      rw [hf, ih]
      simp [QMap.find, hko]
    · have hf : QMap.remove ((k, v) :: rest) key = (k, v) :: QMap.remove rest key := by
        simp [QMap.remove, List.filter_cons, hk]
      rw [hf]
      by_cases hko : k = other
      · simp [QMap.find, hko]
      · simp [QMap.find, hko, ih]

/-- C17: `getComponent(name)` is a pure lookup: it returns the instance registered under
`name` when there is one and not-found otherwise.  After a successful
`registerComponent(c, name)` it returns `c` (and every other name resolves as before); after
a successful `unRegisterComponent(name)` it returns not-found while every other name still
resolves to the same instance as before. -/
theorem getComponent_lookup (m : ComponentManager) (name : QString) (c : Addr) :
    (m.componentMap_.contains name = false → m.getComponent name = none) ∧
    (m.componentMap_.contains name = true →
      ∃ a, m.getComponent name = some a ∧ (name, a) ∈ m.componentMap_) ∧
    ((m.registerComponent c name).1 = true →
      (m.registerComponent c name).2.getComponent name = some c ∧
      ∀ other, other ≠ name →
        (m.registerComponent c name).2.getComponent other = m.getComponent other) ∧
    ((m.unRegisterComponent name).1 = true →
      (m.unRegisterComponent name).2.getComponent name = none ∧
      ∀ other, other ≠ name →
        (m.unRegisterComponent name).2.getComponent other = m.getComponent other) := by
  refine ⟨?_, ?_, ?_, ?_⟩
  · intro h
    exact (QMap.find_eq_none_iff _ _).2 h
  · intro h
    obtain ⟨a, ha⟩ := (QMap.contains_eq_true_iff _ _).1 h
    exact ⟨a, ha, QMap.find_some_mem _ _ _ ha⟩
  · unfold registerComponent
    cases hc : m.componentMap_.contains name with
    | true => simp
    | false =>
      intro _
      simp only [Bool.false_eq_true, if_false, getComponent]
      exact ⟨QMap.find_insert_self _ _ _, fun other ho => QMap.find_insert_ne _ _ _ _ ho⟩
  · unfold unRegisterComponent
    cases hc : m.componentMap_.contains name with
    | false => simp
    | true =>
      intro _
      simp only [Bool.not_true, Bool.false_eq_true, if_false, getComponent]
      exact ⟨QMap.find_remove_self _ _, fun other ho => QMap.find_remove_ne _ _ _ ho⟩

theorem getComponent_lookup_witness :
    (Sample.three.registerComponent 9 "imu0").1 = true ∧
    (Sample.three.registerComponent 9 "imu0").2.getComponent "imu0" = some 9 ∧
    (Sample.three.unRegisterComponent "gps0").1 = true ∧
    (Sample.three.unRegisterComponent "gps0").2.getComponent "gps0" = none ∧
    (Sample.three.unRegisterComponent "gps0").2.getComponent "cam0" = some 1 :=
  ⟨by decide,
    ((getComponent_lookup Sample.three "imu0" 9).2.2.1 (by decide)).1,
    by decide,
    ((getComponent_lookup Sample.three "gps0" 0).2.2.2 (by decide)).1,
    by decide⟩

end Lookup

/-! ## loadPlugin -/

section LoadPlugin

open ComponentManager

/-- The outcomes of `loadPlugin`: false with the plugin list untouched when the library
does not load or yields no instance; otherwise the instance is appended and true is
returned, whether or not it is a `PacpusPluginInterface`. -/
theorem loadPlugin_outcomes (env : Env) (m : ComponentManager) (filename : QString) :
    ((env.pluginLoader filename).load = false →
      (m.loadPlugin env filename).1 = false ∧
      (m.loadPlugin env filename).2.pluginList_ = m.pluginList_) ∧
    ((env.pluginLoader filename).load = true → (env.pluginLoader filename).root = none →
      (m.loadPlugin env filename).1 = false ∧
      (m.loadPlugin env filename).2.pluginList_ = m.pluginList_) ∧
    (∀ plugin, (env.pluginLoader filename).load = true →
      (env.pluginLoader filename).root = some plugin →
      (m.loadPlugin env filename).1 = true ∧
      (m.loadPlugin env filename).2.pluginList_ = m.pluginList_ ++ [plugin]) := by
  have hp := loadPlugin_pluginList_ env m filename
  simp only [loadedRoots, List.filterMap_cons, List.filterMap_nil] at hp
  refine ⟨?_, ?_, ?_⟩
  · intro hl
    rw [hl] at hp
    exact ⟨by simp [loadPlugin, hl], by simpa using hp⟩
  · intro hl hr
    rw [hl, hr] at hp
    exact ⟨by simp [loadPlugin, hl, hr], by simpa using hp⟩
  · intro plugin hl hr
    rw [hl, hr] at hp
    exact ⟨by simp [loadPlugin, hl, hr], by simpa using hp⟩

/-- C14 (failing input): `libother.so` loads and yields an instance that does not implement
the plugin interface; `loadPlugin` nevertheless appends the instance to the plugin list and
returns true. -/
theorem loadPlugin_foreign_instance :
    (Sample.envForeign.pluginLoader "libother.so").load = true ∧
    (Sample.envForeign.pluginLoader "libother.so").root = some 9 ∧
    (Sample.envForeign.pluginLoader "libother.so").hasInterface = false ∧
    (Sample.fresh.loadPlugin Sample.envForeign "libother.so").1 = true ∧
    (Sample.fresh.loadPlugin Sample.envForeign "libother.so").2.pluginList_ = [9] := by
  decide

end LoadPlugin

/-! ## Nodes that are not created -/

section Uncreated

open ComponentManager

theorem onBehalfOf_append (name : QString) (xs ys : List Event) :
    onBehalfOf name (xs ++ ys) = onBehalfOf name xs ++ onBehalfOf name ys := by
  simp [onBehalfOf, List.filter_append]

theorem onBehalfOf_loadPlugin (name : QString) (plugins : List QString) :
    onBehalfOf name (plugins.map Event.loadPlugin) = [] := by
  induction plugins with
  | nil => rfl
  | cons p rest ih =>
    rw [List.map_cons, ← List.singleton_append, onBehalfOf_append, ih]
    rfl

theorem onBehalfOf_pair (name tag : QString) (a : Addr) (r : COMPONENT_CONFIGURATION)
    (h : tag ≠ name) :
    onBehalfOf name [.paramLocalCopy tag a, .configureComponent tag a r] = [] := by
  simp [onBehalfOf, h]

/-- The create loop registers nothing under a name whose node has a type without factory. -/
theorem createPhase_not_created (names : List QString) (m : ComponentManager) (name : QString)
    (hfail : ∀ k ∈ names, (m.xmlTree_.getComponent k).name = name →
      m.factoryMap_.contains (m.xmlTree_.getComponent k).type = false)
    (hnew : m.componentMap_.contains name = false) :
    (m.createPhase names).componentMap_.contains name = false := by
  induction names generalizing m with
  | nil => exact hnew
  | cons k rest ih =>
    have hfold : m.createPhase (k :: rest) = (m.createStep k).createPhase rest := rfl
    obtain ⟨hx, hf, _, hcase⟩ := createStep_spec m k
    rw [hfold]
    apply ih
    · intro j hj hname
      rw [hx] at hname ⊢
      rw [hf]
      exact hfail j (List.mem_cons_of_mem _ hj) hname
    · rcases hcase with hsame | ⟨_, hmap | ⟨_, hmap⟩⟩
      · rw [hsame]; exact hnew
      · rw [hmap]; exact hnew
      · by_cases hk : (m.xmlTree_.getComponent k).name = name
        · have hno := hfail k (List.mem_cons_self _ _) hk
          have hnone := (QMap.find_eq_none_iff _ _).2 hno
          have : m.createStep k = m := by
            simp [createStep, createComponent, XmlComponentConfig.getComponentType, hnone]
          rw [this]; exact hnew
        · rw [hmap]
          cases hc : (m.componentMap_.insert (m.xmlTree_.getComponent k).name
              m.heap.length).contains name with
          | false => rfl
          | true =>
            rcases (QMap.contains_insert _ _ _ _).1 hc with h | h
            · exact absurd h.symm hk
            · rw [hnew] at h; exact Bool.noConfusion h

theorem configureStep_unregistered (env : Env) (m : ComponentManager) (it name : QString)
    (h : m.getComponent name = none) :
    ∃ new, (m.configureStep env it).trace = m.trace ++ new ∧ onBehalfOf name new = [] ∧
      (m.configureStep env it).getComponent name = none := by
  cases hg : m.getComponent (m.xmlTree_.getComponent it).name with
  | none =>
    rw [configureStep_none env m it hg]
    exact ⟨[], by simp, rfl, h⟩
  | some a =>
    rw [configureStep_some env m it a hg]
    have hne : (m.xmlTree_.getComponent it).name ≠ name := by
      intro e
      rw [e, h] at hg
      exact Option.noConfusion hg
    refine ⟨_, configure_trace _ _ _ _ _, onBehalfOf_pair _ _ _ _ hne, ?_⟩
    unfold getComponent at h ⊢
    rw [(configure_same env m _ a _).1]; exact h

theorem retryStep_unregistered (env : Env) (m : ComponentManager) (n : Int) (it name : QString)
    (h : m.getComponent name = none) :
    ∃ new, (retryStep env (m, n) it).1.trace = m.trace ++ new ∧ onBehalfOf name new = [] ∧
      (retryStep env (m, n) it).1.getComponent name = none := by
  obtain ⟨_, _, sr, _⟩ := retryStep_spec env m n it
  have hkeep : (retryStep env (m, n) it).1.getComponent name = none := by
    unfold getComponent at h ⊢
    rw [sr.1]; exact h
  suffices hmain : ∃ new, (retryStep env (m, n) it).1.trace = m.trace ++ new ∧
      onBehalfOf name new = [] by
    obtain ⟨new, h1, h2⟩ := hmain
    exact ⟨new, h1, h2, hkeep⟩
  cases hg : m.getComponent (m.xmlTree_.getComponent it).name with
  | none =>
    rw [retryStep_none env m n it hg]
    exact ⟨[], by simp, rfl⟩
  | some a =>
    have hne : (m.xmlTree_.getComponent it).name ≠ name := by
      intro e
      rw [e, h] at hg
      exact Option.noConfusion hg
    by_cases hd : m.configurationOf a = some .CONFIGURATION_DELAYED
    · by_cases hr : env.configureComponent a (m.xmlTree_.getComponent it)
          (m.withParam (m.xmlTree_.getComponent it).name a (m.xmlTree_.getComponent it))
            = .CONFIGURED_OK
      · rw [retryStep_delayed_ok env m n it a hg hd hr]
        exact ⟨_, configure_trace _ _ _ _ _, onBehalfOf_pair _ _ _ _ hne⟩
      · rw [retryStep_delayed_failed env m n it a hg hd hr]
        exact ⟨[Event.paramLocalCopy (m.xmlTree_.getComponent it).name a,
          Event.configureComponent (m.xmlTree_.getComponent it).name a
            (env.configureComponent a (m.xmlTree_.getComponent it)
              (m.withParam (m.xmlTree_.getComponent it).name a (m.xmlTree_.getComponent it)))],
          by rw [updateObject_trace]; exact configure_trace _ _ _ _ _,
          onBehalfOf_pair _ _ _ _ hne⟩
    · by_cases hok : m.configurationOf a = some .CONFIGURED_OK
      · rw [retryStep_found_ok env m n it a hg hok]
        exact ⟨[], by simp, rfl⟩
      · rw [retryStep_found_other env m n it a hg hd hok]
        exact ⟨[], by simp, rfl⟩

theorem configurePhase_unregistered (env : Env) (names : List QString) (m : ComponentManager)
    (name : QString) (h : m.getComponent name = none) :
    ∃ new, (m.configurePhase env names).trace = m.trace ++ new ∧ onBehalfOf name new = [] := by
  induction names generalizing m with
  | nil => exact ⟨[], by simp [configurePhase], rfl⟩
  | cons it rest ih =>
    obtain ⟨new1, h1, o1, g1⟩ := configureStep_unregistered env m it name h
    obtain ⟨new2, h2, o2⟩ := ih (m.configureStep env it) g1
    have hfold : m.configurePhase env (it :: rest)
        = (m.configureStep env it).configurePhase env rest := rfl
    exact ⟨new1 ++ new2, by rw [hfold, h2, h1, List.append_assoc], by
      rw [onBehalfOf_append, o1, o2]; rfl⟩

theorem retryPhase_unregistered (env : Env) (names : List QString) (m : ComponentManager)
    (n : Int) (name : QString) (h : m.getComponent name = none) :
    ∃ new, (retryPhase env (m, n) names).1.trace = m.trace ++ new ∧
      onBehalfOf name new = [] := by
  induction names generalizing m n with
  | nil => exact ⟨[], by simp [retryPhase], rfl⟩
  | cons it rest ih =>
    obtain ⟨new1, h1, o1, g1⟩ := retryStep_unregistered env m n it name h
    obtain ⟨new2, h2, o2⟩ := ih (retryStep env (m, n) it).1 (retryStep env (m, n) it).2 g1
    have hfold : retryPhase env (m, n) (it :: rest)
        = retryPhase env ((retryStep env (m, n) it).1, (retryStep env (m, n) it).2) rest := rfl
    exact ⟨new1 ++ new2, by rw [hfold, h2, h1, List.append_assoc], by
      rw [onBehalfOf_append, o1, o2]; rfl⟩

theorem createComponent_fails_iff (m : ComponentManager) (type name : QString) :
    (m.createComponent type name).1 = false ↔ m.factoryMap_.contains type = false := by
  unfold createComponent QMap.contains
  cases m.factoryMap_.find type <;> simp

/-- Counterexample to C13 as stated: `gps0` is already registered when `loadComponents` is
called with a configuration that lists `gps0` with a type no factory provides; the
`createComponent` call made for the node fails, and the configure loop still copies the
parameters of the node into the registered instance and configures it. -/
theorem loadComponents_configures_uncreated :
    ¬ (∀ (env : Env) (m : ComponentManager) (configFilename : QString)
        (pre post : List QString) (it : QString),
        (env.loadFile configFilename).getAllComponents = pre ++ it :: post →
        (((m.afterPlugins env configFilename).createPhase pre).createComponent
          ((env.loadFile configFilename).getComponent it).type
          ((env.loadFile configFilename).getComponent it).name).1 = false →
        onBehalfOf it (eventsSince m.trace (m.loadComponents env configFilename).mgr.trace)
          = []) := by
  intro h
  have h1 := h Sample.envUnknownType Sample.running "app.xml" [] [] "gps0" (by decide)
    (by decide)
  exact absurd h1 (by decide)

/-- C13 (amended): for a config node whose `createComponent(type, name)` call fails in the
create loop and under whose name no component is registered when `loadComponents` is
called, no component is registered under that name when `loadComponents` returns, and
`loadComponents` performs no parameter copy and no configure call on behalf of the node,
neither in the configure loop nor in the retry loop. -/
theorem loadComponents_skips_uncreated (env : Env) (m : ComponentManager)
    (configFilename : QString) (pre post : List QString) (it : QString)
    (hpos : (env.loadFile configFilename).getAllComponents = pre ++ it :: post)
    (hfail : (((m.afterPlugins env configFilename).createPhase pre).createComponent
      ((env.loadFile configFilename).getComponent it).type
      ((env.loadFile configFilename).getComponent it).name).1 = false)
    (hnew : m.componentMap_.contains it = false) :
    (m.loadComponents env configFilename).mgr.getComponent it = none ∧
    onBehalfOf it (eventsSince m.trace (m.loadComponents env configFilename).mgr.trace)
      = [] := by
  obtain ⟨p1, _, p3, _⟩ := afterPlugins_spec env m configFilename
  have hit : it ∈ (env.loadFile configFilename).getAllComponents := by
    rw [hpos]; simp
  have hnofac : (m.afterPlugins env configFilename).factoryMap_.contains
      ((env.loadFile configFilename).getComponent it).type = false := by
    have := (createComponent_fails_iff _ _ _).1 hfail
    rw [(createPhase_spec pre _).2.1] at this
    exact this
  have hcreate : (m.afterCreate env configFilename).getComponent it = none := by
    apply (QMap.find_eq_none_iff _ _).2
    rw [afterCreate_eq]
    apply createPhase_not_created
    · intro k hk hname
      rw [p3] at hname ⊢
      have hk2 := (XmlConfigFile.getComponent_name _ k hk).1
      simp only [XmlComponentConfig.getComponentName] at hk2
      rw [hk2] at hname
      rw [hname]; exact hnofac
    · rw [p1]; exact hnew
  obtain ⟨newc, hc, oc⟩ := configurePhase_unregistered env
    (env.loadFile configFilename).getAllComponents (m.afterCreate env configFilename) it hcreate
  rw [← afterConfigure_eq] at hc
  obtain ⟨_, _, sc⟩ := configurePhase_same env (env.loadFile configFilename).getAllComponents
    (m.afterCreate env configFilename)
  rw [← afterConfigure_eq] at sc
  have hconf : (m.afterConfigure env configFilename).getComponent it = none := by
    unfold getComponent at hcreate ⊢
    rw [sc.1]; exact hcreate
  obtain ⟨newr, hr, orr⟩ := retryPhase_unregistered env
    (env.loadFile configFilename).getAllComponents (m.afterConfigure env configFilename)
    ((m.afterCreate env configFilename).componentMap_.count : Int) it hconf
  rw [← loadComponents_mgr_eq] at hr
  refine ⟨?_, ?_⟩
  · unfold getComponent at hcreate ⊢
    rw [loadComponents_componentMap_]; exact hcreate
  · rw [hr, hc, afterCreate_trace, List.append_assoc, List.append_assoc, eventsSince_append,
      onBehalfOf_append, onBehalfOf_append, onBehalfOf_loadPlugin, oc, orr]
    rfl

theorem loadComponents_skips_uncreated_witness :
    (Sample.envUnknownType.loadFile "app.xml").getAllComponents = [] ++ "gps0" :: [] ∧
    Sample.fresh.componentMap_.contains "gps0" = false ∧
    (Sample.fresh.loadComponents Sample.envUnknownType "app.xml").mgr.getComponent "gps0"
      = none ∧
    onBehalfOf "gps0" (eventsSince Sample.fresh.trace
      (Sample.fresh.loadComponents Sample.envUnknownType "app.xml").mgr.trace) = [] :=
  ⟨by decide, by decide,
    loadComponents_skips_uncreated Sample.envUnknownType Sample.fresh "app.xml" [] [] "gps0"
      (by decide) (by decide) (by decide)⟩

end Uncreated

/-! ## The retry loop -/

section RetryLoop

open ComponentManager

/-- One retry iteration, seen from the object at `b`: either it makes no configure call on
`b`, or `b` is the component the listed name resolves to, it is `CONFIGURATION_DELAYED`
when the iteration starts, and exactly one configure call is made on it. -/
theorem retryStep_only_delayed (env : Env) (m : ComponentManager) (n : Int) (it : QString)
    (b : Addr) :
    configureResults b (eventsSince m.trace (retryStep env (m, n) it).1.trace) = [] ∨
    (m.getComponent (m.xmlTree_.getComponent it).name = some b ∧
      m.configurationOf b = some .CONFIGURATION_DELAYED ∧
      (configureResults b (eventsSince m.trace (retryStep env (m, n) it).1.trace)).length
        = 1) := by
  obtain ⟨new, h, _, hother, _, hself⟩ := retryStep_spec env m n it
  rw [h, eventsSince_append]
  by_cases hg : m.getComponent (m.xmlTree_.getComponent it).name = some b
  · by_cases hd : m.configurationOf b = some .CONFIGURATION_DELAYED
    · obtain ⟨s, hnew, _, _⟩ := (hself b hg).2 hd
      right
      refine ⟨hg, hd, ?_⟩
      rw [hnew, configureResults_pair]
      simp
    · left
      rw [((hself b hg).1 hd).1]; rfl
  · left
    exact (hother b hg).1

/-- The retry loop configures a component that is `CONFIGURATION_DELAYED` when the loop
starts and that a listed name resolves to. -/
theorem retryPhase_retries (env : Env) (names : List QString) (m : ComponentManager) (n : Int)
    (b : Addr) (it : QString) (hit : it ∈ names)
    (hg : m.getComponent (m.xmlTree_.getComponent it).name = some b)
    (hd : m.configurationOf b = some .CONFIGURATION_DELAYED) :
    ∃ new, (retryPhase env (m, n) names).1.trace = m.trace ++ new ∧
      configureResults b new ≠ [] := by
  induction names generalizing m n with
  | nil => simp at hit
  | cons k rest ih =>
    obtain ⟨new1, h1, s1, hother, _, hself⟩ := retryStep_spec env m n k
    obtain ⟨new2, h2, _⟩ := retryPhase_same env rest (retryStep env (m, n) k).1
      (retryStep env (m, n) k).2
    have hfold : retryPhase env (m, n) (k :: rest)
        = retryPhase env ((retryStep env (m, n) k).1, (retryStep env (m, n) k).2) rest := rfl
    by_cases hk : m.getComponent (m.xmlTree_.getComponent k).name = some b
    · obtain ⟨s, hnew, _, _⟩ := (hself b hk).2 hd
      refine ⟨new1 ++ new2, by rw [hfold, h2, h1, List.append_assoc], ?_⟩
      rw [configureResults_append, hnew, configureResults_pair]
      simp
    · have hne : it ≠ k := fun e => hk (e ▸ hg)
      have hrest : it ∈ rest := by
        rcases List.mem_cons.1 hit with e | e
        · exact absurd e hne
        · exact e
      obtain ⟨new3, h3, hr3⟩ := ih (retryStep env (m, n) k).1 (retryStep env (m, n) k).2 hrest
        (by
          rw [s1.2.2.1]
          unfold getComponent at hg ⊢
          rw [s1.1]; exact hg)
        (by rw [(hother b hk).2]; exact hd)
      refine ⟨new1 ++ new3, by rw [hfold, h3, h1, List.append_assoc], ?_⟩
      rw [configureResults_append]
      simp [hr3]

/-- C20: in the retry pass of `loadComponents`, every iteration that calls configure on a
component finds it in state `CONFIGURATION_DELAYED` at that moment and calls it once; a
component whose state is not `CONFIGURATION_DELAYED` when the retry pass starts (it ended
the initial pass `CONFIGURED_OK`, `CONFIGURED_FAILED` or otherwise) is never configured
again; a component that is `CONFIGURATION_DELAYED` when the retry pass starts and that a
listed name resolves to is configured exactly once; and no component is configured more
than once. -/
theorem retryPass_configures_delayed_once (env : Env) (m : ComponentManager)
    (configFilename : QString) (b : Addr) :
    (∀ pre it post, (env.loadFile configFilename).getAllComponents = pre ++ it :: post →
      configureResults b (eventsSince
        (retryPhase env (m.afterConfigure env configFilename,
          ((m.afterCreate env configFilename).componentMap_.count : Int)) pre).1.trace
        (retryStep env (retryPhase env (m.afterConfigure env configFilename,
          ((m.afterCreate env configFilename).componentMap_.count : Int)) pre) it).1.trace)
        = [] ∨
      ((retryPhase env (m.afterConfigure env configFilename,
          ((m.afterCreate env configFilename).componentMap_.count : Int)) pre).1.configurationOf b
          = some .CONFIGURATION_DELAYED ∧
        (configureResults b (eventsSince
          (retryPhase env (m.afterConfigure env configFilename,
            ((m.afterCreate env configFilename).componentMap_.count : Int)) pre).1.trace
          (retryStep env (retryPhase env (m.afterConfigure env configFilename,
            ((m.afterCreate env configFilename).componentMap_.count : Int)) pre) it).1.trace)
          ).length = 1)) ∧
    ((m.afterConfigure env configFilename).configurationOf b ≠ some .CONFIGURATION_DELAYED →
      configureResults b (eventsSince (m.afterConfigure env configFilename).trace
        (m.loadComponents env configFilename).mgr.trace) = []) ∧
    (∀ name ∈ (env.loadFile configFilename).getAllComponents,
      (m.afterConfigure env configFilename).getComponent name = some b →
      (m.afterConfigure env configFilename).configurationOf b = some .CONFIGURATION_DELAYED →
      (configureResults b (eventsSince (m.afterConfigure env configFilename).trace
        (m.loadComponents env configFilename).mgr.trace)).length = 1) ∧
    (configureResults b (eventsSince (m.afterConfigure env configFilename).trace
      (m.loadComponents env configFilename).mgr.trace)).length ≤ 1 := by
  obtain ⟨newr, hr, hrl⟩ := retryPhase_at_most_once env
    (env.loadFile configFilename).getAllComponents (m.afterConfigure env configFilename)
    ((m.afterCreate env configFilename).componentMap_.count : Int) b
  rw [← loadComponents_mgr_eq] at hr
  refine ⟨?_, ?_, ?_, ?_⟩
  · intro pre it post _
    have := retryStep_only_delayed env
      (retryPhase env (m.afterConfigure env configFilename,
        ((m.afterCreate env configFilename).componentMap_.count : Int)) pre).1
      (retryPhase env (m.afterConfigure env configFilename,
        ((m.afterCreate env configFilename).componentMap_.count : Int)) pre).2 it b
    rcases this with h | ⟨_, h2, h3⟩
    · exact Or.inl h
    · exact Or.inr ⟨h2, h3⟩
  · intro hnd
    obtain ⟨new, h, hres, _⟩ := retryPhase_not_delayed env
      (env.loadFile configFilename).getAllComponents (m.afterConfigure env configFilename)
      ((m.afterCreate env configFilename).componentMap_.count : Int) b hnd
    rw [← loadComponents_mgr_eq] at h
    rw [h, eventsSince_append]; exact hres
  · intro name hname hg hd
    obtain ⟨_, _, sc⟩ := configurePhase_same env (env.loadFile configFilename).getAllComponents
      (m.afterCreate env configFilename)
    rw [← afterConfigure_eq] at sc
    have hx : (m.afterConfigure env configFilename).xmlTree_ = env.loadFile configFilename := by
      rw [sc.2.2.1, afterCreate_xmlTree_]
    have hn := (XmlConfigFile.getComponent_name (env.loadFile configFilename) name hname).1
    simp only [XmlComponentConfig.getComponentName] at hn
    obtain ⟨new, h, hne⟩ := retryPhase_retries env
      (env.loadFile configFilename).getAllComponents (m.afterConfigure env configFilename)
      ((m.afterCreate env configFilename).componentMap_.count : Int) b name hname
      (by rw [hx, hn]; exact hg) hd
    rw [← loadComponents_mgr_eq] at h
    have hsame : new = newr := List.append_cancel_left (h.symm.trans hr)
    rw [hr, eventsSince_append]
    rw [hsame] at hne
    have hpos : 0 < (configureResults b newr).length := List.length_pos.2 hne
    omega
  · rw [hr, eventsSince_append]; exact hrl

theorem retryPass_configures_delayed_once_witness :
    (Sample.fresh.afterConfigure Sample.envDelayed "app.xml").getComponent "gps0" = some 0 ∧
    (Sample.fresh.afterConfigure Sample.envDelayed "app.xml").configurationOf 0
      = some .CONFIGURATION_DELAYED ∧
    (configureResults 0 (eventsSince (Sample.fresh.afterConfigure Sample.envDelayed "app.xml").trace
      (Sample.fresh.loadComponents Sample.envDelayed "app.xml").mgr.trace)).length = 1 :=
  ⟨by decide, by decide,
    (retryPass_configures_delayed_once Sample.envDelayed Sample.fresh "app.xml" 0).2.2.1
      "gps0" (by decide) (by decide) (by decide)⟩

end RetryLoop

/-! ## Dependent components -/

section Dependent

open ComponentManager

theorem configurationOf_of_live (m : ComponentManager) (x : Addr) (h : x < m.heap.length) :
    ∃ c, m.configurationOf x = some c :=
  (configurationOf_isSome_iff m x).2 h

/-- Configure iteration on a listed name that resolves to the live object `x`: `x` takes
the state its configure routine returns, every other object keeps its state. -/
theorem configureStep_view (env : Env) (s : ComponentManager) (n : QString) (x : Addr)
    (hg : s.getComponent (s.xmlTree_.getComponent n).name = some x)
    (hlive : x < s.heap.length) (y : Addr) :
    (s.configureStep env n).configurationOf y
      = if x = y then some (env.configureComponent x (s.xmlTree_.getComponent n)
          (s.withParam (s.xmlTree_.getComponent n).name x (s.xmlTree_.getComponent n)))
        else s.configurationOf y := by
  rw [configureStep_some env s n x hg, configure_configurationOf]
  by_cases hxy : x = y
  · subst hxy
    obtain ⟨c, hc⟩ := configurationOf_of_live s x hlive
    simp [hc]
  · simp [hxy]

theorem configureStep_sameRegistry (env : Env) (s : ComponentManager) (n : QString) :
    SameRegistry s (s.configureStep env n) :=
  (configureStep_spec env s n).choose_spec.2.1

theorem retryStep_sameRegistry (env : Env) (s : ComponentManager) (k : Int) (n : QString) :
    SameRegistry s (retryStep env (s, k) n).1 :=
  (retryStep_spec env s k n).choose_spec.2.1

theorem SameRegistry.getComponent_eq {m r : ComponentManager} (h : SameRegistry m r)
    (name : QString) : r.getComponent name = m.getComponent name := by
  unfold getComponent; rw [h.1]

theorem stateOfNamed_eq (s : ComponentManager) (name : QString) (x : Addr)
    (h : s.getComponent name = some x) : s.stateOfNamed name = s.configurationOf x := by
  simp [stateOfNamed, h]

theorem updateObject_failed_view (s : ComponentManager) (x y : Addr) (c : COMPONENT_CONFIGURATION)
    (hx : s.configurationOf x = some c) :
    (s.updateObject x (fun o => { o with configuration_ := .CONFIGURED_FAILED })).configurationOf y
      = if x = y then some .CONFIGURED_FAILED else s.configurationOf y := by
  rw [updateObject_configurationOf]
  by_cases hxy : x = y
  · subst hxy
    simp only [if_true]
    unfold configurationOf at hx
    cases hh : s.heap[x]? with
    | none => simp [hh] at hx
    | some o => rfl
  · simp [hxy]

/-- C11: two created components A and B (their types have factories once the plugins are
loaded; the registry the run starts from has live pointers and no instance under two
names), A's configure routine always returning `CONFIGURED_OK`, B's returning
`CONFIGURED_OK` when A is `CONFIGURED_OK` at the time of the call and
`CONFIGURATION_DELAYED` otherwise.  Whether A is declared before B or B before A (then
through the single retry), after `loadComponents` both A and B are `CONFIGURED_OK`. -/
theorem loadComponents_two_dependent (env : Env) (m : ComponentManager)
    (configFilename : QString) (cA cB : XmlComponentConfig)
    (hcomp : (env.loadFile configFilename).components = [cA, cB] ∨
      (env.loadFile configFilename).components = [cB, cA])
    (hne : cA.name ≠ cB.name)
    (hfactory : (m.afterPlugins env configFilename).factoryMap_.contains cA.type = true ∧
      (m.afterPlugins env configFilename).factoryMap_.contains cB.type = true)
    (hlive : m.pointersLive) (halias : m.noAlias)
    (hA : ∀ a s, env.configureComponent a cA s = .CONFIGURED_OK)
    (hB : ∀ a s, env.configureComponent a cB s
      = if s.stateOfNamed cA.name = some .CONFIGURED_OK then .CONFIGURED_OK
        else .CONFIGURATION_DELAYED) :
    (m.loadComponents env configFilename).mgr.stateOfNamed cA.name = some .CONFIGURED_OK ∧
    (m.loadComponents env configFilename).mgr.stateOfNamed cB.name = some .CONFIGURED_OK := by
  have hne2 : ¬ cB.name = cA.name := fun e => hne e.symm
  -- the configuration tree
  have hgA : (env.loadFile configFilename).getComponent cA.name = cA := by
    rcases hcomp with h | h <;> simp [XmlConfigFile.getComponent, h, hne2]
  have hgB : (env.loadFile configFilename).getComponent cB.name = cB := by
    rcases hcomp with h | h <;> simp [XmlConfigFile.getComponent, h, hne]
  have hmemA : cA.name ∈ (env.loadFile configFilename).getAllComponents := by
    rcases hcomp with h | h <;> simp [XmlConfigFile.getAllComponents, h]
  have hmemB : cB.name ∈ (env.loadFile configFilename).getAllComponents := by
    rcases hcomp with h | h <;> simp [XmlConfigFile.getAllComponents, h]
  -- the state after the create loop
  have hx2 := afterCreate_xmlTree_ env m configFilename
  have hxp := (afterPlugins_spec env m configFilename).2.2.1
  obtain ⟨hl2, ha2⟩ := afterCreate_sound env m configFilename hlive
  have hcA : (m.afterCreate env configFilename).componentMap_.contains cA.name = true := by
    have := createPhase_creates (env.loadFile configFilename).getAllComponents
      (m.afterPlugins env configFilename) cA.name hmemA (by rw [hxp, hgA]; exact hfactory.1)
    rw [hxp, hgA, ← afterCreate_eq] at this
    exact this
  have hcB : (m.afterCreate env configFilename).componentMap_.contains cB.name = true := by
    have := createPhase_creates (env.loadFile configFilename).getAllComponents
      (m.afterPlugins env configFilename) cB.name hmemB (by rw [hxp, hgB]; exact hfactory.2)
    rw [hxp, hgB, ← afterCreate_eq] at this
    exact this
  obtain ⟨a, hfa⟩ := (QMap.contains_eq_true_iff _ _).1 hcA
  obtain ⟨b, hfb⟩ := (QMap.contains_eq_true_iff _ _).1 hcB
  have hlta : a < (m.afterCreate env configFilename).heap.length :=
    hl2 _ (QMap.find_some_mem _ _ _ hfa)
  have hltb : b < (m.afterCreate env configFilename).heap.length :=
    hl2 _ (QMap.find_some_mem _ _ _ hfb)
  have hab : a ≠ b := by
    intro e
    rw [← e] at hfb
    exact hne (noAlias_inj _ (ha2 halias) _ _ a hfa hfb)
  have hba : ¬ b = a := fun e => hab e.symm
  -- every state of the two loops keeps the registry of the state after the create loop
  have frame : ∀ s, SameRegistry (m.afterCreate env configFilename) s →
      s.xmlTree_.getComponent cA.name = cA ∧ s.xmlTree_.getComponent cB.name = cB ∧
      s.getComponent cA.name = some a ∧ s.getComponent cB.name = some b ∧
      a < s.heap.length ∧ b < s.heap.length := by
    intro s hs
    refine ⟨by rw [hs.2.2.1, hx2]; exact hgA, by rw [hs.2.2.1, hx2]; exact hgB,
      by rw [hs.getComponent_eq]; exact hfa, by rw [hs.getComponent_eq]; exact hfb,
      by rw [hs.2.2.2]; exact hlta, by rw [hs.2.2.2]; exact hltb⟩
  -- the four kinds of iteration
  have cfgA : ∀ s, SameRegistry (m.afterCreate env configFilename) s →
      SameRegistry (m.afterCreate env configFilename) (s.configureStep env cA.name) ∧
      (s.configureStep env cA.name).configurationOf a = some .CONFIGURED_OK ∧
      (s.configureStep env cA.name).configurationOf b = s.configurationOf b := by
    intro s hs
    obtain ⟨f1, _, f3, _, f5, _⟩ := frame s hs
    refine ⟨sameRegistry_trans hs (configureStep_sameRegistry env s _), ?_, ?_⟩
    · rw [configureStep_view env s cA.name a (by rw [f1]; exact f3) f5, if_pos rfl, f1, hA]
    · rw [configureStep_view env s cA.name a (by rw [f1]; exact f3) f5, if_neg hab]
  have cfgB : ∀ s, SameRegistry (m.afterCreate env configFilename) s →
      SameRegistry (m.afterCreate env configFilename) (s.configureStep env cB.name) ∧
      (s.configureStep env cB.name).configurationOf a = s.configurationOf a ∧
      (s.configureStep env cB.name).configurationOf b
        = some (if s.configurationOf a = some .CONFIGURED_OK then .CONFIGURED_OK
            else .CONFIGURATION_DELAYED) := by
    intro s hs
    obtain ⟨_, f2, f3, f4, _, f6⟩ := frame s hs
    refine ⟨sameRegistry_trans hs (configureStep_sameRegistry env s _), ?_, ?_⟩
    · rw [configureStep_view env s cB.name b (by rw [f2]; exact f4) f6, if_neg hba]
    · rw [configureStep_view env s cB.name b (by rw [f2]; exact f4) f6, if_pos rfl, f2, hB,
        withParam_stateOfNamed, stateOfNamed_eq s _ a f3]
  have rtOk : ∀ s k (c : XmlComponentConfig) (x : Addr),
      s.xmlTree_.getComponent c.name = c → s.getComponent c.name = some x →
      s.configurationOf x = some .CONFIGURED_OK →
      retryStep env (s, k) c.name = (s, k - 1) := by
    intro s k c x h1 h2 h3
    exact retryStep_found_ok env s k c.name x (by rw [h1]; exact h2) h3
  have rtB : ∀ s k, SameRegistry (m.afterCreate env configFilename) s →
      s.configurationOf a = some .CONFIGURED_OK →
      (s.configurationOf b = some .CONFIGURED_OK ∨
        s.configurationOf b = some .CONFIGURATION_DELAYED) →
      SameRegistry (m.afterCreate env configFilename) (retryStep env (s, k) cB.name).1 ∧
      (retryStep env (s, k) cB.name).1.configurationOf a = some .CONFIGURED_OK ∧
      (retryStep env (s, k) cB.name).1.configurationOf b = some .CONFIGURED_OK := by
    intro s k hs hoa hob
    obtain ⟨_, f2, f3, f4, _, _⟩ := frame s hs
    rcases hob with hob | hob
    · rw [rtOk s k cB b f2 f4 hob]
      exact ⟨hs, hoa, hob⟩
    · have hr : env.configureComponent b (s.xmlTree_.getComponent cB.name)
          (s.withParam (s.xmlTree_.getComponent cB.name).name b
            (s.xmlTree_.getComponent cB.name)) = .CONFIGURED_OK := by
        rw [f2, hB, withParam_stateOfNamed, stateOfNamed_eq s _ a f3, hoa]
        rfl
      rw [retryStep_delayed_ok env s k cB.name b (by rw [f2]; exact f4) hob hr]
      refine ⟨sameRegistry_trans hs (configure_same env s _ _ _), ?_, ?_⟩
      · show (s.configure env _ b _).configurationOf a = _
        rw [configure_configurationOf, if_neg hba]; exact hoa
      · show (s.configure env _ b _).configurationOf b = _
        rw [configure_configurationOf, if_pos rfl, hob, hr]; rfl
  -- the final state
  have hfinal : SameRegistry (m.afterCreate env configFilename)
        (retryPhase env ((m.afterCreate env configFilename).configurePhase env
          (env.loadFile configFilename).getAllComponents,
          ((m.afterCreate env configFilename).componentMap_.count : Int))
          (env.loadFile configFilename).getAllComponents).1 ∧
      (retryPhase env ((m.afterCreate env configFilename).configurePhase env
          (env.loadFile configFilename).getAllComponents,
          ((m.afterCreate env configFilename).componentMap_.count : Int))
          (env.loadFile configFilename).getAllComponents).1.configurationOf a
        = some .CONFIGURED_OK ∧
      (retryPhase env ((m.afterCreate env configFilename).configurePhase env
          (env.loadFile configFilename).getAllComponents,
          ((m.afterCreate env configFilename).componentMap_.count : Int))
          (env.loadFile configFilename).getAllComponents).1.configurationOf b
        = some .CONFIGURED_OK := by
    rcases hcomp with h | h
    · have hnames : (env.loadFile configFilename).getAllComponents = [cA.name, cB.name] := by
        simp [XmlConfigFile.getAllComponents, h]
      rw [hnames]
      obtain ⟨s1, a1, _⟩ := cfgA _ (sameRegistry_refl (m.afterCreate env configFilename))
      obtain ⟨s2, a2, b2⟩ := cfgB _ s1
      rw [a1] at a2 b2
      simp only [if_true] at b2
      obtain ⟨fa, fb, fa3, fb4, _⟩ := frame _ s2
      have e1 := rtOk _ ((m.afterCreate env configFilename).componentMap_.count : Int)
        cA a fa fa3 a2
      have e2 := rtOk _ (((m.afterCreate env configFilename).componentMap_.count : Int) - 1)
        cB b fb fb4 b2
      have hrun : retryPhase env ((m.afterCreate env configFilename).configurePhase env
          [cA.name, cB.name], ((m.afterCreate env configFilename).componentMap_.count : Int))
          [cA.name, cB.name]
          = (((m.afterCreate env configFilename).configureStep env cA.name).configureStep env
              cB.name, ((m.afterCreate env configFilename).componentMap_.count : Int) - 1 - 1) := by
        show retryStep env (retryStep env _ cA.name) cB.name = _
        show retryStep env (retryStep env
          (((m.afterCreate env configFilename).configureStep env cA.name).configureStep env
              cB.name, _) cA.name) cB.name = _
        rw [e1, e2]
      rw [hrun]
      exact ⟨s2, a2, b2⟩
    · have hnames : (env.loadFile configFilename).getAllComponents = [cB.name, cA.name] := by
        simp [XmlConfigFile.getAllComponents, h]
      rw [hnames]
      obtain ⟨s1, _, b1⟩ := cfgB _ (sameRegistry_refl (m.afterCreate env configFilename))
      obtain ⟨s2, a2, b2⟩ := cfgA _ s1
      rw [b1] at b2
      have hb2 : (((m.afterCreate env configFilename).configureStep env cB.name).configureStep
          env cA.name).configurationOf b = some .CONFIGURED_OK ∨
          (((m.afterCreate env configFilename).configureStep env cB.name).configureStep
          env cA.name).configurationOf b = some .CONFIGURATION_DELAYED := by
        rw [b2]
        split
        · exact Or.inl rfl
        · exact Or.inr rfl
      obtain ⟨s3, a3, b3⟩ := rtB _
        ((m.afterCreate env configFilename).componentMap_.count : Int) s2 a2 hb2
      obtain ⟨fa, _, fa3, _⟩ := frame _ s3
      have e1 := rtOk _ (retryStep env
          (((m.afterCreate env configFilename).configureStep env cB.name).configureStep env
            cA.name, ((m.afterCreate env configFilename).componentMap_.count : Int)) cB.name).2
        cA a fa fa3 a3
      have hrun : retryPhase env ((m.afterCreate env configFilename).configurePhase env
          [cB.name, cA.name], ((m.afterCreate env configFilename).componentMap_.count : Int))
          [cB.name, cA.name]
          = retryStep env ((retryStep env
          (((m.afterCreate env configFilename).configureStep env cB.name).configureStep env
            cA.name, ((m.afterCreate env configFilename).componentMap_.count : Int)) cB.name).1,
            (retryStep env
          (((m.afterCreate env configFilename).configureStep env cB.name).configureStep env
            cA.name, ((m.afterCreate env configFilename).componentMap_.count : Int)) cB.name).2)
            cA.name := rfl
      rw [hrun, e1]
      exact ⟨s3, a3, b3⟩
  obtain ⟨hsame, hoa, hob⟩ := hfinal
  rw [← afterConfigure_eq, ← loadComponents_mgr_eq] at hsame hoa hob
  obtain ⟨_, _, f3, f4, _, _⟩ := frame _ hsame
  rw [stateOfNamed_eq _ _ a f3, stateOfNamed_eq _ _ b f4]
  exact ⟨hoa, hob⟩

theorem loadComponents_two_dependent_witness :
    (Sample.envNavBeforeMap.loadFile "app.xml").components = [Sample.nodeB, Sample.nodeA] ∧
    (Sample.fresh.loadComponents Sample.envNavBeforeMap "app.xml").mgr.stateOfNamed "map0"
      = some .CONFIGURED_OK ∧
    (Sample.fresh.loadComponents Sample.envNavBeforeMap "app.xml").mgr.stateOfNamed "nav0"
      = some .CONFIGURED_OK :=
  ⟨rfl,
    loadComponents_two_dependent Sample.envNavBeforeMap Sample.fresh "app.xml" Sample.nodeA
      Sample.nodeB (Or.inr rfl) (by decide) (by decide) (by decide) (by decide)
      (fun _ _ => rfl) (fun _ _ => rfl)⟩

/-- In the state the create loop leaves when it starts from a registry whose instances are
all in the initial state, every registered instance is still in the initial state. -/
theorem createPhase_fresh (names : List QString) (m : ComponentManager)
    (h : ∀ e ∈ m.componentMap_, m.configurationOf e.2 = some .NOT_CONFIGURED) :
    ∀ e ∈ (m.createPhase names).componentMap_,
      (m.createPhase names).configurationOf e.2 = some .NOT_CONFIGURED := by
  induction names generalizing m with
  | nil => exact h
  | cons it rest ih =>
    have hfold : m.createPhase (it :: rest) = (m.createStep it).createPhase rest := rfl
    rw [hfold]
    apply ih
    obtain ⟨_, _, _, hcase⟩ := createStep_spec m it
    have hold : ∀ e ∈ m.componentMap_,
        (m.heap ++ [ComponentBase.create (m.xmlTree_.getComponent it).name])[e.2]?.map
          ComponentBase.configuration_ = some .NOT_CONFIGURED := by
      intro e he
      have hc := h e he
      have hlt : e.2 < m.heap.length := (configurationOf_isSome_iff m e.2).1 ⟨_, hc⟩
      rw [List.getElem?_append_left hlt]
      exact hc
    rcases hcase with hsame | ⟨hheap, hmap | ⟨hnot, hmap⟩⟩
    · rw [hsame]; exact h
    · intro e he
      rw [hmap] at he
      unfold configurationOf
      rw [hheap]
      exact hold e he
    · intro e he
      rw [hmap] at he
      unfold configurationOf
      rw [hheap]
      rcases List.mem_cons.1 ((QMap.insert_perm _ _ _ hnot).mem_iff.1 he) with heq | he
      · subst heq
        simp [ComponentBase.create]
      · exact hold e he

theorem loadComponents_count_eq (env : Env) (m : ComponentManager) (configFilename : QString) :
    (m.loadComponents env configFilename).componentsToConfigureCount
      = (retryPhase env (m.afterConfigure env configFilename,
          ((m.afterCreate env configFilename).componentMap_.count : Int))
          (env.loadFile configFilename).getAllComponents).2 := by
  show (retryPhase env ((m.afterCreate env configFilename).configurePhase env
      (m.afterCreate env configFilename).xmlTree_.getAllComponents,
      ((m.afterCreate env configFilename).componentMap_.count : Int))
      (m.afterCreate env configFilename).xmlTree_.getAllComponents).2 = _
  rw [afterCreate_xmlTree_, ← afterConfigure_eq]

/-- C12: three components created by the run and declared in the order X1, X2, X3, where
X3's configure routine always returns `CONFIGURED_OK`, X2's returns `CONFIGURED_OK` iff X3
is `CONFIGURED_OK` at call time and X1's returns `CONFIGURED_OK` iff X2 is `CONFIGURED_OK`
at call time (both `CONFIGURATION_DELAYED` otherwise).  After `loadComponents` X1 is
`CONFIGURED_FAILED`, it is not `CONFIGURED_OK`, and the count of unconfigured components is
1: X2 and X3 are `CONFIGURED_OK`, so the one counted is X1. -/
theorem loadComponents_chain_fails (env : Env) (m : ComponentManager)
    (configFilename : QString) (c1 c2 c3 : XmlComponentConfig)
    (hcomp : (env.loadFile configFilename).components = [c1, c2, c3])
    (h12 : c1.name ≠ c2.name) (h13 : c1.name ≠ c3.name) (h23 : c2.name ≠ c3.name)
    (hfactory : ∀ c ∈ (env.loadFile configFilename).components,
      (m.afterPlugins env configFilename).factoryMap_.contains c.type = true)
    (hempty : m.componentMap_ = [])
    (h3 : ∀ a s, env.configureComponent a c3 s = .CONFIGURED_OK)
    (h2 : ∀ a s, env.configureComponent a c2 s
      = if s.stateOfNamed c3.name = some .CONFIGURED_OK then .CONFIGURED_OK
        else .CONFIGURATION_DELAYED)
    (h1 : ∀ a s, env.configureComponent a c1 s
      = if s.stateOfNamed c2.name = some .CONFIGURED_OK then .CONFIGURED_OK
        else .CONFIGURATION_DELAYED) :
    (m.loadComponents env configFilename).mgr.stateOfNamed c1.name = some .CONFIGURED_FAILED ∧
    (m.loadComponents env configFilename).mgr.stateOfNamed c1.name ≠ some .CONFIGURED_OK ∧
    (m.loadComponents env configFilename).componentsToConfigureCount = 1 ∧
    (m.loadComponents env configFilename).mgr.stateOfNamed c2.name = some .CONFIGURED_OK ∧
    (m.loadComponents env configFilename).mgr.stateOfNamed c3.name = some .CONFIGURED_OK := by
  have h21 : ¬ c2.name = c1.name := fun e => h12 e.symm
  have h31 : ¬ c3.name = c1.name := fun e => h13 e.symm
  have h32 : ¬ c3.name = c2.name := fun e => h23 e.symm
  have hnames : (env.loadFile configFilename).getAllComponents = [c1.name, c2.name, c3.name] := by
    simp [XmlConfigFile.getAllComponents, hcomp]
  have hg1 : (env.loadFile configFilename).getComponent c1.name = c1 := by
    simp [XmlConfigFile.getComponent, hcomp]
  have hg2 : (env.loadFile configFilename).getComponent c2.name = c2 := by
    simp [XmlConfigFile.getComponent, hcomp, h12]
  have hg3 : (env.loadFile configFilename).getComponent c3.name = c3 := by
    simp [XmlConfigFile.getComponent, hcomp, h13, h23]
  have hnodup : (env.loadFile configFilename).getAllComponents.Nodup := by
    rw [hnames]; simp [h12, h13, h23]
  -- the state after the create loop
  obtain ⟨p1, _, p3, _⟩ := afterPlugins_spec env m configFilename
  have hx2 := afterCreate_xmlTree_ env m configFilename
  have hlive0 : m.pointersLive := by
    intro e he; rw [hempty] at he; simp at he
  have halias0 : m.noAlias := by
    unfold noAlias; rw [hempty]; simp
  obtain ⟨_, ha2⟩ := afterCreate_sound env m configFilename hlive0
  obtain ⟨k1, k2, _⟩ := createPhase_all (env.loadFile configFilename).getAllComponents
    (m.afterPlugins env configFilename) hnodup
    (fun it hit => by rw [p3]; exact hit)
    (fun c hc => by rw [p3] at hc; exact hfactory c hc)
    (fun it _ => by rw [p1, hempty]; rfl)
  rw [← afterCreate_eq] at k1 k2
  have hcount : ((m.afterCreate env configFilename).componentMap_.count : Int) = 3 := by
    rw [k1, p1, hempty, hnames]; rfl
  have hfresh := createPhase_fresh (env.loadFile configFilename).getAllComponents
    (m.afterPlugins env configFilename) (fun e he => by rw [p1, hempty] at he; simp at he)
  rw [← afterCreate_eq] at hfresh
  obtain ⟨x1, hf1⟩ := (QMap.contains_eq_true_iff _ _).1 (k2 c1.name (by rw [hnames]; simp))
  obtain ⟨x2, hf2⟩ := (QMap.contains_eq_true_iff _ _).1 (k2 c2.name (by rw [hnames]; simp))
  obtain ⟨x3, hf3⟩ := (QMap.contains_eq_true_iff _ _).1 (k2 c3.name (by rw [hnames]; simp))
  have v1 := hfresh _ (QMap.find_some_mem _ _ _ hf1)
  have v2 := hfresh _ (QMap.find_some_mem _ _ _ hf2)
  have v3 := hfresh _ (QMap.find_some_mem _ _ _ hf3)
  simp only at v1 v2 v3
  have l1 := (configurationOf_isSome_iff _ x1).1 ⟨_, v1⟩
  have l2 := (configurationOf_isSome_iff _ x2).1 ⟨_, v2⟩
  have l3 := (configurationOf_isSome_iff _ x3).1 ⟨_, v3⟩
  have d12 : ¬ x1 = x2 := fun e => h12 (noAlias_inj _ (ha2 halias0) _ _ x1 hf1 (e ▸ hf2))
  have d13 : ¬ x1 = x3 := fun e => h13 (noAlias_inj _ (ha2 halias0) _ _ x1 hf1 (e ▸ hf3))
  have d23 : ¬ x2 = x3 := fun e => h23 (noAlias_inj _ (ha2 halias0) _ _ x2 hf2 (e ▸ hf3))
  have d21 : ¬ x2 = x1 := fun e => d12 e.symm
  have d31 : ¬ x3 = x1 := fun e => d13 e.symm
  have d32 : ¬ x3 = x2 := fun e => d23 e.symm
  -- what every later state keeps
  have frame : ∀ s, SameRegistry (m.afterCreate env configFilename) s →
      (s.xmlTree_.getComponent c1.name = c1 ∧ s.xmlTree_.getComponent c2.name = c2 ∧
        s.xmlTree_.getComponent c3.name = c3) ∧
      (s.getComponent c1.name = some x1 ∧ s.getComponent c2.name = some x2 ∧
        s.getComponent c3.name = some x3) ∧
      (x1 < s.heap.length ∧ x2 < s.heap.length ∧ x3 < s.heap.length) := by
    intro s hs
    refine ⟨⟨by rw [hs.2.2.1, hx2]; exact hg1, by rw [hs.2.2.1, hx2]; exact hg2,
      by rw [hs.2.2.1, hx2]; exact hg3⟩,
      ⟨by rw [hs.getComponent_eq]; exact hf1, by rw [hs.getComponent_eq]; exact hf2,
        by rw [hs.getComponent_eq]; exact hf3⟩,
      ⟨by rw [hs.2.2.2]; exact l1, by rw [hs.2.2.2]; exact l2, by rw [hs.2.2.2]; exact l3⟩⟩
  -- the configure loop
  obtain ⟨s1, hs1⟩ : ∃ s, s = (m.afterCreate env configFilename).configureStep env c1.name :=
    ⟨_, rfl⟩
  obtain ⟨s2, hs2⟩ : ∃ s, s = s1.configureStep env c2.name := ⟨_, rfl⟩
  obtain ⟨s3, hs3⟩ : ∃ s, s = s2.configureStep env c3.name := ⟨_, rfl⟩
  have r0 := sameRegistry_refl (m.afterCreate env configFilename)
  obtain ⟨⟨t01, _, _⟩, ⟨g01, g02, _⟩, ⟨b01, _, _⟩⟩ := frame _ r0
  have r1 : SameRegistry (m.afterCreate env configFilename) s1 := by
    rw [hs1]; exact configureStep_sameRegistry env _ _
  have w1 : s1.configurationOf x1 = some .CONFIGURATION_DELAYED ∧
      s1.configurationOf x2 = some .NOT_CONFIGURED ∧
      s1.configurationOf x3 = some .NOT_CONFIGURED := by
    rw [hs1]
    refine ⟨?_, ?_, ?_⟩
    · rw [configureStep_view env _ c1.name x1 (by rw [t01]; exact g01) b01, if_pos rfl, t01, h1,
        withParam_stateOfNamed, stateOfNamed_eq _ _ x2 g02, v2]
      rfl
    · rw [configureStep_view env _ c1.name x1 (by rw [t01]; exact g01) b01, if_neg d12]
      exact v2
    · rw [configureStep_view env _ c1.name x1 (by rw [t01]; exact g01) b01, if_neg d13]
      exact v3
  obtain ⟨⟨_, t12, _⟩, ⟨_, g12, g13⟩, ⟨_, b12, _⟩⟩ := frame _ r1
  have r2 : SameRegistry (m.afterCreate env configFilename) s2 := by
    rw [hs2]; exact sameRegistry_trans r1 (configureStep_sameRegistry env _ _)
  have w2 : s2.configurationOf x1 = some .CONFIGURATION_DELAYED ∧
      s2.configurationOf x2 = some .CONFIGURATION_DELAYED ∧
      s2.configurationOf x3 = some .NOT_CONFIGURED := by
    rw [hs2]
    refine ⟨?_, ?_, ?_⟩
    · rw [configureStep_view env _ c2.name x2 (by rw [t12]; exact g12) b12, if_neg d21]
      exact w1.1
    · rw [configureStep_view env _ c2.name x2 (by rw [t12]; exact g12) b12, if_pos rfl, t12, h2,
        withParam_stateOfNamed, stateOfNamed_eq _ _ x3 g13, w1.2.2]
      rfl
    · rw [configureStep_view env _ c2.name x2 (by rw [t12]; exact g12) b12, if_neg d23]
      exact w1.2.2
  obtain ⟨⟨_, _, t23⟩, ⟨_, _, g23⟩, ⟨_, _, b23⟩⟩ := frame _ r2
  have r3 : SameRegistry (m.afterCreate env configFilename) s3 := by
    rw [hs3]; exact sameRegistry_trans r2 (configureStep_sameRegistry env _ _)
  have w3 : s3.configurationOf x1 = some .CONFIGURATION_DELAYED ∧
      s3.configurationOf x2 = some .CONFIGURATION_DELAYED ∧
      s3.configurationOf x3 = some .CONFIGURED_OK := by
    rw [hs3]
    refine ⟨?_, ?_, ?_⟩
    · rw [configureStep_view env _ c3.name x3 (by rw [t23]; exact g23) b23, if_neg d31]
      exact w2.1
    · rw [configureStep_view env _ c3.name x3 (by rw [t23]; exact g23) b23, if_neg d32]
      exact w2.2.1
    · rw [configureStep_view env _ c3.name x3 (by rw [t23]; exact g23) b23, if_pos rfl, t23, h3]
  -- the retry loop
  obtain ⟨⟨t31, t32, t33⟩, ⟨g31, g32, g33⟩, _⟩ := frame _ r3
  have q1 : env.configureComponent x1 (s3.xmlTree_.getComponent c1.name)
      (s3.withParam (s3.xmlTree_.getComponent c1.name).name x1
        (s3.xmlTree_.getComponent c1.name)) = .CONFIGURATION_DELAYED := by
    rw [t31, h1, withParam_stateOfNamed, stateOfNamed_eq _ _ x2 g32, w3.2.1]
    rfl
  obtain ⟨s4, hs4⟩ : ∃ s, s = (s3.configure env (s3.xmlTree_.getComponent c1.name).name x1
      (s3.xmlTree_.getComponent c1.name)).updateObject x1
        (fun c => { c with configuration_ := .CONFIGURED_FAILED }) := ⟨_, rfl⟩
  have e4 : retryStep env (s3, (3 : Int)) c1.name = (s4, 3) := by
    rw [hs4]
    exact retryStep_delayed_failed env s3 3 c1.name x1 (by rw [t31]; exact g31) w3.1
      (by rw [q1]; simp)
  have c4 : ∀ y, (s3.configure env (s3.xmlTree_.getComponent c1.name).name x1
      (s3.xmlTree_.getComponent c1.name)).configurationOf y
      = if x1 = y then some .CONFIGURATION_DELAYED else s3.configurationOf y := by
    intro y
    rw [configure_configurationOf, q1]
    by_cases hy : x1 = y
    · subst hy; simp [w3.1]
    · simp [hy]
  have r4 : SameRegistry (m.afterCreate env configFilename) s4 := by
    rw [hs4]
    exact sameRegistry_trans (sameRegistry_trans r3 (configure_same env s3 _ _ _))
      (updateObject_same _ _ _)
  have w4 : s4.configurationOf x1 = some .CONFIGURED_FAILED ∧
      s4.configurationOf x2 = some .CONFIGURATION_DELAYED ∧
      s4.configurationOf x3 = some .CONFIGURED_OK := by
    have hc1 := c4 x1
    rw [if_pos rfl] at hc1
    rw [hs4]
    refine ⟨?_, ?_, ?_⟩
    · rw [updateObject_failed_view _ x1 x1 _ hc1, if_pos rfl]
    · rw [updateObject_failed_view _ x1 x2 _ hc1, if_neg d12, c4 x2, if_neg d12]
      exact w3.2.1
    · rw [updateObject_failed_view _ x1 x3 _ hc1, if_neg d13, c4 x3, if_neg d13]
      exact w3.2.2
  obtain ⟨⟨_, t42, _⟩, ⟨_, g42, g43⟩, _⟩ := frame _ r4
  have q2 : env.configureComponent x2 (s4.xmlTree_.getComponent c2.name)
      (s4.withParam (s4.xmlTree_.getComponent c2.name).name x2
        (s4.xmlTree_.getComponent c2.name)) = .CONFIGURED_OK := by
    rw [t42, h2, withParam_stateOfNamed, stateOfNamed_eq _ _ x3 g43, w4.2.2]
    rfl
  obtain ⟨s5, hs5⟩ : ∃ s, s = s4.configure env (s4.xmlTree_.getComponent c2.name).name x2
      (s4.xmlTree_.getComponent c2.name) := ⟨_, rfl⟩
  have e5 : retryStep env (s4, (3 : Int)) c2.name = (s5, 3 - 1) := by
    rw [hs5]
    exact retryStep_delayed_ok env s4 3 c2.name x2 (by rw [t42]; exact g42) w4.2.1 q2
  have r5 : SameRegistry (m.afterCreate env configFilename) s5 := by
    rw [hs5]; exact sameRegistry_trans r4 (configure_same env s4 _ _ _)
  have w5 : s5.configurationOf x1 = some .CONFIGURED_FAILED ∧
      s5.configurationOf x2 = some .CONFIGURED_OK ∧
      s5.configurationOf x3 = some .CONFIGURED_OK := by
    rw [hs5]
    refine ⟨?_, ?_, ?_⟩
    · rw [configure_configurationOf, if_neg d21]; exact w4.1
    · rw [configure_configurationOf, if_pos rfl, q2, w4.2.1]; rfl
    · rw [configure_configurationOf, if_neg d23]; exact w4.2.2
  obtain ⟨⟨_, _, t53⟩, ⟨g51, g52, g53⟩, _⟩ := frame _ r5
  have e6 : retryStep env (s5, (3 : Int) - 1) c3.name = (s5, 3 - 1 - 1) :=
    retryStep_found_ok env s5 (3 - 1) c3.name x3 (by rw [t53]; exact g53) w5.2.2
  have hrun : retryPhase env (m.afterConfigure env configFilename,
      ((m.afterCreate env configFilename).componentMap_.count : Int))
      (env.loadFile configFilename).getAllComponents = (s5, 1) := by
    rw [afterConfigure_eq, hcount, hnames]
    simp only [retryPhase, configurePhase, List.foldl_cons, List.foldl_nil]
    rw [← hs1, ← hs2, ← hs3, e4, e5, e6]
    norm_num
  have hmgr : (m.loadComponents env configFilename).mgr = s5 := by
    rw [loadComponents_mgr_eq, hrun]
  have hcnt : (m.loadComponents env configFilename).componentsToConfigureCount = 1 := by
    rw [loadComponents_count_eq, hrun]
  rw [hmgr, hcnt, stateOfNamed_eq _ _ x1 g51, stateOfNamed_eq _ _ x2 g52,
    stateOfNamed_eq _ _ x3 g53, w5.1, w5.2.1, w5.2.2]
  exact ⟨rfl, by simp, rfl, rfl, rfl⟩

theorem loadComponents_chain_fails_witness :
    (Sample.envChain.loadFile "app.xml").components
      = [Sample.nodeC, Sample.nodeB, Sample.nodeA] ∧
    Sample.fresh.componentMap_ = [] ∧
    (Sample.fresh.loadComponents Sample.envChain "app.xml").mgr.stateOfNamed "ctl0"
      = some .CONFIGURED_FAILED ∧
    (Sample.fresh.loadComponents Sample.envChain "app.xml").mgr.stateOfNamed "ctl0"
      ≠ some .CONFIGURED_OK ∧
    (Sample.fresh.loadComponents Sample.envChain "app.xml").componentsToConfigureCount = 1 ∧
    (Sample.fresh.loadComponents Sample.envChain "app.xml").mgr.stateOfNamed "nav0"
      = some .CONFIGURED_OK ∧
    (Sample.fresh.loadComponents Sample.envChain "app.xml").mgr.stateOfNamed "map0"
      = some .CONFIGURED_OK :=
  ⟨rfl, rfl,
    loadComponents_chain_fails Sample.envChain Sample.fresh "app.xml" Sample.nodeC Sample.nodeB
      Sample.nodeA rfl (by decide) (by decide) (by decide) (by decide) rfl
      (fun _ _ => rfl) (fun _ _ => rfl) (fun _ _ => rfl)⟩

end Dependent

/-! ## Shared-memory channel -/

section SharedMemory

theorem Win32ShMem.create_attached (os : SharedSegments) (name : QString) (size : Nat)
    (h : os.find name = none) :
    (Win32ShMem.create os name size).1.attached (Win32ShMem.create os name size).2 := by
  unfold Win32ShMem.create Win32ShMem.attached
  rw [h]
  exact ⟨List.replicate size 0, QMap.find_insert_self _ _ _, by simp⟩

/-- C18: for a byte sequence S of length L not exceeding the segment size, `write(S, L, 0)`
on a handle followed by `read(buffer, L)` on that handle, or on a second handle attached to
the same name with the same size, leaves exactly S in the buffer. -/
theorem Win32ShMem.write_then_read (os : SharedSegments) (h1 h2 : Win32ShMem) (S : List Byte)
    (L : Nat) (hatt : h1.attached os) (hname : h2.name = h1.name) (hsize : h2.size = h1.size)
    (hlen : S.length = L) (hfit : L ≤ h1.size) :
    h1.read (h1.write os S L 0) L = S ∧ h2.read (h1.write os S L 0) L = S ∧
    h2.attached (h1.write os S L 0) := by
  obtain ⟨bytes, hfind, hbytes⟩ := hatt
  have hLb : L ≤ bytes.length := by rw [hbytes]; exact hfit
  have hnew : (h1.write os S L 0).find h1.name
      = some ((S ++ bytes.drop L).take bytes.length) := by
    unfold Win32ShMem.write
    rw [hfind]
    simp only [List.take_zero, List.nil_append, Nat.zero_add]
    rw [QMap.find_insert_self, ← hlen, List.take_length]
  have hlen2 : ((S ++ bytes.drop L).take bytes.length).length = bytes.length := by
    simp only [List.length_take, List.length_append, List.length_drop, hlen]
    omega
  have htake : ((S ++ bytes.drop L).take bytes.length).take L = S := by
    rw [List.take_take, Nat.min_eq_left hLb, ← hlen, List.take_left]
  refine ⟨?_, ?_, ?_⟩
  · unfold Win32ShMem.read
    rw [hnew]; exact htake
  · unfold Win32ShMem.read
    rw [hname, hnew]; exact htake
  · exact ⟨_, by rw [hname]; exact hnew, by rw [hlen2, hbytes, hsize]⟩

theorem Win32ShMem.write_then_read_witness :
    (Win32ShMem.create [] "lidar" 4).1.attached (Win32ShMem.create [] "lidar" 4).2 ∧
    (Win32ShMem.create [] "lidar" 4).1.read
      ((Win32ShMem.create [] "lidar" 4).1.write (Win32ShMem.create [] "lidar" 4).2
        [7, 8, 9] 3 0) 3 = [7, 8, 9] ∧
    (⟨"lidar", 4⟩ : Win32ShMem).read
      ((Win32ShMem.create [] "lidar" 4).1.write (Win32ShMem.create [] "lidar" 4).2
        [7, 8, 9] 3 0) 3 = [7, 8, 9] :=
  ⟨Win32ShMem.create_attached [] "lidar" 4 rfl,
    (Win32ShMem.write_then_read (Win32ShMem.create [] "lidar" 4).2
      (Win32ShMem.create [] "lidar" 4).1 ⟨"lidar", 4⟩ [7, 8, 9] 3
      (Win32ShMem.create_attached [] "lidar" 4 rfl) rfl rfl rfl (by decide)).1,
    (Win32ShMem.write_then_read (Win32ShMem.create [] "lidar" 4).2
      (Win32ShMem.create [] "lidar" 4).1 ⟨"lidar", 4⟩ [7, 8, 9] 3
      (Win32ShMem.create_attached [] "lidar" 4 rfl) rfl rfl rfl (by decide)).2.1⟩

end SharedMemory

/-! ## ComputeIURAWeights -/

namespace gpstk

section Weights

open ComputeIURAWeights

variable {R : Type}

theorem StdMap.find_set_self {K V : Type} [DecidableEq K] (m : StdMap K V) (key : K)
    (value : V) : StdMap.find (StdMap.set m key value) key = some value := by
  induction m with
  | nil => simp [StdMap.set, StdMap.find]
  | cons e rest ih =>
    obtain ⟨k, v⟩ := e
    by_cases hk : k = key
    · simp [StdMap.set, StdMap.find, hk]
    · simp [StdMap.set, StdMap.find, hk, ih]

theorem StdMap.find_set_ne {K V : Type} [DecidableEq K] (m : StdMap K V) (key other : K)
    (value : V) (h : other ≠ key) :
    StdMap.find (StdMap.set m key value) other = StdMap.find m other := by
  have hko : ¬ key = other := fun e => h e.symm
  induction m with
  | nil => simp [StdMap.set, StdMap.find, hko]
  | cons e rest ih =>
    obtain ⟨k, v⟩ := e
    by_cases hk : k = key
    · have hk2 : ¬ k = other := fun e => hko (hk ▸ e)
      simp [StdMap.set, StdMap.find, hk, hko, hk2]
    · have hs : StdMap.set ((k, v) :: rest) key value = (k, v) :: StdMap.set rest key value := by
        simp [StdMap.set, hk]
      rw [hs]
      by_cases hk2 : k = other
      · simp [StdMap.find, hk2]
      · simp [StdMap.find, hk2, ih]

theorem SatIDSet.mem_insert (s : SatIDSet) (sat x : SatID) :
    x ∈ s.insert sat ↔ x = sat ∨ x ∈ s := by
  unfold SatIDSet.insert
  split
  · constructor
    · exact Or.inr
    · rintro (h | h)
      · subst h; assumption
      · exact h
  · simp

/-- With a store set, the `try` block does not depend on the previous value of `weight`. -/
theorem tryWeight_of_store (self : ComputeIURAWeights) (d : Doubles R) (sat : SatID)
    (time : DayTime) (w : R)
    (hset : self.pBCEphemeris.isSome = true ∨ self.pTabEphemeris.isSome = true) :
    self.tryWeight d sat time w = self.weightOf d sat time := by
  unfold weightOf tryWeight
  cases hb : self.pBCEphemeris with
  | some bc => rfl
  | none =>
    cases ht : self.pTabEphemeris with
    | some tab => rfl
    | none => simp [hb, ht] at hset

/-- The loop of `Process` with a store set: every entry whose weight is computed gets it
under `TypeID::weight`, the other entries are left as they are and their satellites are
added to the rejected set. -/
theorem processLoop_of_store (self : ComputeIURAWeights) (d : Doubles R) (time : DayTime)
    (hset : self.pBCEphemeris.isSome = true ∨ self.pTabEphemeris.isSome = true)
    (l : satTypeValueMap R) (w : R) (rej : SatIDSet) :
    (self.processLoop d time l w rej).1
      = l.map (fun e => match self.weightOf d e.1 time with
          | none => e
          | some x => (e.1, StdMap.set e.2 TypeID.weight x)) ∧
    ∀ x, x ∈ (self.processLoop d time l w rej).2 ↔
      x ∈ rej ∨ (x ∈ l.map Prod.fst ∧ self.weightOf d x time = none) := by
  induction l generalizing w rej with
  | nil => simp [processLoop]
  | cons e rest ih =>
    obtain ⟨sat, tv⟩ := e
    simp only [processLoop, tryWeight_of_store self d sat time w hset]
    cases hw : self.weightOf d sat time with
    | none =>
      obtain ⟨i1, i2⟩ := ih w (SatIDSet.insert rej sat)
      refine ⟨by simp [i1, hw], ?_⟩
      intro x
      simp only [i2, SatIDSet.mem_insert, List.map_cons, List.mem_cons]
      constructor
      · rintro ((h | h) | ⟨h1, h2⟩)
        · exact Or.inr ⟨Or.inl h, h ▸ hw⟩
        · exact Or.inl h
        · exact Or.inr ⟨Or.inr h1, h2⟩
      · rintro (h | ⟨h1 | h1, h2⟩)
        · exact Or.inl (Or.inr h)
        · exact Or.inl (Or.inl h1)
        · exact Or.inr ⟨h1, h2⟩
    | some x0 =>
      obtain ⟨i1, i2⟩ := ih x0 rej
      refine ⟨by simp [i1, hw], ?_⟩
      intro x
      simp only [i2, List.map_cons, List.mem_cons]
      constructor
      · rintro (h | ⟨h1, h2⟩)
        · exact Or.inl h
        · exact Or.inr ⟨Or.inr h1, h2⟩
      · rintro (h | ⟨h1 | h1, h2⟩)
        · exact Or.inl h
        · rw [h1, hw] at h2; exact Option.noConfusion h2
        · exact Or.inr ⟨h1, h2⟩

theorem filter_map_weighted (self : ComputeIURAWeights) (d : Doubles R) (time : DayTime)
    (p : SatID × typeValueMap R → Bool) (l : satTypeValueMap R)
    (hp : ∀ e ∈ l, ∀ tv, p (e.1, tv) = (self.weightOf d e.1 time).isSome) :
    (l.map (fun e => match self.weightOf d e.1 time with
        | none => e
        | some x => (e.1, StdMap.set e.2 TypeID.weight x))).filter p
      = l.filterMap (fun e => (self.weightOf d e.1 time).map
          (fun x => (e.1, StdMap.set e.2 TypeID.weight x))) := by
  induction l with
  | nil => rfl
  | cons e rest ih =>
    have hrest := ih (fun e he => hp e (List.mem_cons_of_mem _ he))
    have he := hp e (List.mem_cons_self _ _)
    cases hw : self.weightOf d e.1 time with
    | none =>
      have : p e = false := by
        have := he e.2
        rw [hw] at this
        simpa using this
      simp [List.filter_cons, List.filterMap_cons, hw, this, hrest]
    | some x =>
      have : p (e.1, StdMap.set e.2 TypeID.weight x) = true := by
        have := he (StdMap.set e.2 TypeID.weight x)
        rw [hw] at this
        simpa using this
      simp [List.filter_cons, List.filterMap_cons, hw, this, hrest]

/-- C19: with an ephemeris store set, `Process` returns the incoming map in which exactly
the satellites whose weight could not be computed (`getWeight` threw) have been removed,
the others staying in their order; every remaining satellite carries its computed weight
under `TypeID::weight`, and its other type/value entries are unchanged. -/
theorem Process_with_store (self : ComputeIURAWeights) (d : Doubles R) (time : DayTime)
    (gData : satTypeValueMap R)
    (hset : self.pBCEphemeris.isSome = true ∨ self.pTabEphemeris.isSome = true) :
    (∀ sat, (∀ bc, self.pBCEphemeris = some bc →
        self.weightOf d sat time = getWeightBroadcast d sat time bc) ∧
      (∀ tab, self.pBCEphemeris = none → self.pTabEphemeris = some tab →
        self.weightOf d sat time = getWeightPrecise d sat time tab)) ∧
    self.Process d time gData
      = gData.filterMap (fun e => (self.weightOf d e.1 time).map
          (fun x => (e.1, StdMap.set e.2 TypeID.weight x))) ∧
    (self.Process d time gData).map Prod.fst
      = (gData.map Prod.fst).filter (fun sat => (self.weightOf d sat time).isSome) ∧
    (∀ sat tv, (sat, tv) ∈ self.Process d time gData →
      ∃ tv0 w, (sat, tv0) ∈ gData ∧ self.weightOf d sat time = some w ∧
        StdMap.find tv TypeID.weight = some w ∧
        ∀ t, t ≠ TypeID.weight → StdMap.find tv t = StdMap.find tv0 t) := by
  have hproc : self.Process d time gData
      = gData.filterMap (fun e => (self.weightOf d e.1 time).map
          (fun x => (e.1, StdMap.set e.2 TypeID.weight x))) := by
    obtain ⟨h1, h2⟩ := processLoop_of_store self d time hset gData d.tiny []
    unfold Process satTypeValueMap.removeSatID
    simp only []
    rw [h1]
    apply filter_map_weighted
    intro e he tv
    have hmem : e.1 ∈ List.map Prod.fst gData := List.mem_map.2 ⟨e, he, rfl⟩
    cases hw : self.weightOf d e.1 time with
    | none =>
      have : e.1 ∈ (self.processLoop d time gData d.tiny []).2 := (h2 e.1).2 (Or.inr ⟨hmem, hw⟩)
      simp [this]
    | some x =>
      have : e.1 ∉ (self.processLoop d time gData d.tiny []).2 := by
        intro hin
        rcases (h2 e.1).1 hin with h | ⟨_, h⟩
        · simp at h
        · rw [hw] at h; exact Option.noConfusion h
      simp [this]
  refine ⟨?_, hproc, ?_, ?_⟩
  · intro sat
    refine ⟨?_, ?_⟩
    · intro bc hbc
      simp [weightOf, tryWeight, hbc]
    · intro tab hb ht
      simp [weightOf, tryWeight, hb, ht]
  · rw [hproc]
    clear hproc
    induction gData with
    | nil => rfl
    | cons e rest ih =>
      cases hw : self.weightOf d e.1 time with
      | none => simp [List.filterMap_cons, List.filter_cons, hw, ih]
      | some x => simp [List.filterMap_cons, List.filter_cons, hw, ih]
  · intro sat tv hmem
    rw [hproc] at hmem
    obtain ⟨e, he, hfe⟩ := List.mem_filterMap.1 hmem
    cases hw : self.weightOf d e.1 time with
    | none => simp [hw] at hfe
    | some x =>
      simp only [hw, Option.map_some', Option.some.injEq, Prod.mk.injEq] at hfe
      obtain ⟨hs, htv⟩ := hfe
      subst hs
      refine ⟨e.2, x, he, hw, ?_, ?_⟩
      · rw [← htv]; exact StdMap.find_set_self _ _ _
      · intro t ht
        rw [← htv]; exact StdMap.find_set_ne _ _ _ _ ht

theorem Process_with_store_witness :
    (⟨some Sample.bcStore, none⟩ : ComputeIURAWeights).Process Sample.symbolic 0
        Sample.epochData
      = [(1, [(TypeID.other 5, .measured 20), (TypeID.weight, .invSquare (.accuracy 2))]),
          (3, [(TypeID.weight, .invSquare (.accuracy 4)), (TypeID.other 5, .measured 22)])] ∧
    ((⟨some Sample.bcStore, none⟩ : ComputeIURAWeights).Process Sample.symbolic 0
        Sample.epochData).map Prod.fst
      = (Sample.epochData.map Prod.fst).filter (fun sat =>
          ((⟨some Sample.bcStore, none⟩ : ComputeIURAWeights).weightOf Sample.symbolic sat
            0).isSome) :=
  ⟨by decide,
    (Process_with_store ⟨some Sample.bcStore, none⟩ Sample.symbolic 0 Sample.epochData
      (Or.inl rfl)).2.2.1⟩

end Weights

end gpstk

/-! ## Results of start and stop -/

section StartStopResults

open ComponentManager

/-- C22: `start(name)` returns true if and only if a component is registered under `name`,
and likewise `stop(name)`.  For a registered component the routine `startComponent`
(`stopComponent`) is called once and the result is true whatever that call returned; when
no component is registered under `name`, no start or stop routine is called and no object
changes. -/
theorem startNamed_stopNamed_result (m : ComponentManager) (name : QString) :
    ((m.startNamed name).1 = true ↔ m.componentMap_.contains name = true) ∧
    ((m.stopNamed name).1 = true ↔ m.componentMap_.contains name = true) ∧
    (∀ a c, m.getComponent name = some a → m.heap[a]? = some c →
      (m.startNamed name).1 = true ∧
      startComponentCalls (eventsSince m.trace (m.startNamed name).2.trace)
        = [(a, c.startComponent.1)] ∧
      (m.stopNamed name).1 = true ∧
      stopComponentCalls (eventsSince m.trace (m.stopNamed name).2.trace)
        = [(a, c.stopComponent.1)]) ∧
    (m.componentMap_.contains name = false →
      startComponentCalls (eventsSince m.trace (m.startNamed name).2.trace) = [] ∧
      stopComponentCalls (eventsSince m.trace (m.startNamed name).2.trace) = [] ∧
      (m.startNamed name).2.heap = m.heap ∧
      startComponentCalls (eventsSince m.trace (m.stopNamed name).2.trace) = [] ∧
      stopComponentCalls (eventsSince m.trace (m.stopNamed name).2.trace) = [] ∧
      (m.stopNamed name).2.heap = m.heap) := by
  have hfind : m.getComponent name = m.componentMap_.find name := rfl
  refine ⟨?_, ?_, ?_, ?_⟩
  · simp only [startNamed, log_getComponent, QMap.contains, hfind]
    cases m.componentMap_.find name <;> simp
  · simp only [stopNamed, log_getComponent, QMap.contains, hfind]
    cases m.componentMap_.find name <;> simp
  · intro a c hg hc
    refine ⟨?_, ?_, ?_, ?_⟩
    · simp [startNamed, hg]
    · simp [startNamed, hg, hc, eventsSince, startComponentCalls]
    · simp [stopNamed, hg]
    · simp [stopNamed, hg, hc, eventsSince, stopComponentCalls]
  · intro hno
    have hnone : m.getComponent name = none := (QMap.find_eq_none_iff _ _).2 hno
    simp [startNamed, stopNamed, hnone, eventsSince, startComponentCalls, stopComponentCalls]

theorem startNamed_stopNamed_result_witness :
    (Sample.three.startNamed "gps0").1 = true ∧
    startComponentCalls (eventsSince Sample.three.trace (Sample.three.startNamed "gps0").2.trace)
      = [(0, false)] ∧
    (Sample.three.startNamed "cam0").1 = true ∧
    startComponentCalls (eventsSince Sample.three.trace (Sample.three.startNamed "cam0").2.trace)
      = [(1, true)] ∧
    (Sample.three.stopNamed "imu0").1 = false ∧
    stopComponentCalls (eventsSince Sample.three.trace (Sample.three.stopNamed "imu0").2.trace)
      = [] :=
  ⟨by decide, by decide, by decide, by decide, by decide,
    ((startNamed_stopNamed_result Sample.three "imu0").2.2.2 (by decide)).2.2.2.2.1⟩

end StartStopResults

/-! ## ComputeIURAWeights without a store -/

namespace gpstk

section NoStore

open ComputeIURAWeights

variable {R : Type}

/-- The loop of `Process` when no store is set: no exception, `weight` keeps the value it
has, and every entry gets that value under `TypeID::weight`. -/
theorem processLoop_no_store (self : ComputeIURAWeights) (d : Doubles R) (time : DayTime)
    (hb : self.pBCEphemeris = none) (ht : self.pTabEphemeris = none)
    (l : satTypeValueMap R) (w : R) (rej : SatIDSet) :
    self.processLoop d time l w rej
      = (l.map (fun e => (e.1, StdMap.set e.2 TypeID.weight w)), rej) := by
  induction l generalizing rej with
  | nil => rfl
  | cons e rest ih =>
    obtain ⟨sat, tv⟩ := e
    have htry : self.tryWeight d sat time w = some w := by
      simp [tryWeight, hb, ht]
    simp only [processLoop, htry, ih rej, List.map_cons]

/-- C23: when no ephemeris store is set (both pointers `NULL`, as after the default
constructor), `Process` removes no satellite (the satellites of the result are those of
`gData`, in the same order) and writes the default weight `0.000001` under `TypeID::weight`
for every satellite, leaving its other entries unchanged. -/
theorem Process_no_store (self : ComputeIURAWeights) (d : Doubles R) (time : DayTime)
    (gData : satTypeValueMap R)
    (hb : self.pBCEphemeris = none) (ht : self.pTabEphemeris = none) :
    self.Process d time gData
      = gData.map (fun e => (e.1, StdMap.set e.2 TypeID.weight d.tiny)) ∧
    (self.Process d time gData).map Prod.fst = gData.map Prod.fst ∧
    (∀ sat tv, (sat, tv) ∈ self.Process d time gData →
      StdMap.find tv TypeID.weight = some d.tiny ∧
      ∃ tv0, (sat, tv0) ∈ gData ∧
        ∀ t, t ≠ TypeID.weight → StdMap.find tv t = StdMap.find tv0 t) := by
  have hproc : self.Process d time gData
      = gData.map (fun e => (e.1, StdMap.set e.2 TypeID.weight d.tiny)) := by
    unfold Process satTypeValueMap.removeSatID
    simp only [processLoop_no_store self d time hb ht gData d.tiny []]
    simp
  refine ⟨hproc, ?_, ?_⟩
  · rw [hproc, List.map_map]
    rfl
  · intro sat tv hmem
    rw [hproc] at hmem
    obtain ⟨e, he, heq⟩ := List.mem_map.1 hmem
    obtain ⟨hs, htv⟩ := Prod.mk.inj heq
    subst hs
    refine ⟨by rw [← htv]; exact StdMap.find_set_self _ _ _, e.2, he, ?_⟩
    intro t hne
    rw [← htv]; exact StdMap.find_set_ne _ _ _ _ hne

theorem Process_no_store_witness :
    ComputeIURAWeights.default.pBCEphemeris = none ∧
    ComputeIURAWeights.default.pTabEphemeris = none ∧
    ComputeIURAWeights.default.Process Sample.symbolic 0 Sample.epochData
      = [(1, [(TypeID.other 5, .measured 20), (TypeID.weight, .tiny)]),
          (2, [(TypeID.other 5, .measured 21), (TypeID.weight, .tiny)]),
          (3, [(TypeID.weight, .tiny), (TypeID.other 5, .measured 22)])] ∧
    (ComputeIURAWeights.default.Process Sample.symbolic 0 Sample.epochData).map Prod.fst
      = Sample.epochData.map Prod.fst :=
  ⟨rfl, rfl, by decide,
    (Process_no_store ComputeIURAWeights.default Sample.symbolic 0 Sample.epochData
      rfl rfl).2.1⟩

end NoStore

end gpstk

/-! ## The unconfigured count -/

section UnconfiguredCount

open ComponentManager

theorem createStep_keys (m : ComponentManager) (it : QString) :
    (∀ k, (m.createStep it).componentMap_.contains k = true →
      m.componentMap_.contains k = true ∨ k = (m.xmlTree_.getComponent it).name) ∧
    (m.componentMap_.WF → (m.createStep it).componentMap_.WF) := by
  obtain ⟨_, _, _, hcase⟩ := createStep_spec m it
  rcases hcase with hsame | ⟨_, hmap | ⟨hnot, hmap⟩⟩
  · rw [hsame]; exact ⟨fun _ h => Or.inl h, id⟩
  · rw [hmap]; exact ⟨fun _ h => Or.inl h, id⟩
  · rw [hmap]
    refine ⟨fun k h => ?_, fun hwf => ?_⟩
    · rcases (QMap.contains_insert _ _ _ _).1 h with h | h
      · exact Or.inr h
      · exact Or.inl h
    · have hp := (QMap.insert_perm m.componentMap_ (m.xmlTree_.getComponent it).name
        m.heap.length hnot).map Prod.fst
      unfold QMap.WF QMap.keys
      refine hp.nodup_iff.2 ?_
      simp only [List.map_cons, List.nodup_cons]
      refine ⟨fun hmem => ?_, hwf⟩
      have := (QMap.mem_keys_iff m.componentMap_ _).1 hmem
      rw [hnot] at this
      exact Bool.noConfusion this

/-- The create loop keeps the component map a map (one entry per key) and registers
instances only under names the configuration gives for the listed names. -/
theorem createPhase_keys (names : List QString) (m : ComponentManager) :
    (∀ k, (m.createPhase names).componentMap_.contains k = true →
      m.componentMap_.contains k = true ∨
      ∃ it ∈ names, k = (m.xmlTree_.getComponent it).name) ∧
    (m.componentMap_.WF → (m.createPhase names).componentMap_.WF) := by
  induction names generalizing m with
  | nil => exact ⟨fun _ h => Or.inl h, id⟩
  | cons it rest ih =>
    have hfold : m.createPhase (it :: rest) = (m.createStep it).createPhase rest := rfl
    obtain ⟨hx, _, _, _⟩ := createStep_spec m it
    obtain ⟨s1, s2⟩ := createStep_keys m it
    obtain ⟨i1, i2⟩ := ih (m.createStep it)
    rw [hfold]
    refine ⟨fun k h => ?_, fun hwf => i2 (s2 hwf)⟩
    rcases i1 k h with h | ⟨j, hj, hk⟩
    · rcases s1 k h with h | h
      · exact Or.inl h
      · exact Or.inr ⟨it, List.mem_cons_self _ _, h⟩
    · rw [hx] at hk
      exact Or.inr ⟨j, List.mem_cons_of_mem _ hj, hk⟩

/-- The retry loop leaves alone an object that is `CONFIGURED_OK`, `CONFIGURED_FAILED`, or
not live. -/
theorem retryPhase_fixed (env : Env) (names : List QString) (m : ComponentManager) (n : Int)
    (a : Addr) (x : Option COMPONENT_CONFIGURATION) (hx : m.configurationOf a = x)
    (hsettled : x = some .CONFIGURED_OK ∨ x = some .CONFIGURED_FAILED ∨ x = none) :
    (retryPhase env (m, n) names).1.configurationOf a = x := by
  induction names generalizing m n with
  | nil => exact hx
  | cons it rest ih =>
    obtain ⟨_, _, _, hother, _, hself⟩ := retryStep_spec env m n it
    have hfold : retryPhase env (m, n) (it :: rest)
        = retryPhase env ((retryStep env (m, n) it).1, (retryStep env (m, n) it).2) rest := rfl
    rw [hfold]
    apply ih
    by_cases hg : m.getComponent (m.xmlTree_.getComponent it).name = some a
    · have hd : m.configurationOf a ≠ some .CONFIGURATION_DELAYED := by
        rw [hx]
        rcases hsettled with h | h | h <;> rw [h] <;> simp
      rw [((hself a hg).1 hd).2.1, hx]
      rcases hsettled with h | h | h <;> rw [h] <;> simp [settle]
    · rw [(hother a hg).2]; exact hx

theorem retryPhase_fixed_named (env : Env) (names : List QString) (m : ComponentManager)
    (n : Int) (k : QString) (x : Option COMPONENT_CONFIGURATION) (hx : m.stateOfNamed k = x)
    (hsettled : x = some .CONFIGURED_OK ∨ x = some .CONFIGURED_FAILED ∨ x = none) :
    (retryPhase env (m, n) names).1.stateOfNamed k = x := by
  obtain ⟨_, _, sr⟩ := retryPhase_same env names m n
  unfold stateOfNamed at hx ⊢
  rw [sr.getComponent_eq]
  cases hg : m.getComponent k with
  | none => rw [hg] at hx; exact hx
  | some a =>
    rw [hg] at hx
    exact retryPhase_fixed env names m n a x hx hsettled

/-- One retry iteration: the counter goes down by one exactly when the component the listed
name resolves to is `CONFIGURED_OK` after the iteration, and that component is then settled
(or there is none). -/
theorem retryStep_count (env : Env) (m : ComponentManager) (n : Int) (it : QString) :
    (retryStep env (m, n) it).2
      = n - (if (retryStep env (m, n) it).1.stateOfNamed (m.xmlTree_.getComponent it).name
          = some .CONFIGURED_OK then 1 else 0) ∧
    ((retryStep env (m, n) it).1.stateOfNamed (m.xmlTree_.getComponent it).name
        = some .CONFIGURED_OK ∨
      (retryStep env (m, n) it).1.stateOfNamed (m.xmlTree_.getComponent it).name
        = some .CONFIGURED_FAILED ∨
      (retryStep env (m, n) it).1.stateOfNamed (m.xmlTree_.getComponent it).name = none) := by
  obtain ⟨_, _, sr, _, hnone, hself⟩ := retryStep_spec env m n it
  have hst : (retryStep env (m, n) it).1.stateOfNamed (m.xmlTree_.getComponent it).name
      = (m.getComponent (m.xmlTree_.getComponent it).name).bind
          (retryStep env (m, n) it).1.configurationOf := by
    unfold stateOfNamed
    rw [sr.getComponent_eq]
  rw [hst]
  cases hg : m.getComponent (m.xmlTree_.getComponent it).name with
  | none =>
    rw [hnone hg]
    simp
  | some b =>
    simp only [Option.some_bind]
    by_cases hd : m.configurationOf b = some .CONFIGURATION_DELAYED
    · obtain ⟨s, _, hc, hcount⟩ := (hself b hg).2 hd
      simp only [hc, hcount]
      rcases settle_cases (env.configureComponent b (m.xmlTree_.getComponent it) s) with e | e
      · have := settle_eq_ok _ e
        simp [this, settle]
      · have hne : env.configureComponent b (m.xmlTree_.getComponent it) s
            ≠ .CONFIGURED_OK := by
          intro h
          rw [h] at e
          simp [settle] at e
        simp [e, hne]
    · obtain ⟨_, hc, hcount⟩ := (hself b hg).1 hd
      simp only [hc, hcount]
      cases hm : m.configurationOf b with
      | none => simp
      | some c =>
        rcases settle_cases c with e | e
        · have := settle_eq_ok _ e
          simp [this, settle]
        · have hne : c ≠ .CONFIGURED_OK := by
            intro h
            rw [h] at e
            simp [settle] at e
          simp [e, hne]

/-- The retry loop brings the counter down by the number of list entries whose name
resolves to a component that is `CONFIGURED_OK` when the loop ends. -/
theorem retryPhase_count (env : Env) (names : List QString) (m : ComponentManager) (n : Int) :
    (retryPhase env (m, n) names).2
      = n - ((names.filter (fun it => decide
          ((retryPhase env (m, n) names).1.stateOfNamed (m.xmlTree_.getComponent it).name
            = some .CONFIGURED_OK))).length : Int) := by
  induction names generalizing m n with
  | nil => simp [retryPhase]
  | cons it rest ih =>
    have hfold : retryPhase env (m, n) (it :: rest)
        = retryPhase env ((retryStep env (m, n) it).1, (retryStep env (m, n) it).2) rest := rfl
    obtain ⟨hcount, hsettled⟩ := retryStep_count env m n it
    have hx : (retryStep env (m, n) it).1.xmlTree_ = m.xmlTree_ :=
      (retryStep_sameRegistry env m n it).2.2.1
    have hstable := retryPhase_fixed_named env rest (retryStep env (m, n) it).1
      (retryStep env (m, n) it).2 (m.xmlTree_.getComponent it).name _ rfl hsettled
    rw [hfold, ih, hx, List.filter_cons, hstable, hcount]
    by_cases hP : (retryStep env (m, n) it).1.stateOfNamed (m.xmlTree_.getComponent it).name
        = some .CONFIGURED_OK
    · simp only [hP, decide_True, if_true, List.length_cons, Nat.cast_add, Nat.cast_one]
      omega
    · simp only [hP, decide_False, if_false, Bool.false_eq_true]
      omega

/-- C21 (as stated) fails in two ways.  A configuration that lists the name `gps0` twice,
loaded into a fresh manager with configure routines that return `CONFIGURED_OK`, leaves one
registered component, `CONFIGURED_OK`, and reports the count -1 where no registered
component is unconfigured.  A registry that already holds the `CONFIGURED_OK` component
`gps0`, loaded with a configuration that lists only `nav0` and `map0`, leaves three
registered components, all `CONFIGURED_OK`, and reports the count 1. -/
theorem loadComponents_count_miscounts :
    ((Sample.fresh.loadComponents Sample.envListedTwiceOk "app.xml").componentsToConfigureCount
        = -1 ∧
      (Sample.fresh.loadComponents Sample.envListedTwiceOk "app.xml").mgr.unconfiguredCount
        = 0 ∧
      (Sample.fresh.loadComponents Sample.envListedTwiceOk "app.xml").count = 1) ∧
    ((Sample.running.loadComponents Sample.envNavBeforeMap "app.xml").componentsToConfigureCount
        = 1 ∧
      (Sample.running.loadComponents Sample.envNavBeforeMap "app.xml").mgr.unconfiguredCount
        = 0 ∧
      (Sample.running.loadComponents Sample.envNavBeforeMap "app.xml").count = 3) := by
  decide

/-- C21 (amended): for every configuration whose listed component names are pairwise
distinct, and every initial registry state that holds one entry per name and registers
only names the configuration lists, the unconfigured count that `loadComponents` reports
(`componentsToConfigureCount`) equals the number of registered names whose component is not
`CONFIGURED_OK` when `loadComponents` returns. -/
theorem loadComponents_unconfigured_count (env : Env) (m : ComponentManager)
    (configFilename : QString)
    (hdistinct : (env.loadFile configFilename).getAllComponents.Nodup)
    (hwf : m.componentMap_.WF)
    (hlisted : ∀ k, m.componentMap_.contains k = true →
      k ∈ (env.loadFile configFilename).getAllComponents) :
    (m.loadComponents env configFilename).componentsToConfigureCount
      = ((m.loadComponents env configFilename).mgr.unconfiguredCount : Int) := by
  have hP := afterPlugins_spec env m configFilename
  have hkeys := createPhase_keys (env.loadFile configFilename).getAllComponents
    (m.afterPlugins env configFilename)
  rw [← afterCreate_eq, hP.1, hP.2.2.1] at hkeys
  obtain ⟨hsub, hwf2⟩ := hkeys
  have hwf2 := hwf2 hwf
  have hmap := loadComponents_componentMap_ env m configFilename
  obtain ⟨_, _, sc⟩ := configurePhase_same env (env.loadFile configFilename).getAllComponents
    (m.afterCreate env configFilename)
  rw [← afterConfigure_eq] at sc
  have hx : (m.afterConfigure env configFilename).xmlTree_ = env.loadFile configFilename := by
    rw [sc.2.2.1, afterCreate_xmlTree_]
  have hcount := retryPhase_count env (env.loadFile configFilename).getAllComponents
    (m.afterConfigure env configFilename)
    ((m.afterCreate env configFilename).componentMap_.count : Int)
  rw [← loadComponents_count_eq, ← loadComponents_mgr_eq, hx] at hcount
  -- a listed name is the name of the node it resolves to
  have hfilter : (env.loadFile configFilename).getAllComponents.filter (fun it => decide
        ((m.loadComponents env configFilename).mgr.stateOfNamed
          ((env.loadFile configFilename).getComponent it).name = some .CONFIGURED_OK))
      = (env.loadFile configFilename).getAllComponents.filter (fun it => decide
        ((m.loadComponents env configFilename).mgr.stateOfNamed it = some .CONFIGURED_OK)) := by
    apply List.filter_congr
    intro it hit
    have hname := (XmlConfigFile.getComponent_name (env.loadFile configFilename) it hit).1
    unfold XmlComponentConfig.getComponentName at hname
    rw [hname]
  rw [hfilter] at hcount
  -- every registered name is listed
  have hreg : ∀ k, (m.afterCreate env configFilename).componentMap_.contains k = true →
      k ∈ (env.loadFile configFilename).getAllComponents := by
    intro k hk
    rcases hsub k hk with h | ⟨it, hit, hk⟩
    · exact hlisted k h
    · have hname := (XmlConfigFile.getComponent_name (env.loadFile configFilename) it hit).1
      unfold XmlComponentConfig.getComponentName at hname
      rw [hk, hname]; exact hit
  -- the names that are CONFIGURED_OK, counted over the list and over the registry
  have hperm : ((env.loadFile configFilename).getAllComponents.filter (fun it => decide
        ((m.loadComponents env configFilename).mgr.stateOfNamed it = some .CONFIGURED_OK))).Perm
      ((QMap.keys (m.afterCreate env configFilename).componentMap_).filter (fun it => decide
        ((m.loadComponents env configFilename).mgr.stateOfNamed it = some .CONFIGURED_OK))) := by
    rw [List.perm_ext_iff_of_nodup (hdistinct.filter _) (List.Nodup.filter _ hwf2)]
    intro k
    simp only [List.mem_filter, decide_eq_true_eq]
    constructor
    · rintro ⟨_, hok⟩
      refine ⟨?_, hok⟩
      rw [QMap.mem_keys_iff, ← hmap, QMap.contains_eq_true_iff]
      unfold stateOfNamed getComponent at hok
      cases hf : (m.loadComponents env configFilename).mgr.componentMap_.find k with
      | none => rw [hf] at hok; simp at hok
      | some a => exact ⟨a, rfl⟩
    · rintro ⟨hk, hok⟩
      exact ⟨hreg k ((QMap.mem_keys_iff _ _).1 hk), hok⟩
  rw [hcount, hperm.length_eq]
  unfold unconfiguredCount
  rw [hmap]
  have hlen := List.length_eq_length_filter_add
    (l := QMap.keys (m.afterCreate env configFilename).componentMap_) (fun it => decide
      ((m.loadComponents env configFilename).mgr.stateOfNamed it = some .CONFIGURED_OK))
  have hnot : (QMap.keys (m.afterCreate env configFilename).componentMap_).filter
        (fun it => !(decide
          ((m.loadComponents env configFilename).mgr.stateOfNamed it = some .CONFIGURED_OK)))
      = (QMap.keys (m.afterCreate env configFilename).componentMap_).filter
        (fun k => decide
          ((m.loadComponents env configFilename).mgr.stateOfNamed k ≠ some .CONFIGURED_OK)) := by
    apply List.filter_congr
    intro k _
    simp
  rw [hnot] at hlen
  have hc : (m.afterCreate env configFilename).componentMap_.count
      = (QMap.keys (m.afterCreate env configFilename).componentMap_).length := by
    simp [QMap.count, QMap.keys]
  rw [hc, hlen]
  push_cast
  omega

theorem loadComponents_unconfigured_count_witness :
    (Sample.envChain.loadFile "app.xml").getAllComponents.Nodup ∧
    Sample.fresh.componentMap_.WF ∧
    (Sample.fresh.loadComponents Sample.envChain "app.xml").mgr.unconfiguredCount = 1 ∧
    (Sample.fresh.loadComponents Sample.envChain "app.xml").componentsToConfigureCount
      = ((Sample.fresh.loadComponents Sample.envChain "app.xml").mgr.unconfiguredCount : Int) :=
  ⟨by decide, by decide, by decide,
    loadComponents_unconfigured_count Sample.envChain Sample.fresh "app.xml" (by decide)
      (by decide) (fun k h => by simp [Sample.fresh, QMap.contains, QMap.find] at h)⟩

end UnconfiguredCount

end pacpus
